import Mathlib

/-!
# cronexpr: the backward search `Prev` and the descriptor compiler `Parse`

A shallow embedding of `src/cronexpr.go` and `src/cronexpr_prev.go`.

* Go `int` is `Int`; a slice `[]int` is a `List Int`; an index expression that
  Go would abort on (index out of range) is the error `Err.indexOutOfRange`.
* `time.Time` is the record of what its accessors return: the civil fields,
  the nanoseconds, the location and the zone offset in effect.  A location is
  a name with its zone transitions; `time.Date` looks the offset up the way
  package `time` does and its 64-bit count of seconds wraps around.
* The receiver `*Expression` is threaded explicitly: every method returns the
  updated `Expression` next to its result.
* The mutual recursion of `prevYear` and `prevMonth` is driven by a fuel
  argument; running out of fuel is the error `Err.outOfFuel`.
* Code of the package that is not part of the two source files (the day
  resolver `calculateActualDaysOfMonth`, the forward helpers `nextYear` to
  `nextSecond`, the field handlers, the field finder, the alias normalizer, the
  default year list) is taken as a parameter.  Where a concrete schedule or
  descriptor is evaluated, these parts are modelled from the specification.
-/

namespace Cronexpr

/-! ## The `time` package -/

/-- A `*time.Location`: its name, the offset east of UTC (in seconds) in effect
before the first zone transition, and the zone transitions in ascending order,
each with the Unix second at which it happens and the offset in effect from
then on.  `time.UTC` and a `time.FixedZone` have no transition. -/
structure Location where
  name : String
  offset : Int
  tx : List (Int × Int)
  deriving DecidableEq

/-- The location `time.UTC`. -/
def UTC : Location := ⟨"UTC", 0, []⟩

/-- A `time.Time`, by what its accessors return: the civil fields in its own
location (`Year` to `Second`), `Nanosecond`, `Location`, and the offset of the
zone in effect at the instant (second result of `Zone`). -/
structure Time where
  year : Int
  month : Int
  day : Int
  hour : Int
  minute : Int
  second : Int
  nsec : Int
  loc : Location
  zoneOffset : Int
  deriving DecidableEq

/-- The value `time.Time{}`: January 1, year 1, 00:00:00.000000000 UTC. -/
def Time.zero : Time := ⟨1, 1, 1, 0, 0, 0, 0, UTC, 0⟩

/-- Leap years of the proleptic Gregorian calendar (`isLeap` of package `time`). -/
def isLeap (y : Int) : Bool := y % 4 == 0 && (y % 100 != 0 || y % 400 == 0)

/-- Number of days of month `m` (1..12) of year `y`; 0 for any other `m`. -/
def daysIn (y m : Int) : Int :=
  if m = 1 then 31 else if m = 2 then (if isLeap y then 29 else 28)
  else if m = 3 then 31 else if m = 4 then 30 else if m = 5 then 31
  else if m = 6 then 30 else if m = 7 then 31 else if m = 8 then 31
  else if m = 9 then 30 else if m = 10 then 31 else if m = 11 then 30
  else if m = 12 then 31 else 0

/-- Days of a non-leap year before the first day of month `m` (1..12). -/
def daysBefore (m : Int) : Int :=
  if m ≤ 1 then 0 else if m = 2 then 31 else if m = 3 then 59
  else if m = 4 then 90 else if m = 5 then 120 else if m = 6 then 151
  else if m = 7 then 181 else if m = 8 then 212 else if m = 9 then 243
  else if m = 10 then 273 else if m = 11 then 304 else 334

/-- Days from January 1 of year 1 to January 1 of year `y`. -/
def daysSinceEpoch (y : Int) : Int :=
  365 * (y - 1) + (y - 1) / 4 - (y - 1) / 100 + (y - 1) / 400

/-- Days from January 1 of year 1 to the civil date `y-m-d`. -/
def dayNumber (y m d : Int) : Int :=
  daysSinceEpoch y + daysBefore m + (if isLeap y ∧ 3 ≤ m then 1 else 0) + (d - 1)

/-- A 64-bit signed integer after an operation that may have left the range:
the value modulo 2^64 in [-2^63, 2^63). -/
def wrap64 (x : Int) : Int :=
  (x + 9223372036854775808) % 18446744073709551616 - 9223372036854775808

/-- The constant `absoluteZeroYear` of package `time`: the year its unsigned
count of seconds starts from. -/
def absoluteZeroYear : Int := -292277022399

/-- The last year all of whose seconds the signed 64-bit count of `time.Time`
holds. -/
def maxYear : Int := 292277024626

/-- Days from January 1 of `absoluteZeroYear` to January 1 of year 1. -/
def absoluteDays : Int := 106751990353932

/-- Seconds from January 1 of `absoluteZeroYear` to January 1 of 1970, the
Unix epoch. -/
def absoluteToUnix : Int := (absoluteDays + 719162) * 86400

/-- Seconds from January 1 of year 1 to the Unix epoch (`unixToInternal`). -/
def unixToInternal : Int := 62135596800

/-- The scan of `(*Location).lookup` over the transitions that are left:
`offset` is in effect from `start` on. -/
def lookupFrom (sec : Int) : Int → Int → List (Int × Int) → Int × Int × Int
  | offset, start, [] => (offset, start, 9223372036854775807)
  | offset, start, (w, o) :: rest =>
    if sec < w then (offset, start, w) else lookupFrom sec o w rest

/-- The method `(*Location).lookup`: the offset in effect at the Unix second
`sec`, with the seconds `start` and `end` between which it is in effect. -/
def Location.lookup (l : Location) (sec : Int) : Int × Int × Int :=
  lookupFrom sec l.offset (-9223372036854775808) l.tx

/-- Seconds from the zero instant (January 1, year 1, 00:00:00 UTC) to the
whole second of `t`: what `time.Time` stores as its 64-bit seconds count. -/
def Time.absSec (t : Time) : Int :=
  wrap64 (dayNumber t.year t.month t.day * 86400 + t.hour * 3600 + t.minute * 60 + t.second
    - t.zoneOffset)

/-- The method `Time.Unix`: seconds from the Unix epoch to the whole second of `t`. -/
def Time.Unix (t : Time) : Int := wrap64 (t.absSec - unixToInternal)

/-- The method `Time.IsZero`: the instant is January 1, year 1, 00:00:00 UTC. -/
def Time.IsZero (t : Time) : Prop := t.absSec = 0 ∧ t.nsec = 0

instance (t : Time) : Decidable t.IsZero := by unfold Time.IsZero; infer_instance

/-- The method `Time.Before`: instants compared by seconds, then nanoseconds. -/
def Time.Before (a b : Time) : Prop :=
  a.absSec < b.absSec ∨ (a.absSec = b.absSec ∧ a.nsec < b.nsec)

instance (a b : Time) : Decidable (a.Before b) := by unfold Time.Before; infer_instance

/-- The type invariant of `time.Time`: the civil fields are a real date and
time of day. -/
structure Time.Valid (t : Time) : Prop where
  month_lo : 1 ≤ t.month
  month_hi : t.month ≤ 12
  day_lo : 1 ≤ t.day
  day_hi : t.day ≤ daysIn t.year t.month
  hour_lo : 0 ≤ t.hour
  hour_hi : t.hour ≤ 23
  minute_lo : 0 ≤ t.minute
  minute_hi : t.minute ≤ 59
  second_lo : 0 ≤ t.second
  second_hi : t.second ≤ 59
  nsec_lo : 0 ≤ t.nsec
  nsec_hi : t.nsec ≤ 999999999

/-- The type invariant of `time.Time`, continued: the zone offset is the one
the location has in effect at the instant. -/
def Time.InZone (t : Time) : Prop := t.zoneOffset = (t.loc.lookup t.Unix).1

instance (t : Time) : Decidable t.InZone := by unfold Time.InZone; infer_instance

/-- The helper `norm` of package `time`: carries `lo` into `hi` so that
`0 ≤ lo < base`. -/
def norm (hi lo base : Int) : Int × Int := (hi + lo / base, lo % base)

/-- Year and day of the year (counted from 0) of the day that lies `d` days
after January 1 of `absoluteZeroYear` (`absDate` of package `time`: cycles of
400, 100, 4 and 1 years). -/
def yearOfDays (d : Int) : Int × Int :=
  let n400 := d / 146097
  let d := d - 146097 * n400
  let n100 := d / 36524
  let n100 := n100 - n100 / 4
  let d := d - 36524 * n100
  let n4 := d / 1461
  let d := d - 1461 * n4
  let n1 := d / 365
  let n1 := n1 - n1 / 4
  let d := d - 365 * n1
  (absoluteZeroYear + 400 * n400 + 100 * n100 + 4 * n4 + n1, d)

/-- Month and day of the month of the day `yd` (counted from 0) of a year. -/
def monthOfYday (leap : Bool) (yd : Int) : Int × Int :=
  if leap ∧ yd = 59 then (2, 29)
  else
    let d := if leap ∧ 59 < yd then yd - 1 else yd
    if d < 31 then (1, d + 1) else if d < 59 then (2, d - 30)
    else if d < 90 then (3, d - 58) else if d < 120 then (4, d - 89)
    else if d < 151 then (5, d - 119) else if d < 181 then (6, d - 150)
    else if d < 212 then (7, d - 180) else if d < 243 then (8, d - 211)
    else if d < 273 then (9, d - 242) else if d < 304 then (10, d - 272)
    else if d < 334 then (11, d - 303) else (12, d - 333)

/-- The instant of the Unix second `sec` in `loc`, as its accessors show it
(`unixTime`, `setLoc`, and `abs`, `date`, `clock` behind the accessors): the
civil fields are those of the unsigned 64-bit count of seconds since
`absoluteZeroYear`, shifted by the offset in effect. -/
def unixTime (sec nsec : Int) (loc : Location) : Time :=
  let offset := (loc.lookup sec).1
  let abs := (sec + offset + absoluteToUnix) % 18446744073709551616
  let yd := yearOfDays (abs / 86400)
  let md := monthOfYday (isLeap yd.1) yd.2
  let s := abs % 86400
  ⟨yd.1, md.1, md.2, s / 3600, s % 3600 / 60, s % 60, nsec, loc, offset⟩

/-- The function `time.Date`: the instant of the given civil fields in `loc`.
Out-of-range fields are normalized (October 32 becomes November 1).  The
count of seconds is a 64-bit integer and wraps around.  The offset is looked
up as if the civil time were UTC and corrected once when the result leaves
the span of that offset, so a civil time that a zone transition skips or
repeats comes out in one of the two zones involved. -/
def Date (year month day hour min sec nsec : Int) (loc : Location) : Time :=
  let ym := norm year (month - 1) 12
  let sn := norm sec nsec 1000000000
  let ms := norm min sn.1 60
  let hm := norm hour ms.1 60
  let dh := norm day hm.1 24
  let abs := (dayNumber ym.1 (ym.2 + 1) dh.1 + absoluteDays) * 86400
    + dh.2 * 3600 + hm.2 * 60 + ms.2
  let unix := wrap64 (abs - absoluteToUnix)
  let r := loc.lookup unix
  let unix :=
    if r.1 ≠ 0 then
      let utc := wrap64 (unix - r.1)
      let offset := if utc < r.2.1 ∨ utc ≥ r.2.2 then (loc.lookup utc).1 else r.1
      wrap64 (unix - offset)
    else unix
  unixTime unix sn.2 loc

/-- The method `Time.AddDate`. -/
def Time.AddDate (t : Time) (years months days : Int) : Time :=
  Date (t.year + years) (t.month + months) (t.day + days) t.hour t.minute t.second t.nsec t.loc

/-! ## Slices and `sort.SearchInts` -/

/-- What a Go function can end in besides returning. -/
inductive Err where
  | indexOutOfRange
  | outOfFuel
  | capOutOfRange
  deriving DecidableEq

/-- The index expression `slice[i]`. -/
def index (slice : List Int) (i : Int) : Except Err Int :=
  if 0 ≤ i then
    match slice.get? i.toNat with
    | some v => .ok v
    | none => .error .indexOutOfRange
  else .error .indexOutOfRange

/-- The loop of `sort.Search`: binary search on `[i, j)`. -/
def searchLoop (f : Nat → Bool) : Nat → Nat → Nat → Nat
  | 0, i, _ => i
  | fuel + 1, i, j =>
    if i < j then
      let h := (i + j) / 2
      if !f h then searchLoop f fuel (h + 1) j else searchLoop f fuel i h
    else i

/-- The function `sort.SearchInts`: binary search for the smallest index whose
element is at least `x`. -/
def SearchInts (a : List Int) (x : Int) : Nat :=
  searchLoop (fun h => decide (x ≤ a.getD h 0)) a.length 0 a.length

/-! ## `cronexpr.go`: the compiled expression -/

/-- The struct `Expression`; a Go `map[int]bool` is a list of key/value pairs. -/
structure Expression where
  expression : String
  secondList : List Int
  minuteList : List Int
  hourList : List Int
  daysOfMonth : List (Int × Bool)
  workdaysOfMonth : List (Int × Bool)
  lastDayOfMonth : Bool
  lastWorkdayOfMonth : Bool
  daysOfMonthRestricted : Bool
  actualDaysOfMonthList : List Int
  monthList : List Int
  daysOfWeek : List (Int × Bool)
  specificWeekDaysOfWeek : List (Int × Bool)
  lastWeekDaysOfWeek : List (Int × Bool)
  daysOfWeekRestricted : Bool
  yearList : List Int
  deriving DecidableEq

/-- The value `Expression{}`. -/
def Expression.empty : Expression :=
  ⟨"", [], [], [], [], [], false, false, false, [], [], [], [], [], false, []⟩

/-- The method `calculateActualDaysOfMonth(year, month)`, which is not part of
the two source files: the day resolver of an expression. -/
abbrev DayResolver := Expression → Int → Int → List Int

/-- What a query method yields: the instant and the receiver after the call. -/
abbrev Query := Except Err (Time × Expression)

/-! ## `cronexpr_prev.go` -/

/-- The function `lastOf`: `slice[len(slice)-1]`. -/
def lastOf (slice : List Int) : Except Err Int :=
  index slice ((slice.length : Int) - 1)

/-- The function `lastDayOfMonth(year, month, location)`. -/
def lastDayOfMonth (year month : Int) (location : Location) : Int :=
  let firstOfMonth := Date year month 1 0 0 0 0 location
  let lastOfMonth := firstOfMonth.AddDate 0 1 (-1)
  lastOfMonth.day

/-- The condition `i == 0 && slice[i] != v`, with Go's short-circuit order. -/
def frontDiffers (slice : List Int) (i : Nat) (v : Int) : Except Err Bool :=
  if i = 0 then do
    let x ← index slice i
    pure (x != v)
  else pure false

/-- The condition `i == len(slice) || slice[i] != v`, with Go's short-circuit order. -/
def absentAt (slice : List Int) (i : Nat) (v : Int) : Except Err Bool :=
  if i = slice.length then pure true
  else do
    let x ← index slice i
    pure (x != v)

/-- The function `findTargetOrLower`: the index of the value, or the one
immediately under; -1 if all elements are greater than value. -/
def findTargetOrLower (slice : List Int) (value : Int) : Except Err Int := do
  let i := SearchInts slice value
  if (← frontDiffers slice i value) then
    return -1
  if (← absentAt slice i value) then
    return (i : Int) - 1
  return (i : Int)

mutual

/-- The method `prevYear`. -/
def prevYear (resolve : DayResolver) : Nat → Expression → Time → Query
  | 0, _, _ => .error .outOfFuel
  | fuel + 1, expr, t => do
    let i ← findTargetOrLower expr.yearList (t.year - 1)
    if i = -1 then
      return (Time.zero, expr)
    let y ← index expr.yearList i
    let lm ← lastOf expr.monthList
    let expr := { expr with actualDaysOfMonthList := resolve expr y lm }
    if expr.actualDaysOfMonthList.length = 0 then
      let lh ← lastOf expr.hourList
      let lmi ← lastOf expr.minuteList
      let ls ← lastOf expr.secondList
      prevMonth resolve fuel expr (Date y lm (lastDayOfMonth y lm t.loc) lh lmi ls 0 t.loc)
    else
      let ld ← lastOf expr.actualDaysOfMonthList
      let lh ← lastOf expr.hourList
      let lmi ← lastOf expr.minuteList
      let ls ← lastOf expr.secondList
      return (Date y lm ld lh lmi ls 0 t.loc, expr)

/-- The method `prevMonth`. -/
def prevMonth (resolve : DayResolver) : Nat → Expression → Time → Query
  | 0, _, _ => .error .outOfFuel
  | fuel + 1, expr, t => do
    let i ← findTargetOrLower expr.monthList (t.month - 1)
    if i = -1 then
      prevYear resolve fuel expr t
    else
      let mo ← index expr.monthList i
      let expr := { expr with actualDaysOfMonthList := resolve expr t.year mo }
      if expr.actualDaysOfMonthList.length = 0 then
        let lh ← lastOf expr.hourList
        let lmi ← lastOf expr.minuteList
        let ls ← lastOf expr.secondList
        prevMonth resolve fuel expr (Date t.year mo (lastDayOfMonth t.year mo t.loc) lh lmi ls 0 t.loc)
      else
        let ld ← lastOf expr.actualDaysOfMonthList
        let lh ← lastOf expr.hourList
        let lmi ← lastOf expr.minuteList
        let ls ← lastOf expr.secondList
        return (Date t.year mo ld lh lmi ls 0 t.loc, expr)

end

/-- The method `prevDayOfMonth`. -/
def prevDayOfMonth (resolve : DayResolver) (fuel : Nat) (expr : Expression) (t : Time) : Query := do
  let i ← findTargetOrLower expr.actualDaysOfMonthList (t.day - 1)
  if i = -1 then
    prevMonth resolve fuel expr t
  else
    let d ← index expr.actualDaysOfMonthList i
    let lh ← lastOf expr.hourList
    let lmi ← lastOf expr.minuteList
    let ls ← lastOf expr.secondList
    return (Date t.year t.month d lh lmi ls 0 t.loc, expr)

/-- The method `prevHour`. -/
def prevHour (resolve : DayResolver) (fuel : Nat) (expr : Expression) (t : Time) : Query := do
  let i ← findTargetOrLower expr.hourList (t.hour - 1)
  if i = -1 then
    prevDayOfMonth resolve fuel expr t
  else
    let h ← index expr.hourList i
    let lmi ← lastOf expr.minuteList
    let ls ← lastOf expr.secondList
    return (Date t.year t.month t.day h lmi ls 0 t.loc, expr)

/-- The method `prevMinute`. -/
def prevMinute (resolve : DayResolver) (fuel : Nat) (expr : Expression) (t : Time) : Query := do
  let i ← findTargetOrLower expr.minuteList (t.minute - 1)
  if i = -1 then
    prevHour resolve fuel expr t
  else
    let mi ← index expr.minuteList i
    let ls ← lastOf expr.secondList
    return (Date t.year t.month t.day t.hour mi ls 0 t.loc, expr)

/-- The method `prevSecond`. -/
def prevSecond (resolve : DayResolver) (fuel : Nat) (expr : Expression) (t : Time) : Query := do
  let i ← findTargetOrLower expr.secondList (t.second - 1)
  if i = -1 then
    prevMinute resolve fuel expr t
  else
    let s ← index expr.secondList i
    return (Date t.year t.month t.day t.hour t.minute s 0 t.loc, expr)

/-! ## `cronexpr.go`: the queries -/

/-- The method `Prev`. -/
def Prev (resolve : DayResolver) (fuel : Nat) (expr : Expression) (fromTime : Time) : Query := do
  -- Special case
  if fromTime.IsZero then
    return (fromTime, expr)
  -- year
  let v := fromTime.year
  let i := SearchInts expr.yearList v
  if (← frontDiffers expr.yearList i v) then
    return (Time.zero, expr)
  if (← absentAt expr.yearList i v) then
    prevYear resolve fuel expr fromTime
  else
  -- month
  let v := fromTime.month
  let i := SearchInts expr.monthList v
  if (← frontDiffers expr.monthList i v) then
    prevYear resolve fuel expr fromTime
  else if (← absentAt expr.monthList i v) then
    prevMonth resolve fuel expr fromTime
  else
  let expr := { expr with
    actualDaysOfMonthList := resolve expr fromTime.year fromTime.month }
  if expr.actualDaysOfMonthList.length = 0 then
    prevMonth resolve fuel expr fromTime
  else
  -- day of month
  let v := fromTime.day
  let i := SearchInts expr.actualDaysOfMonthList v
  if (← frontDiffers expr.actualDaysOfMonthList i v) then
    prevMonth resolve fuel expr fromTime
  else if (← absentAt expr.actualDaysOfMonthList i v) then
    prevDayOfMonth resolve fuel expr fromTime
  else
  -- hour
  let v := fromTime.hour
  let i := SearchInts expr.hourList v
  if (← frontDiffers expr.hourList i v) then
    prevDayOfMonth resolve fuel expr fromTime
  else if (← absentAt expr.hourList i v) then
    prevHour resolve fuel expr fromTime
  else
  -- minute
  let v := fromTime.minute
  let i := SearchInts expr.minuteList v
  if (← frontDiffers expr.minuteList i v) then
    prevHour resolve fuel expr fromTime
  else if (← absentAt expr.minuteList i v) then
    prevMinute resolve fuel expr fromTime
  else
  -- second
  let v := fromTime.second
  let i := SearchInts expr.secondList v
  if (← frontDiffers expr.secondList i v) then
    prevMinute resolve fuel expr fromTime
  else
  prevSecond resolve fuel expr fromTime

/-- The forward helpers `nextYear`, `nextMonth`, `nextDayOfMonth`, `nextHour`,
`nextMinute` and `nextSecond`, which are not part of the two source files. -/
structure NextHelpers where
  nextYear : Expression → Time → Query
  nextMonth : Expression → Time → Query
  nextDayOfMonth : Expression → Time → Query
  nextHour : Expression → Time → Query
  nextMinute : Expression → Time → Query
  nextSecond : Expression → Time → Query

/-- The method `Next`. -/
def Next (resolve : DayResolver) (helpers : NextHelpers) (expr : Expression)
    (fromTime : Time) : Query := do
  -- Special case
  if fromTime.IsZero then
    return (fromTime, expr)
  -- year
  let v := fromTime.year
  let i := SearchInts expr.yearList v
  if i = expr.yearList.length then
    return (Time.zero, expr)
  if v ≠ (← index expr.yearList i) then
    helpers.nextYear expr fromTime
  else
  -- month
  let v := fromTime.month
  let i := SearchInts expr.monthList v
  if i = expr.monthList.length then
    helpers.nextYear expr fromTime
  else if v ≠ (← index expr.monthList i) then
    helpers.nextMonth expr fromTime
  else
  let expr := { expr with
    actualDaysOfMonthList := resolve expr fromTime.year fromTime.month }
  if expr.actualDaysOfMonthList.length = 0 then
    helpers.nextMonth expr fromTime
  else
  -- day of month
  let v := fromTime.day
  let i := SearchInts expr.actualDaysOfMonthList v
  if i = expr.actualDaysOfMonthList.length then
    helpers.nextMonth expr fromTime
  else if v ≠ (← index expr.actualDaysOfMonthList i) then
    helpers.nextDayOfMonth expr fromTime
  else
  -- hour
  let v := fromTime.hour
  let i := SearchInts expr.hourList v
  if i = expr.hourList.length then
    helpers.nextDayOfMonth expr fromTime
  else if v ≠ (← index expr.hourList i) then
    helpers.nextHour expr fromTime
  else
  -- minute
  let v := fromTime.minute
  let i := SearchInts expr.minuteList v
  if i = expr.minuteList.length then
    helpers.nextHour expr fromTime
  else if v ≠ (← index expr.minuteList i) then
    helpers.nextMinute expr fromTime
  else
  -- second
  let v := fromTime.second
  let i := SearchInts expr.secondList v
  if i = expr.secondList.length then
    helpers.nextMinute expr fromTime
  else
  helpers.nextSecond expr fromTime

/-- The loop `for { ... }` of `NextN`: `n` is what is still to collect, and the
loop is entered with `n > 0` only. -/
def nextNLoop (helpers : NextHelpers) :
    Nat → Expression → Time → List Time → Except Err (List Time × Expression)
  | 0, expr, _, nextTimes => .ok (nextTimes, expr)
  | n + 1, expr, fromTime, nextTimes =>
    if fromTime.IsZero then
      .ok (nextTimes, expr)
    else
      let nextTimes := nextTimes ++ [fromTime]
      -- n -= 1
      if n = 0 then
        .ok (nextTimes, expr)
      else do
        let r ← helpers.nextSecond expr fromTime
        nextNLoop helpers n r.2 r.1 nextTimes

/-- The largest capacity `make([]time.Time, 0, n)` accepts on a 64-bit platform:
a `time.Time` takes 24 bytes and one allocation at most 2^48 bytes.  Beyond it
`make` aborts (`makeslice: cap out of range`). -/
def maxSliceCap : Nat := 11728124029610

/-- The method `NextN`; the `uint` argument `n` is a natural number. -/
def NextN (resolve : DayResolver) (helpers : NextHelpers) (expr : Expression)
    (fromTime : Time) (n : Nat) : Except Err (List Time × Expression) :=
  if n > maxSliceCap then .error .capOutOfRange
  else
  let nextTimes : List Time := []
  if n > 0 then do
    let r ← Next resolve helpers expr fromTime
    nextNLoop helpers n r.2 r.1 nextTimes
  else .ok (nextTimes, expr)

/-- The `n`-th element of the sequence `t`, `Prev(t)`, `Prev(Prev(t))`, ...,
each call made on the receiver the previous call left behind. -/
def PrevN (resolve : DayResolver) (fuel : Nat) (expr : Expression) (t : Time) : Nat → Query
  | 0 => .ok (t, expr)
  | n + 1 => do
    let r ← PrevN resolve fuel expr t n
    Prev resolve fuel r.2 r.1

/-! ## `cronexpr.go`: the compiler `Parse` -/

/-- A Go `error` value, by its message. -/
abbrev Error := String

/-- A field handler method (`secondFieldHandler`, ..., `yearFieldHandler`):
it returns an error, or the receiver with the field compiled into it. -/
abbrev FieldHandler := Expression → String → Except Error Expression

/-- The parts of the package `Parse` relies on that are not part of the two
source files: the alias replacer `cronNormalizer`, the field finder
`fieldFinder` (by its method `FindAllStringIndex(s, -1)`, which yields the
start and end offset of every field), the seven field handlers, and the
constant `yearDescriptor.defaultList`. -/
structure ParseEnv where
  cronNormalizer : String → String
  fieldFinder : String → List (Nat × Nat)
  secondFieldHandler : FieldHandler
  minuteFieldHandler : FieldHandler
  hourFieldHandler : FieldHandler
  domFieldHandler : FieldHandler
  monthFieldHandler : FieldHandler
  dowFieldHandler : FieldHandler
  yearFieldHandler : FieldHandler
  defaultYearList : List Int

/-- The slice expression `s[a:b]` on offsets delivered by the field finder. -/
def slice (s : String) (a b : Nat) : String := ⟨(s.data.drop a).take (b - a)⟩

/-- The expression `cron[indices[field][0]:indices[field][1]]`. -/
def fieldAt (cron : String) (indices : List (Nat × Nat)) (field : Nat) : String :=
  slice cron (indices.getD field (0, 0)).1 (indices.getD field (0, 0)).2

/-- The function `Parse`; the result is the pair `(*Expression, error)`, with
`none` for `nil`. -/
def Parse (env : ParseEnv) (cronLine : String) : Option Expression × Option Error :=
  -- Maybe one of the built-in aliases is being used
  let cron := env.cronNormalizer cronLine
  let indices := env.fieldFinder cron
  let fieldCount := indices.length
  if fieldCount < 5 then
    (none, some "missing field(s)")
  else
    -- ignore fields beyond 7th
    let fieldCount := if fieldCount > 7 then 7 else fieldCount
    let expr := Expression.empty
    let field := 0
    -- second field (optional)
    match (if fieldCount = 7 then
        (env.secondFieldHandler expr (fieldAt cron indices field)).map (fun e => (e, field + 1))
      else .ok ({ expr with secondList := [0] }, field)) with
    | .error err => (none, some err)
    | .ok (expr, field) =>
    -- minute field
    match env.minuteFieldHandler expr (fieldAt cron indices field) with
    | .error err => (none, some err)
    | .ok expr =>
    let field := field + 1
    -- hour field
    match env.hourFieldHandler expr (fieldAt cron indices field) with
    | .error err => (none, some err)
    | .ok expr =>
    let field := field + 1
    -- day of month field
    match env.domFieldHandler expr (fieldAt cron indices field) with
    | .error err => (none, some err)
    | .ok expr =>
    let field := field + 1
    -- month field
    match env.monthFieldHandler expr (fieldAt cron indices field) with
    | .error err => (none, some err)
    | .ok expr =>
    let field := field + 1
    -- day of week field
    match env.dowFieldHandler expr (fieldAt cron indices field) with
    | .error err => (none, some err)
    | .ok expr =>
    let field := field + 1
    -- year field
    if field < fieldCount then
      match env.yearFieldHandler expr (fieldAt cron indices field) with
      | .error err => (none, some err)
      | .ok expr => (some expr, none)
    else
      (some { expr with yearList := env.defaultYearList }, none)

/-! ## Vocabulary of the properties -/

/-- The receiver with its day-list cache `actualDaysOfMonthList` replaced. -/
def Expression.withDays (e : Expression) (l : List Int) : Expression :=
  { e with actualDaysOfMonthList := l }

/-- The data-model invariant of a compiled expression: the year, month, hour,
minute and second lists are non-empty and strictly ascending, and month, hour,
minute and second values lie in their calendar domain. -/
structure WellFormed (e : Expression) : Prop where
  year_ne : e.yearList ≠ []
  year_asc : e.yearList.Pairwise (· < ·)
  month_ne : e.monthList ≠ []
  month_asc : e.monthList.Pairwise (· < ·)
  month_range : ∀ m ∈ e.monthList, 1 ≤ m ∧ m ≤ 12
  hour_ne : e.hourList ≠ []
  hour_asc : e.hourList.Pairwise (· < ·)
  hour_range : ∀ h ∈ e.hourList, 0 ≤ h ∧ h ≤ 23
  minute_ne : e.minuteList ≠ []
  minute_asc : e.minuteList.Pairwise (· < ·)
  minute_range : ∀ m ∈ e.minuteList, 0 ≤ m ∧ m ≤ 59
  second_ne : e.secondList ≠ []
  second_asc : e.secondList.Pairwise (· < ·)
  second_range : ∀ s ∈ e.secondList, 0 ≤ s ∧ s ≤ 59

/-- The order invariant of the lists alone: the year, month, hour, minute and
second lists are non-empty and strictly ascending. -/
structure Ascending (e : Expression) : Prop where
  year_ne : e.yearList ≠ []
  year_asc : e.yearList.Pairwise (· < ·)
  month_ne : e.monthList ≠ []
  month_asc : e.monthList.Pairwise (· < ·)
  hour_ne : e.hourList ≠ []
  hour_asc : e.hourList.Pairwise (· < ·)
  minute_ne : e.minuteList ≠ []
  minute_asc : e.minuteList.Pairwise (· < ·)
  second_ne : e.secondList ≠ []
  second_asc : e.secondList.Pairwise (· < ·)

/-- The contract of the day resolver on an expression: its result depends on
the schedule and on (year, month) only, not on the day-list cache; it is
ascending; and it holds valid days of the month it is asked about. -/
structure ResolverOK (resolve : DayResolver) (e : Expression) : Prop where
  frame : ∀ l y m, resolve (e.withDays l) y m = resolve e y m
  asc : ∀ y m, (resolve e y m).Pairwise (· ≤ ·)
  valid : ∀ y m d, 1 ≤ m → m ≤ 12 → d ∈ resolve e y m → 1 ≤ d ∧ d ≤ daysIn y m

/-- The instant `m` matches the schedule at every level. -/
structure Matches (resolve : DayResolver) (e : Expression) (m : Time) : Prop where
  year : m.year ∈ e.yearList
  month : m.month ∈ e.monthList
  day : m.day ∈ resolve e m.year m.month
  hour : m.hour ∈ e.hourList
  minute : m.minute ∈ e.minuteList
  second : m.second ∈ e.secondList

/-- Fuel that lets `Prev` visit every (year, month) pair of the schedule. -/
def prevFuel (e : Expression) : Nat :=
  (e.yearList.length + 1) * (e.monthList.length + 2)

/-- Day of the year of the civil date `y-m-d`, counted from 0. -/
def yday (y m d : Int) : Int :=
  daysBefore m + (if isLeap y ∧ 3 ≤ m then 1 else 0) + (d - 1)

/-- Civil order of two instants, compared down to the year. -/
def ltYear (a b : Time) : Prop := a.year < b.year

/-- Civil order of two instants, compared down to the month. -/
def ltMonth (a b : Time) : Prop :=
  a.year < b.year ∨ (a.year = b.year ∧ a.month < b.month)

/-- Civil order of two instants, compared down to the day. -/
def ltDay (a b : Time) : Prop :=
  a.year < b.year ∨ (a.year = b.year ∧ (a.month < b.month ∨ (a.month = b.month ∧
    a.day < b.day)))

/-- Civil order of two instants, compared down to the hour. -/
def ltHour (a b : Time) : Prop :=
  a.year < b.year ∨ (a.year = b.year ∧ (a.month < b.month ∨ (a.month = b.month ∧
    (a.day < b.day ∨ (a.day = b.day ∧ a.hour < b.hour)))))

/-- Civil order of two instants, compared down to the minute. -/
def ltMinute (a b : Time) : Prop :=
  a.year < b.year ∨ (a.year = b.year ∧ (a.month < b.month ∨ (a.month = b.month ∧
    (a.day < b.day ∨ (a.day = b.day ∧ (a.hour < b.hour ∨ (a.hour = b.hour ∧
      a.minute < b.minute)))))))

/-- Civil order of two instants, compared down to the second. -/
def ltSecond (a b : Time) : Prop :=
  a.year < b.year ∨ (a.year = b.year ∧ (a.month < b.month ∨ (a.month = b.month ∧
    (a.day < b.day ∨ (a.day = b.day ∧ (a.hour < b.hour ∨ (a.hour = b.hour ∧
      (a.minute < b.minute ∨ (a.minute = b.minute ∧ a.second < b.second)))))))))

/-- What a backward helper called on `t` has to deliver, for the civil order
`lt` of its level: either `r` is `time.Time{}` and no match lies below `t`, or
`r` is a match below `t`, on a whole second, in the location of `t` and at
its offset, no match below `t` is later than `r`, and the day-list cache `l`
left behind is the resolved day list of the month of `r`. -/
def Latest (resolve : DayResolver) (e : Expression) (lt : Time → Time → Prop)
    (t r : Time) (l : List Int) : Prop :=
  (r = Time.zero ∧ ∀ m, Matches resolve e m → ¬ lt m t) ∨
  (Matches resolve e r ∧ r.nsec = 0 ∧ (r.loc = t.loc ∧ r.zoneOffset = t.loc.offset) ∧ lt r t ∧
    l = resolve e r.year r.month ∧
    ∀ m, Matches resolve e m → lt m t → ¬ ltSecond r m)

/-- Number of elements of a slice below `v`. -/
def countBelow (a : List Int) (v : Int) : Nat := (a.filter (fun x => decide (x < v))).length

/-- The year, month, hour, minute and second lists are non-empty. -/
structure NonEmpty (e : Expression) : Prop where
  year_ne : e.yearList ≠ []
  month_ne : e.monthList ≠ []
  hour_ne : e.hourList ≠ []
  minute_ne : e.minuteList ≠ []
  second_ne : e.secondList ≠ []

/-- The value domains of the data model: months within 1..12, hours within
0..23, minutes and seconds within 0..59. -/
structure InDomain (e : Expression) : Prop where
  month_range : ∀ m ∈ e.monthList, 1 ≤ m ∧ m ≤ 12
  hour_range : ∀ h ∈ e.hourList, 0 ≤ h ∧ h ≤ 23
  minute_range : ∀ m ∈ e.minuteList, 0 ≤ m ∧ m ≤ 59
  second_range : ∀ s ∈ e.secondList, 0 ≤ s ∧ s ≤ 59

/-- The listed years lie where the 64-bit count of seconds of `time.Time` does
not wrap around: from `absoluteZeroYear` to `maxYear`. -/
def YearsInRange (e : Expression) : Prop :=
  ∀ y ∈ e.yearList, absoluteZeroYear ≤ y ∧ y ≤ maxYear

/-- The setting in which `time.Date` returns the civil time it is asked for on
the backward chain from `t`: the values of the expression lie in their
domains, the listed years where the count of seconds does not wrap, and the
location of `t` has no zone transition. -/
structure Regular (e : Expression) (t : Time) : Prop where
  dom : InDomain e
  years : YearsInRange e
  fixed : t.loc.tx = []

/-- The civil fields of `t` are a real date and time of day, in a year and at a
zone offset (less than a day) at which the 64-bit count of seconds does not
wrap around. -/
structure Time.InRange (t : Time) : Prop where
  valid : t.Valid
  year_lo : absoluteZeroYear ≤ t.year
  year_hi : t.year ≤ maxYear
  offset_lo : -86400 < t.zoneOffset
  offset_hi : t.zoneOffset < 86400

/-- An instant as `time.Time` holds it in a location without zone transitions
(`time.UTC`, a `time.FixedZone`): in range, and at the offset the location
has in effect. -/
structure Time.Plain (t : Time) : Prop where
  range : t.InRange
  fixed : t.loc.tx = []
  zone : t.InZone

/-- What every outcome of a backward helper on the expression `e`, called on an
instant of the location `loc`, obeys: a result leaves every field but the
day-list cache as it was and is the zero instant or an instant of `loc`; an
index out of range needs an empty list; running out of fuel needs `bounded`
to fail; no slice is made. -/
def Safe (e : Expression) (loc : Location) (bounded : Prop) : Query → Prop
  | .ok (r, e2) => (∃ l2, e2 = e.withDays l2) ∧ (r.IsZero ∨ r.loc = loc)
  | .error .indexOutOfRange => ¬ NonEmpty e
  | .error .outOfFuel => ¬ bounded
  | .error .capOutOfRange => False

/-- The day resolver does not read the day-list cache. -/
def CacheBlind (resolve : DayResolver) : Prop :=
  ∀ e l y m, resolve (e.withDays l) y m = resolve e y m

/-- The forward helpers leave every field but the day-list cache as it was. -/
def HelpersKeepSchedule (helpers : NextHelpers) : Prop :=
  ∀ h, (h = helpers.nextYear ∨ h = helpers.nextMonth ∨ h = helpers.nextDayOfMonth ∨
      h = helpers.nextHour ∨ h = helpers.nextMinute ∨ h = helpers.nextSecond) →
    ∀ e t r e2, h e t = .ok (r, e2) → ∃ l2, e2 = e.withDays l2

/-- The forward helpers return: none of them aborts. -/
def HelpersReturn (helpers : NextHelpers) : Prop :=
  ∀ h, (h = helpers.nextYear ∨ h = helpers.nextMonth ∨ h = helpers.nextDayOfMonth ∨
      h = helpers.nextHour ∨ h = helpers.nextMinute ∨ h = helpers.nextSecond) →
    ∀ e t, ∃ r e2, h e t = .ok (r, e2)

/-! ## Vocabulary of the properties of `Parse` -/

/-- The texts of the fields of a descriptor, in descriptor order, after alias
substitution. -/
def fieldTexts (env : ParseEnv) (cronLine : String) : List String :=
  (env.fieldFinder (env.cronNormalizer cronLine)).map
    (fun p => slice (env.cronNormalizer cronLine) p.1 p.2)

/-- Runs field handlers, each already applied to the text of its field, one
after the other on the expression under construction, and stops at the first
one that returns an error. -/
def runHandlers : List (Expression → Except Error Expression) → Expression →
    Except Error Expression
  | [], e => .ok e
  | h :: hs, e =>
    match h e with
    | .error err => .error err
    | .ok e2 => runHandlers hs e2

/-- The handlers `Parse` applies to the field texts `fs`, in descriptor order:
with seven (or more) fields second, minute, hour, day of month, month, day of
week and year; with six fields minute to year; with five fields minute to day
of week. -/
def handlerPlan (env : ParseEnv) (fs : List String) : List (Expression → Except Error Expression) :=
  if 7 ≤ fs.length then
    [fun e => env.secondFieldHandler e (fs.getD 0 ""),
     fun e => env.minuteFieldHandler e (fs.getD 1 ""),
     fun e => env.hourFieldHandler e (fs.getD 2 ""),
     fun e => env.domFieldHandler e (fs.getD 3 ""),
     fun e => env.monthFieldHandler e (fs.getD 4 ""),
     fun e => env.dowFieldHandler e (fs.getD 5 ""),
     fun e => env.yearFieldHandler e (fs.getD 6 "")]
  else if fs.length = 6 then
    [fun e => env.minuteFieldHandler e (fs.getD 0 ""),
     fun e => env.hourFieldHandler e (fs.getD 1 ""),
     fun e => env.domFieldHandler e (fs.getD 2 ""),
     fun e => env.monthFieldHandler e (fs.getD 3 ""),
     fun e => env.dowFieldHandler e (fs.getD 4 ""),
     fun e => env.yearFieldHandler e (fs.getD 5 "")]
  else
    [fun e => env.minuteFieldHandler e (fs.getD 0 ""),
     fun e => env.hourFieldHandler e (fs.getD 1 ""),
     fun e => env.domFieldHandler e (fs.getD 2 ""),
     fun e => env.monthFieldHandler e (fs.getD 3 ""),
     fun e => env.dowFieldHandler e (fs.getD 4 "")]

/-- The expression the handlers of `Parse` start from: `Expression{}`, with
the second list `[0]` when the descriptor has fewer than seven fields. -/
def initialExpression (fs : List String) : Expression :=
  if 7 ≤ fs.length then Expression.empty
  else { Expression.empty with secondList := [0] }

/-- What `Parse` does to the expression after the last handler: the default
year list when the descriptor has exactly five fields. -/
def finish (env : ParseEnv) (fs : List String) (e : Expression) : Expression :=
  if fs.length = 5 then { e with yearList := env.defaultYearList } else e

/-- The outcome of `Parse` on the field texts `fs`. -/
def parseFields (env : ParseEnv) (fs : List String) : Option Expression × Option Error :=
  if fs.length < 5 then (none, some "missing field(s)")
  else
    match runHandlers (handlerPlan env fs) (initialExpression fs) with
    | .error err => (none, some err)
    | .ok e => (some (finish env fs e), none)

/-- The handlers for minute, hour, day of month, month and day of week leave
the second list of the receiver as it is. -/
def KeepsSeconds (env : ParseEnv) : Prop :=
  ∀ h, (h = env.minuteFieldHandler ∨ h = env.hourFieldHandler ∨ h = env.domFieldHandler ∨
      h = env.monthFieldHandler ∨ h = env.dowFieldHandler) →
    ∀ e s e2, h e s = .ok e2 → e2.secondList = e.secondList

/-! ## Concrete schedules -/

/-- The days 1..n of a month of n days. -/
def monthDays (y m : Int) : List Int :=
  (List.range (daysIn y m).toNat).map (fun (k : Nat) => (k : Int) + 1)

/-- Modelled from the spec: the day resolver `calculateActualDaysOfMonth` (§4.2)
on expressions whose day-of-week field is unrestricted and whose day-of-month
field is unrestricted or an explicit set of day numbers.  Unrestricted: every
calendar day of the month.  Explicit set: the listed days that exist in the
month, ascending. -/
def specResolver : DayResolver := fun e y m =>
  if e.daysOfMonthRestricted then
    (monthDays y m).filter (fun d => e.daysOfMonth.contains (d, true))
  else monthDays y m

/-- The compiled form of `0 30 9 * * * 2023-2025`: every day at 09:30:00 in
the years 2023 to 2025. -/
def everyMorning : Expression :=
  { Expression.empty with
    secondList := [0], minuteList := [30], hourList := [9],
    monthList := [1, 2, 3, 4, 5, 6, 7, 8, 9, 10, 11, 12],
    yearList := [2023, 2024, 2025] }

/-- The compiled form of `0 30 9 10 3 * 2024`: March 10, 2024 at 09:30:00. -/
def oneMorning : Expression :=
  { Expression.empty with
    secondList := [0], minuteList := [30], hourList := [9],
    daysOfMonth := [(10, true)], daysOfMonthRestricted := true,
    monthList := [3], yearList := [2024] }

/-- The compiled form of `0 0 0 29 2 * 2020,2023`: midnight of February 29 in
the years 2020 and 2023, of which only 2020 has the day. -/
def leapDay : Expression :=
  { Expression.empty with
    secondList := [0], minuteList := [0], hourList := [0],
    daysOfMonth := [(29, true)], daysOfMonthRestricted := true,
    monthList := [2], yearList := [2020, 2023] }

/-- Forward helpers that are never reached: each returns the no-match instant. -/
def idleHelpers : NextHelpers :=
  { nextYear := fun e _ => .ok (Time.zero, e)
    nextMonth := fun e _ => .ok (Time.zero, e)
    nextDayOfMonth := fun e _ => .ok (Time.zero, e)
    nextHour := fun e _ => .ok (Time.zero, e)
    nextMinute := fun e _ => .ok (Time.zero, e)
    nextSecond := fun e _ => .ok (Time.zero, e) }

/-- The compiled form of `0 0 0 31 1,2 * 2023,2024`: midnight of the 31st of
January and of February, of which only January has the day. -/
def lastOfJanuary : Expression :=
  { Expression.empty with
    secondList := [0], minuteList := [0], hourList := [0],
    daysOfMonth := [(31, true)], daysOfMonthRestricted := true,
    monthList := [1, 2], yearList := [2023, 2024] }

/-- Modelled from the spec: the forward search (§4.3) on a schedule that matches
every second of its listed years.  The next match after `t` is the following
second when its year is listed, the first second of the next listed year
otherwise, and no match when no listed year is left. -/
def tick (e : Expression) (t : Time) : Query :=
  let n := Date t.year t.month t.day t.hour t.minute (t.second + 1) 0 t.loc
  match e.yearList.find? (fun y => decide (n.year ≤ y)) with
  | some y => if y = n.year then .ok (n, e) else .ok (Date y 1 1 0 0 0 0 t.loc, e)
  | none => .ok (Time.zero, e)

/-- Modelled from the spec: the forward helpers `nextYear` to `nextSecond` on
a schedule that matches every second of its listed years; each is `tick`. -/
def tickHelpers : NextHelpers :=
  { nextYear := tick
    nextMonth := tick
    nextDayOfMonth := tick
    nextHour := tick
    nextMinute := tick
    nextSecond := tick }

/-- The compiled form of `* * * * * * 2024`: every second of the year 2024. -/
def everySecond : Expression :=
  { Expression.empty with
    secondList := (List.range 60).map (fun (k : Nat) => (k : Int)),
    minuteList := (List.range 60).map (fun (k : Nat) => (k : Int)),
    hourList := (List.range 24).map (fun (k : Nat) => (k : Int)),
    monthList := [1, 2, 3, 4, 5, 6, 7, 8, 9, 10, 11, 12],
    yearList := [2024] }

/-- The location `America/New_York` with its zone transitions of 2024: UTC-5
until March 10, 07:00 UTC, UTC-4 until November 3, 06:00 UTC, UTC-5 after. -/
def newYork : Location :=
  ⟨"America/New_York", -18000, [(1710054000, -14400), (1730613600, -18000)]⟩

/-- The location `Europe/Berlin` with its zone transitions of 2024: UTC+1
until March 31, 01:00 UTC, UTC+2 until October 27, 01:00 UTC, UTC+1 after. -/
def berlin : Location :=
  ⟨"Europe/Berlin", 3600, [(1711846800, 7200), (1729990800, 3600)]⟩

/-- The location `America/Havana` with its zone transitions of 2024: UTC-5
until March 10, 05:00 UTC, UTC-4 until November 3, 05:00 UTC, UTC-5 after. -/
def havana : Location :=
  ⟨"America/Havana", -18000, [(1710046800, -14400), (1730610000, -18000)]⟩

/-- A location as `time.LoadLocationFromTZData` builds it from zone data that
move the clock from 22:00 to 24:00 on November 30, 2023: UTC until 22:00 UTC
of that day, UTC+2 after. -/
def lateShift : Location := ⟨"Late", 0, [(1701381600, 7200)]⟩

/-- The location `time.FixedZone("Far", -9223371973009107008)`: an offset so
large that the 64-bit count of seconds wraps around at noon of March 10,
2024 of its civil time. -/
def farZone : Location := ⟨"Far", -9223371973009107008, []⟩

/-- The compiled form of `0 30 2 * * * 2024`: every day at 02:30:00 in 2024. -/
def nightly : Expression :=
  { Expression.empty with
    secondList := [0], minuteList := [30], hourList := [2],
    monthList := [1, 2, 3, 4, 5, 6, 7, 8, 9, 10, 11, 12],
    yearList := [2024] }

/-- The compiled form of `0 30 1 * * * 2024`: every day at 01:30:00 in 2024. -/
def lateNight : Expression :=
  { Expression.empty with
    secondList := [0], minuteList := [30], hourList := [1],
    monthList := [1, 2, 3, 4, 5, 6, 7, 8, 9, 10, 11, 12],
    yearList := [2024] }

/-- The compiled form of `0 30 2 31 3 * 2024`: March 31, 2024 at 02:30:00. -/
def marchNight : Expression :=
  { Expression.empty with
    secondList := [0], minuteList := [30], hourList := [2],
    daysOfMonth := [(31, true)], daysOfMonthRestricted := true,
    monthList := [3], yearList := [2024] }

/-- The compiled form of `0 30 0 10 3 * 2024`: March 10, 2024 at 00:30:00. -/
def marchMidnight : Expression :=
  { Expression.empty with
    secondList := [0], minuteList := [30], hourList := [0],
    daysOfMonth := [(10, true)], daysOfMonthRestricted := true,
    monthList := [3], yearList := [2024] }

/-- The compiled form of `59 59 23 31 11 * 2023`: 23:59:59 on the 31st of
November, a day that month does not have. -/
def novemberEnd : Expression :=
  { Expression.empty with
    secondList := [59], minuteList := [59], hourList := [23],
    daysOfMonth := [(31, true)], daysOfMonthRestricted := true,
    monthList := [11], yearList := [2023] }

/-- An expression whose hour list leaves the domain 0..23: hour 47 on March
10, 2024. -/
def hour47 : Expression :=
  { Expression.empty with
    secondList := [0], minuteList := [0], hourList := [47],
    daysOfMonth := [(10, true)], daysOfMonthRestricted := true,
    monthList := [3], yearList := [2024] }

/-- An expression whose hour list leaves the domain 0..23: hour 24 on the
31st of November 2023, a day that month does not have. -/
def hour24 : Expression :=
  { Expression.empty with
    secondList := [0], minuteList := [0], hourList := [24],
    daysOfMonth := [(31, true)], daysOfMonthRestricted := true,
    monthList := [11], yearList := [2023] }

/-- An expression whose year list holds a year before `absoluteZeroYear`:
midnight of every day of January of the year -300000000000. -/
def farPast : Expression :=
  { Expression.empty with
    secondList := [0], minuteList := [0], hourList := [0],
    monthList := [1], yearList := [-300000000000] }

/-- An expression whose year list holds a year before `absoluteZeroYear`:
midnight of January 7 of the year -300000000000. -/
def farPastSeventh : Expression :=
  { Expression.empty with
    secondList := [0], minuteList := [0], hourList := [0],
    daysOfMonth := [(7, true)], daysOfMonthRestricted := true,
    monthList := [1], yearList := [-300000000000] }

/-- An expression whose year list holds a year before `absoluteZeroYear`:
midnight of the 31st of November of the year -300000000000, a day that month
does not have. -/
def farPastNovember : Expression :=
  { Expression.empty with
    secondList := [0], minuteList := [0], hourList := [0],
    daysOfMonth := [(31, true)], daysOfMonthRestricted := true,
    monthList := [11], yearList := [-300000000000] }

/-- An expression for midnight of January 1 of the year 1: its only match in
`time.UTC` is the instant `time.Time{}`. -/
def yearOne : Expression :=
  { Expression.empty with
    secondList := [0], minuteList := [0], hourList := [0],
    daysOfMonth := [(1, true)], daysOfMonthRestricted := true,
    monthList := [1], yearList := [1] }

/-! ## A concrete descriptor grammar -/

/-- White space as the regular expression class `\s` has it. -/
def isSpace (c : Char) : Bool :=
  c.toNat = 32 || c.toNat = 9 || c.toNat = 10 || c.toNat = 11 || c.toNat = 12 || c.toNat = 13

/-- Scans `cs` from offset `i`; `start` is the offset at which the field under
way began, if one is under way. -/
def scanFields : List Char → Nat → Option Nat → List (Nat × Nat)
  | [], i, some s => [(s, i)]
  | [], _, none => []
  | c :: cs, i, start =>
    if isSpace c then
      match start with
      | some s => (s, i) :: scanFields cs (i + 1) none
      | none => scanFields cs (i + 1) none
    else scanFields cs (i + 1) (some (start.getD i))

/-- Modelled from the spec: the field finder `fieldFinder` (§6, "fields
separated by whitespace"): the offsets of the maximal runs of characters that
are not white space. -/
def whitespaceFields (s : String) : List (Nat × Nat) := scanFields s.data 0 none

/-- Splits a text at every occurrence of the separator. -/
def splitAt (sep : Char) : List Char → List (List Char)
  | [] => [[]]
  | c :: cs =>
    if c = sep then [] :: splitAt sep cs
    else
      match splitAt sep cs with
      | [] => [[c]]
      | w :: ws => (c :: w) :: ws

/-- The value of a non-empty run of decimal digits. -/
def readNumber (cs : List Char) : Option Int :=
  if cs ≠ [] ∧ cs.all Char.isDigit then
    some (cs.foldl (fun acc c => acc * 10 + ((c.toNat - 48 : Nat) : Int)) 0)
  else none

/-- The bounds of a field and the three-letter names it accepts. -/
structure FieldDomain where
  name : String
  lo : Int
  hi : Int
  names : List (String × Int)

/-- A value of a field: a number, or one of the names of the field, whatever
its case. -/
def readValue (d : FieldDomain) (cs : List Char) : Option Int :=
  match readNumber cs with
  | some v => some v
  | none => (d.names.find? (fun p => p.1.data = cs.map Char.toUpper)).map Prod.snd

/-- The bounds `(first, last)` an entry without its step stands for: `*` and
`?` for the whole domain, `N` for the value (up to the upper bound when a step
follows), `N-M` for the range. -/
def readSpan (d : FieldDomain) (stepped : Bool) (cs : List Char) : Except Error (Int × Int) :=
  if cs = ['*'] ∨ cs = ['?'] then .ok (d.lo, d.hi)
  else
    match splitAt '-' cs with
    | [a] =>
      match readValue d a with
      | none => .error (d.name ++ " field: unknown token")
      | some v =>
        if v < d.lo ∨ d.hi < v then .error (d.name ++ " field: value out of range")
        else .ok (v, if stepped then d.hi else v)
    | [a, b] =>
      match readValue d a, readValue d b with
      | some v, some w =>
        if v < d.lo ∨ d.hi < v ∨ w < d.lo ∨ d.hi < w then
          .error (d.name ++ " field: value out of range")
        else if w < v then .error (d.name ++ " field: inverted range")
        else .ok (v, w)
      | _, _ => .error (d.name ++ " field: unknown token")
    | _ => .error (d.name ++ " field: malformed range")

/-- The values one entry of a comma-joined list stands for, as a test on the
values of the domain. -/
def readEntry (d : FieldDomain) (cs : List Char) : Except Error (Int → Bool) :=
  match splitAt '/' cs with
  | [a] =>
    match readSpan d false a with
    | .error err => .error err
    | .ok (v, w) => .ok (fun x => decide (v ≤ x ∧ x ≤ w))
  | [a, b] =>
    match readSpan d true a, readNumber b with
    | .error err, _ => .error err
    | .ok _, none => .error (d.name ++ " field: malformed step")
    | .ok (v, w), some k =>
      if k = 0 then .error (d.name ++ " field: step of zero")
      else .ok (fun x => decide (v ≤ x ∧ x ≤ w ∧ (x - v) % k = 0))
  | _ => .error (d.name ++ " field: malformed step")

/-- The tests of the entries of a comma-joined list, or the first error. -/
def readEntries (d : FieldDomain) : List (List Char) → Except Error (List (Int → Bool))
  | [] => .ok []
  | c :: cs =>
    match readEntry d c with
    | .error err => .error err
    | .ok t =>
      match readEntries d cs with
      | .error err => .error err
      | .ok ts => .ok (t :: ts)

/-- The values `lo..hi` of a domain, ascending. -/
def domainValues (d : FieldDomain) : List Int :=
  (List.range ((d.hi - d.lo + 1).toNat)).map (fun (k : Nat) => d.lo + (k : Int))

/-- Modelled from the spec: the numeric grammar of the Field Grammar Resolver
(§4.1): wildcard, single value, range, step and comma-joined list, with
three-letter names where the field has them; the result is the sorted,
duplicate-free union.  Errors: empty field, unknown token, value outside the
bounds, inverted range, step of zero. -/
def genericField (d : FieldDomain) (s : String) : Except Error (List Int) :=
  if s.data = [] then .error (d.name ++ " field: empty")
  else
    match readEntries d (splitAt ',' s.data) with
    | .error err => .error err
    | .ok ts => .ok ((domainValues d).filter (fun x => ts.any (fun t => t x)))

/-- The field text is the unrestricted wildcard. -/
def isWildcard (s : String) : Bool := s = "*" || s = "?"

/-- Modelled from the spec: the second field, 0 to 59. -/
def secondDomain : FieldDomain := ⟨"second", 0, 59, []⟩
/-- Modelled from the spec: the minute field, 0 to 59. -/
def minuteDomain : FieldDomain := ⟨"minute", 0, 59, []⟩
/-- Modelled from the spec: the hour field, 0 to 23. -/
def hourDomain : FieldDomain := ⟨"hour", 0, 23, []⟩
/-- Modelled from the spec: the day-of-month field, 1 to 31. -/
def domDomain : FieldDomain := ⟨"day-of-month", 1, 31, []⟩
/-- Modelled from the spec: the month field, 1 to 12, with names. -/
def monthDomain : FieldDomain :=
  ⟨"month", 1, 12, [("JAN", 1), ("FEB", 2), ("MAR", 3), ("APR", 4), ("MAY", 5), ("JUN", 6),
    ("JUL", 7), ("AUG", 8), ("SEP", 9), ("OCT", 10), ("NOV", 11), ("DEC", 12)]⟩
/-- Modelled from the spec: the day-of-week field, 0 to 6, with names. -/
def dowDomain : FieldDomain :=
  ⟨"day-of-week", 0, 6, [("SUN", 0), ("MON", 1), ("TUE", 2), ("WED", 3), ("THU", 4),
    ("FRI", 5), ("SAT", 6)]⟩
/-- Modelled from the spec: the year field, on an implementation-defined range. -/
def yearDomain : FieldDomain := ⟨"year", 1970, 2099, []⟩

/-- Modelled from the spec: the alias replacer, the field finder, the field
handlers and the default year list of §4.1 and §6.  The alias table is left
out (a descriptor without alias name is unchanged); the day fields take the
numeric grammar only, so the special forms `L`, `W` and `#` are rejected. -/
def specEnv : ParseEnv where
  cronNormalizer := fun s => s
  fieldFinder := whitespaceFields
  secondFieldHandler := fun e s =>
    (genericField secondDomain s).map (fun l => { e with secondList := l })
  minuteFieldHandler := fun e s =>
    (genericField minuteDomain s).map (fun l => { e with minuteList := l })
  hourFieldHandler := fun e s =>
    (genericField hourDomain s).map (fun l => { e with hourList := l })
  domFieldHandler := fun e s =>
    (genericField domDomain s).map (fun l =>
      { e with daysOfMonth := l.map (fun d => (d, true)),
               daysOfMonthRestricted := !isWildcard s })
  monthFieldHandler := fun e s =>
    (genericField monthDomain s).map (fun l => { e with monthList := l })
  dowFieldHandler := fun e s =>
    (genericField dowDomain s).map (fun l =>
      { e with daysOfWeek := l.map (fun d => (d, true)),
               daysOfWeekRestricted := !isWildcard s })
  yearFieldHandler := fun e s =>
    (genericField yearDomain s).map (fun l => { e with yearList := l })
  defaultYearList := domainValues yearDomain

/-! # Properties -/

/-! ## Binary search -/

theorem searchLoop_spec (f : Nat → Bool) (n : Nat)
    (mono : ∀ k k2, k ≤ k2 → k2 < n → f k = true → f k2 = true) :
    ∀ fuel i j, j - i ≤ fuel → i ≤ j → j ≤ n →
      (∀ k, k < i → f k = false) → (∀ k, j ≤ k → k < n → f k = true) →
      i ≤ searchLoop f fuel i j ∧ searchLoop f fuel i j ≤ j ∧
      (∀ k, k < searchLoop f fuel i j → f k = false) ∧
      (∀ k, searchLoop f fuel i j ≤ k → k < n → f k = true) := by
  intro fuel
  induction fuel with
  | zero =>
    intro i j hf hij hjn hlo hhi
    have : i = j := by omega
    subst this
    simp only [searchLoop]
    exact ⟨le_refl _, le_refl _, hlo, hhi⟩
  | succ fuel ih =>
    intro i j hf hij hjn hlo hhi
    unfold searchLoop
    by_cases hlt : i < j
    · simp only [hlt, if_true]
      have hh : (i + j) / 2 < j := by omega
      have hh2 : i ≤ (i + j) / 2 := by omega
      cases hfh : f ((i + j) / 2) with
      | false =>
        simp only [Bool.not_false, if_true]
        have := ih ((i + j) / 2 + 1) j (by omega) (by omega) hjn (by
          intro k hk
          by_contra hc
          have hc2 : f k = true := by simpa using hc
          have := mono k ((i + j) / 2) (by omega) (by omega) hc2
          rw [hfh] at this
          exact Bool.noConfusion this) hhi
        exact ⟨by omega, this.2.1, this.2.2⟩
      | true =>
        simp only [Bool.not_true, Bool.false_eq_true, if_false]
        have := ih i ((i + j) / 2) (by omega) hh2 (by omega) hlo (by
          intro k hk hkn
          exact mono _ _ hk hkn hfh)
        exact ⟨this.1, by omega, this.2.2⟩
    · have : i = j := by omega
      subst this
      simp only [lt_irrefl, if_false]
      exact ⟨le_refl _, le_refl _, hlo, hhi⟩

theorem searchLoop_le (f : Nat → Bool) :
    ∀ fuel i j, i ≤ j → i ≤ searchLoop f fuel i j ∧ searchLoop f fuel i j ≤ j := by
  intro fuel
  induction fuel with
  | zero => intro i j h; simp only [searchLoop]; exact ⟨le_refl _, h⟩
  | succ fuel ih =>
    intro i j h
    unfold searchLoop
    by_cases hlt : i < j
    · simp only [hlt, if_true]
      cases hfh : f ((i + j) / 2) with
      | false =>
        simp only [Bool.not_false, if_true]
        have := ih ((i + j) / 2 + 1) j (by omega)
        omega
      | true =>
        simp only [Bool.not_true, Bool.false_eq_true, if_false]
        have := ih i ((i + j) / 2) (by omega)
        omega
    · simp only [hlt, if_false]; exact ⟨le_refl _, h⟩

theorem SearchInts_le (a : List Int) (x : Int) : SearchInts a x ≤ a.length :=
  (searchLoop_le _ a.length 0 a.length (Nat.zero_le _)).2

theorem getD_mono {a : List Int} (h : a.Pairwise (· ≤ ·)) {k k2 : Nat} (hk : k ≤ k2)
    (hk2 : k2 < a.length) : a.getD k 0 ≤ a.getD k2 0 := by
  rcases Nat.eq_or_lt_of_le hk with rfl | hlt
  · exact le_refl _
  · have h1 : k < a.length := by omega
    rw [List.getD_eq_getElem _ _ h1, List.getD_eq_getElem _ _ hk2]
    exact List.pairwise_iff_getElem.mp h k k2 h1 hk2 hlt

theorem SearchInts_spec (a : List Int) (x : Int) (h : a.Pairwise (· ≤ ·)) :
    (∀ k, k < SearchInts a x → a.getD k 0 < x) ∧
    (∀ k, SearchInts a x ≤ k → k < a.length → x ≤ a.getD k 0) := by
  have := searchLoop_spec (fun h => decide (x ≤ a.getD h 0)) a.length
    (by
      intro k k2 hk hk2 hf
      simp only [decide_eq_true_eq] at hf ⊢
      exact le_trans hf (getD_mono h hk hk2))
    a.length 0 a.length (by omega) (by omega) (le_refl _) (by intro k hk; omega)
    (by intro k hk hk2; omega)
  refine ⟨?_, ?_⟩
  · intro k hk
    have := this.2.2.1 k hk
    simpa using this
  · intro k hk hk2
    have := this.2.2.2 k hk hk2
    simpa using this


/-! ## `findTargetOrLower` -/

theorem index_natCast (a : List Int) (i : Nat) (h : i < a.length) :
    index a (i : Int) = .ok (a.getD i 0) := by
  unfold index
  simp [List.getD_eq_getElem _ _ h, List.getElem?_eq_getElem h]

theorem getD_mem (a : List Int) (i : Nat) (h : i < a.length) : a.getD i 0 ∈ a := by
  rw [List.getD_eq_getElem _ _ h]; exact List.getElem_mem h

theorem mem_getD (a : List Int) (x : Int) (h : x ∈ a) : ∃ k, k < a.length ∧ a.getD k 0 = x := by
  obtain ⟨k, hk, rfl⟩ := List.getElem_of_mem h
  exact ⟨k, hk, List.getD_eq_getElem _ _ hk⟩

theorem frontDiffers_zero (a : List Int) (v : Int) (h : 0 < a.length) :
    frontDiffers a 0 v = .ok (a.getD 0 0 != v) := by
  have := index_natCast a 0 h
  simp only [Nat.cast_zero] at this
  simp only [frontDiffers, if_true, Nat.cast_zero, this, bind, Except.bind, pure, Except.pure]

theorem frontDiffers_pos (a : List Int) (r : Nat) (v : Int) (h : r ≠ 0) :
    frontDiffers a r v = .ok false := by
  simp only [frontDiffers, h, if_false, pure, Except.pure]

theorem absentAt_length (a : List Int) (v : Int) : absentAt a a.length v = .ok true := by
  simp only [absentAt, if_true, pure, Except.pure]

theorem absentAt_lt (a : List Int) (r : Nat) (v : Int) (h : r < a.length) :
    absentAt a r v = .ok (a.getD r 0 != v) := by
  have hne : r ≠ a.length := by omega
  simp only [absentAt, hne, if_false, index_natCast a r h, bind, Except.bind, pure, Except.pure]

theorem findTargetOrLower_eq (a : List Int) (v : Int) :
    findTargetOrLower a v =
      match frontDiffers a (SearchInts a v) v with
      | .error e => .error e
      | .ok true => .ok (-1)
      | .ok false =>
        match absentAt a (SearchInts a v) v with
        | .error e => .error e
        | .ok true => .ok ((SearchInts a v : Int) - 1)
        | .ok false => .ok (SearchInts a v : Int) := by
  unfold findTargetOrLower
  simp only [bind, Except.bind, pure, Except.pure]
  cases frontDiffers a (SearchInts a v) v with
  | error e => rfl
  | ok b =>
    cases b with
    | true => rfl
    | false =>
      simp only [Bool.false_eq_true, if_false]
      cases absentAt a (SearchInts a v) v with
      | error e => rfl
      | ok c => cases c <;> rfl

theorem findTargetOrLower_spec (a : List Int) (v : Int) (hne : a ≠ [])
    (h : a.Pairwise (· ≤ ·)) :
    (findTargetOrLower a v = .ok (-1) ∧ ∀ x ∈ a, v < x) ∨
    (∃ i : Nat, i < a.length ∧ findTargetOrLower a v = .ok (i : Int) ∧
      a.getD i 0 ≤ v ∧ ∀ x ∈ a, x ≤ v → x ≤ a.getD i 0) := by
  have hlen : 0 < a.length := List.length_pos.mpr hne
  have hle := SearchInts_le a v
  obtain ⟨hlo, hhi⟩ := SearchInts_spec a v h
  rw [findTargetOrLower_eq]
  generalize SearchInts a v = r at hle hlo hhi
  by_cases hr0 : r = 0
  · subst hr0
    have h0 := hhi 0 (le_refl _) hlen
    rw [frontDiffers_zero a v hlen, absentAt_lt a 0 v hlen]
    by_cases hv : a.getD 0 0 = v
    · right
      have hb : (a.getD 0 0 != v) = false := by rw [hv]; exact bne_self_eq_false v
      refine ⟨0, hlen, ?_, by omega, ?_⟩
      · rw [hb]
      · intro x _ hx; omega
    · left
      have hb : (a.getD 0 0 != v) = true := bne_iff_ne.mpr hv
      refine ⟨?_, ?_⟩
      · rw [hb]
      · intro x hx
        obtain ⟨k, hk, rfl⟩ := mem_getD a x hx
        have := hhi k (Nat.zero_le _) hk
        have := getD_mono h (Nat.zero_le k) hk
        omega
  · right
    have hprev := hlo (r - 1) (by omega)
    have hcast : ((r : Int) - 1) = ((r - 1 : Nat) : Int) := by omega
    rw [frontDiffers_pos a r v hr0]
    by_cases hrl : r = a.length
    · refine ⟨r - 1, by omega, ?_, by omega, ?_⟩
      · rw [hrl, absentAt_length, ← hrl, hcast]
      · intro x hx _
        obtain ⟨k, hk, rfl⟩ := mem_getD a x hx
        exact getD_mono h (by omega) (by omega)
    · have hrlt : r < a.length := by omega
      have hr := hhi r (le_refl _) hrlt
      rw [absentAt_lt a r v hrlt]
      by_cases hv : a.getD r 0 = v
      · have hb : (a.getD r 0 != v) = false := by rw [hv]; exact bne_self_eq_false v
        refine ⟨r, hrlt, ?_, by omega, ?_⟩
        · rw [hb]
        · intro x _ hx; omega
      · have hb : (a.getD r 0 != v) = true := bne_iff_ne.mpr hv
        refine ⟨r - 1, by omega, ?_, by omega, ?_⟩
        · rw [hb, hcast]
        · intro x hx hxv
          obtain ⟨k, hk, rfl⟩ := mem_getD a x hx
          by_cases hkr : k < r
          · exact getD_mono h (by omega) (by omega)
          · have := hhi k (by omega) hk
            have := getD_mono h (show r ≤ k by omega) hk
            omega


/-! ## The calendar -/


theorem isLeap_iff (y : Int) :
    isLeap y = true ↔ (y % 4 = 0 ∧ (y % 100 ≠ 0 ∨ y % 400 = 0)) := by
  simp [isLeap]

theorem dayNumber_eq (y m d : Int) : dayNumber y m d = daysSinceEpoch y + yday y m d := by
  unfold dayNumber yday; ring

theorem daysSinceEpoch_succ (y : Int) :
    daysSinceEpoch (y + 1) = daysSinceEpoch y + 365 + (if isLeap y then 1 else 0) := by
  unfold daysSinceEpoch
  by_cases h : isLeap y = true
  · rw [if_pos h]
    rw [isLeap_iff] at h
    omega
  · rw [if_neg h]
    rw [isLeap_iff] at h
    omega

theorem daysSinceEpoch_mono (y y2 : Int) (h : y ≤ y2) :
    daysSinceEpoch y ≤ daysSinceEpoch y2 := by
  unfold daysSinceEpoch
  omega

theorem month_table (y m : Int) (h1 : 1 ≤ m) (h2 : m ≤ 12) :
    ∃ L : Int, L = (if isLeap y then 1 else 0) ∧ 0 ≤ L ∧ L ≤ 1 ∧
    ((m = 1 ∧ yday y m 1 = 0 ∧ daysIn y m = 31) ∨
     (m = 2 ∧ yday y m 1 = 31 ∧ daysIn y m = 28 + L) ∨
     (m = 3 ∧ yday y m 1 = 59 + L ∧ daysIn y m = 31) ∨
     (m = 4 ∧ yday y m 1 = 90 + L ∧ daysIn y m = 30) ∨
     (m = 5 ∧ yday y m 1 = 120 + L ∧ daysIn y m = 31) ∨
     (m = 6 ∧ yday y m 1 = 151 + L ∧ daysIn y m = 30) ∨
     (m = 7 ∧ yday y m 1 = 181 + L ∧ daysIn y m = 31) ∨
     (m = 8 ∧ yday y m 1 = 212 + L ∧ daysIn y m = 31) ∨
     (m = 9 ∧ yday y m 1 = 243 + L ∧ daysIn y m = 30) ∨
     (m = 10 ∧ yday y m 1 = 273 + L ∧ daysIn y m = 31) ∨
     (m = 11 ∧ yday y m 1 = 304 + L ∧ daysIn y m = 30) ∨
     (m = 12 ∧ yday y m 1 = 334 + L ∧ daysIn y m = 31)) := by
  refine ⟨_, rfl, ?_, ?_, ?_⟩
  · split <;> omega
  · split <;> omega
  · cases hL : isLeap y <;> interval_cases m <;> simp [yday, daysIn, daysBefore, hL]

theorem yday_first (y m d : Int) : yday y m d = yday y m 1 + (d - 1) := by
  unfold yday; ring

theorem daysIn_bounds (y m : Int) (h1 : 1 ≤ m) (h2 : m ≤ 12) :
    28 ≤ daysIn y m ∧ daysIn y m ≤ 31 := by
  obtain ⟨L, _, h3, h4, h⟩ := month_table y m h1 h2
  omega

theorem yday_bounds (y m d : Int) (h1 : 1 ≤ m) (h2 : m ≤ 12) (h3 : 1 ≤ d)
    (h4 : d ≤ daysIn y m) :
    0 ≤ yday y m d ∧ yday y m d ≤ 364 + (if isLeap y then 1 else 0) := by
  obtain ⟨L, hL, h5, h6, h⟩ := month_table y m h1 h2
  rw [yday_first, ← hL]
  omega

theorem yday_lt (y m d m2 d2 : Int) (h1 : 1 ≤ m) (h2 : m ≤ 12)
    (h4 : d ≤ daysIn y m) (h5 : 1 ≤ m2) (h6 : m2 ≤ 12) (h7 : 1 ≤ d2)
    (hlt : m < m2 ∨ (m = m2 ∧ d < d2)) :
    yday y m d < yday y m2 d2 := by
  obtain ⟨L, hL, h8, h9, h⟩ := month_table y m h1 h2
  obtain ⟨L2, hL2, _, _, hb⟩ := month_table y m2 h5 h6
  have : L2 = L := by rw [hL, hL2]
  subst this
  rw [yday_first y m d, yday_first y m2 d2]
  omega

theorem dayNumber_lt (y m d y2 m2 d2 : Int) (h1 : 1 ≤ m) (h2 : m ≤ 12) (h3 : 1 ≤ d)
    (h4 : d ≤ daysIn y m) (h5 : 1 ≤ m2) (h6 : m2 ≤ 12) (h7 : 1 ≤ d2) (h8 : d2 ≤ daysIn y2 m2)
    (hlt : y < y2 ∨ (y = y2 ∧ (m < m2 ∨ (m = m2 ∧ d < d2)))) :
    dayNumber y m d < dayNumber y2 m2 d2 := by
  rw [dayNumber_eq, dayNumber_eq]
  rcases hlt with hy | ⟨rfl, hmd⟩
  · have a1 := yday_bounds y m d h1 h2 h3 h4
    have a2 := yday_bounds y2 m2 d2 h5 h6 h7 h8
    have a3 := daysSinceEpoch_succ y
    have a4 := daysSinceEpoch_mono (y + 1) y2 (by omega)
    omega
  · have := yday_lt y m d m2 d2 h1 h2 h4 h5 h6 h7 hmd
    omega


theorem lookup_fixed (loc : Location) (h : loc.tx = []) (sec : Int) :
    loc.lookup sec = (loc.offset, -9223372036854775808, 9223372036854775807) := by
  unfold Location.lookup
  rw [h]
  rfl

theorem year_cycles (y : Int) (hy : absoluteZeroYear ≤ y) :
    ∃ a b c u : Int, y = absoluteZeroYear + 400 * a + 100 * b + 4 * c + u ∧ 0 ≤ a ∧
      0 ≤ b ∧ b ≤ 3 ∧ 0 ≤ c ∧ c ≤ 24 ∧ 0 ≤ u ∧ u ≤ 3 ∧
      daysSinceEpoch y + absoluteDays = 146097 * a + 36524 * b + 1461 * c + 365 * u ∧
      (isLeap y = true ↔ (u = 3 ∧ (c ≠ 24 ∨ b = 3))) := by
  unfold absoluteZeroYear at hy ⊢
  refine ⟨(y + 292277022399) / 400, (y + 292277022399) % 400 / 100,
    (y + 292277022399) % 100 / 4, (y + 292277022399) % 4, ?_, ?_, ?_, ?_, ?_, ?_, ?_, ?_, ?_, ?_⟩
  · omega
  · omega
  · omega
  · omega
  · omega
  · omega
  · omega
  · omega
  · unfold daysSinceEpoch absoluteDays
    omega
  · rw [isLeap_iff]
    omega

theorem yearOfDays_spec (y yd : Int) (hy : absoluteZeroYear ≤ y) (h0 : 0 ≤ yd)
    (h1 : yd ≤ 364 + (if isLeap y then 1 else 0)) :
    yearOfDays (daysSinceEpoch y + absoluteDays + yd) = (y, yd) := by
  obtain ⟨a, b, c, u, hyv, ha, hb0, hb3, hc0, hc24, hu0, hu3, hD, hleap⟩ := year_cycles y hy
  have hyd : yd ≤ 364 ∨ (yd = 365 ∧ u = 3 ∧ (c ≠ 24 ∨ b = 3)) := by
    by_cases hl : isLeap y = true
    · rw [if_pos hl] at h1
      have := hleap.mp hl
      omega
    · rw [if_neg hl] at h1
      omega
  rw [hD]
  unfold yearOfDays
  have e1 : (146097 * a + 36524 * b + 1461 * c + 365 * u + yd) / 146097 = a := by omega
  simp only [e1]
  have e2 : 146097 * a + 36524 * b + 1461 * c + 365 * u + yd - 146097 * a
      = 36524 * b + 1461 * c + 365 * u + yd := by ring
  rw [e2]
  have e3 : (36524 * b + 1461 * c + 365 * u + yd) / 36524
      - (36524 * b + 1461 * c + 365 * u + yd) / 36524 / 4 = b := by
    have hq : (36524 * b + 1461 * c + 365 * u + yd) / 36524 = b ∨
        ((36524 * b + 1461 * c + 365 * u + yd) / 36524 = 4 ∧ b = 3) := by
      interval_cases b <;> omega
    rcases hq with hq | ⟨hq, hb⟩
    · rw [hq]; omega
    · rw [hq, hb]; rfl
  simp only [e3]
  have e4 : 36524 * b + 1461 * c + 365 * u + yd - 36524 * b = 1461 * c + 365 * u + yd := by ring
  rw [e4]
  have e5 : (1461 * c + 365 * u + yd) / 1461 = c := by omega
  simp only [e5]
  have e6 : 1461 * c + 365 * u + yd - 1461 * c = 365 * u + yd := by ring
  rw [e6]
  have e7 : (365 * u + yd) / 365 - (365 * u + yd) / 365 / 4 = u := by
    have hq : (365 * u + yd) / 365 = u ∨ ((365 * u + yd) / 365 = 4 ∧ u = 3) := by
      interval_cases u <;> omega
    rcases hq with hq | ⟨hq, hu⟩
    · rw [hq]; omega
    · rw [hq, hu]; rfl
  simp only [e7]
  have e8 : 365 * u + yd - 365 * u = yd := by ring
  rw [e8, hyv]

theorem monthOfYday_spec (y m d : Int) (h1 : 1 ≤ m) (h2 : m ≤ 12) (h3 : 1 ≤ d)
    (h4 : d ≤ daysIn y m) : monthOfYday (isLeap y) (yday y m d) = (m, d) := by
  obtain ⟨L, hL, h5, h6, h⟩ := month_table y m h1 h2
  rw [yday_first]
  unfold monthOfYday
  cases hl : isLeap y
  · rw [hl] at hL
    simp only [Bool.false_eq_true, false_and, if_false] at hL ⊢
    subst hL
    rcases h with h | h | h | h | h | h | h | h | h | h | h | h <;>
      obtain ⟨rfl, hy1, hdi⟩ := h <;> rw [hy1] <;> rw [hdi] at h4
    all_goals repeat (first | rw [if_pos (by omega)] | rw [if_neg (by omega)])
    all_goals (refine Prod.ext rfl ?_; show _ = d; omega)
  · rw [hl] at hL
    simp only [if_true, true_and] at hL ⊢
    subst hL
    rcases h with h | h | h | h | h | h | h | h | h | h | h | h <;>
      obtain ⟨rfl, hy1, hdi⟩ := h <;> rw [hy1] <;> rw [hdi] at h4 <;>
      by_cases h29 : d = 29
    all_goals repeat (first | rw [if_pos (by omega)] | rw [if_neg (by omega)])
    all_goals (refine Prod.ext rfl ?_; show _ = d; omega)

theorem dayNumber_bounds (y m d : Int) (hy1 : absoluteZeroYear ≤ y) (hy2 : y ≤ maxYear)
    (h1 : 1 ≤ m) (h2 : m ≤ 12) (h3 : 1 ≤ d) (h4 : d ≤ daysIn y m) :
    -106751990353932 ≤ dayNumber y m d ∧ dayNumber y m d ≤ 106751991166961 := by
  have hb := yday_bounds y m d h1 h2 h3 h4
  have hL : (if isLeap y then (1 : Int) else 0) ≤ 1 := by split <;> omega
  have lo := daysSinceEpoch_mono absoluteZeroYear y hy1
  have hi := daysSinceEpoch_mono y maxYear hy2
  have elo : daysSinceEpoch absoluteZeroYear = -106751990353932 := by decide
  have ehi : daysSinceEpoch maxYear = 106751991166596 := by decide
  rw [dayNumber_eq]
  omega

theorem Date_of_dayNumber (Y M D h mi s : Int) (loc : Location) (y m d : Int)
    (hfix : loc.tx = []) (hy1 : absoluteZeroYear ≤ y) (hy2 : y ≤ maxYear)
    (hm1 : 1 ≤ m) (hm2 : m ≤ 12) (hd1 : 1 ≤ d) (hd2 : d ≤ daysIn y m)
    (hh1 : 0 ≤ h) (hh2 : h ≤ 23) (hmi1 : 0 ≤ mi) (hmi2 : mi ≤ 59)
    (hs1 : 0 ≤ s) (hs2 : s ≤ 59)
    (hdn : dayNumber (Y + (M - 1) / 12) ((M - 1) % 12 + 1) D = dayNumber y m d) :
    Date Y M D h mi s 0 loc = ⟨y, m, d, h, mi, s, 0, loc, loc.offset⟩ := by
  have e3 : s / 60 = 0 := by omega
  have e4 : s % 60 = s := by omega
  have e5 : mi / 60 = 0 := by omega
  have e6 : mi % 60 = mi := by omega
  have e7 : h / 24 = 0 := by omega
  have e8 : h % 24 = h := by omega
  have hb := dayNumber_bounds y m d hy1 hy2 hm1 hm2 hd1 hd2
  have hyd := yday_bounds y m d hm1 hm2 hd1 hd2
  have hyear := yearOfDays_spec y (yday y m d) hy1 hyd.1 hyd.2
  have hmonth := monthOfYday_spec y m d hm1 hm2 hd1 hd2
  rw [← add_right_comm, ← dayNumber_eq] at hyear
  simp only [Date, norm, Int.zero_ediv, Int.zero_emod, add_zero, e3, e4, e5, e6, e7, e8, hdn,
    lookup_fixed loc hfix, ite_self, unixTime]
  generalize dayNumber y m d = dn at hb hyear
  have key : ∀ u : Int, u = (if loc.offset ≠ 0
        then wrap64 (wrap64 ((dn + absoluteDays) * 86400 + h * 3600 + mi * 60 + s
          - absoluteToUnix) - loc.offset)
        else wrap64 ((dn + absoluteDays) * 86400 + h * 3600 + mi * 60 + s - absoluteToUnix)) →
      (u + loc.offset + absoluteToUnix) % 18446744073709551616
        = (dn + absoluteDays) * 86400 + h * 3600 + mi * 60 + s := by
    intro u hu
    unfold absoluteToUnix absoluteDays wrap64 at *
    split at hu <;> omega
  rw [key _ rfl]
  have q1 : ((dn + absoluteDays) * 86400 + h * 3600 + mi * 60 + s) / 86400
      = dn + absoluteDays := by omega
  have q2 : ((dn + absoluteDays) * 86400 + h * 3600 + mi * 60 + s) % 86400
      = h * 3600 + mi * 60 + s := by omega
  rw [q1, q2, hyear]
  simp only [hmonth]
  have q3 : (h * 3600 + mi * 60 + s) / 3600 = h := by omega
  have q4 : (h * 3600 + mi * 60 + s) % 3600 / 60 = mi := by omega
  have q5 : (h * 3600 + mi * 60 + s) % 60 = s := by omega
  rw [q3, q4, q5]

theorem Date_of_valid (y m d h mi s : Int) (loc : Location)
    (hm1 : 1 ≤ m) (hm2 : m ≤ 12) (hd1 : 1 ≤ d) (hd2 : d ≤ daysIn y m)
    (hh1 : 0 ≤ h) (hh2 : h ≤ 23) (hmi1 : 0 ≤ mi) (hmi2 : mi ≤ 59)
    (hs1 : 0 ≤ s) (hs2 : s ≤ 59) (hfix : loc.tx = [])
    (hy : absoluteZeroYear ≤ y ∧ y ≤ maxYear) :
    Date y m d h mi s 0 loc = ⟨y, m, d, h, mi, s, 0, loc, loc.offset⟩ := by
  refine Date_of_dayNumber y m d h mi s loc y m d hfix hy.1 hy.2 hm1 hm2 hd1 hd2 hh1 hh2 hmi1
    hmi2 hs1 hs2 ?_
  have e1 : (m - 1) / 12 = 0 := by omega
  have e2 : (m - 1) % 12 = m - 1 := by omega
  rw [e1, e2, add_zero, sub_add_cancel]

theorem lastDayOfMonth_eq (y m : Int) (loc : Location) (h1 : 1 ≤ m) (h2 : m ≤ 12)
    (hfix : loc.tx = []) (hy : absoluteZeroYear ≤ y ∧ y ≤ maxYear) :
    lastDayOfMonth y m loc = daysIn y m := by
  have hb := daysIn_bounds y m h1 h2
  have hfirst := Date_of_valid y m 1 0 0 0 loc h1 h2 (le_refl _) (by omega)
      (le_refl _) (by omega) (le_refl _) (by omega) (le_refl _) (by omega) hfix hy
  unfold lastDayOfMonth Time.AddDate
  simp only [hfirst]
  rw [Date_of_dayNumber (y + 0) (m + 1) (1 + -1) 0 0 0 loc y m (daysIn y m) hfix hy.1 hy.2 h1 h2
    (by omega) (le_refl _) (le_refl _) (by omega) (le_refl _) (by omega) (le_refl _) (by omega) ?_]
  obtain ⟨L, hL, h5, h6, h⟩ := month_table y m h1 h2
  by_cases h12 : m = 12
  · subst h12
    have e1 : (12 + 1 - 1 : Int) / 12 = 1 := by decide
    have e2 : (12 + 1 - 1 : Int) % 12 + 1 = 1 := by decide
    rw [e1, e2, dayNumber_eq, dayNumber_eq, daysSinceEpoch_succ, yday_first y 12, add_zero, ← hL]
    have : yday (y + 1) 1 (1 + -1) = -1 := by simp [yday, daysBefore]
    rw [this]
    omega
  · have e1 : (m + 1 - 1) / 12 = 0 := by omega
    have e2 : (m + 1 - 1) % 12 + 1 = m + 1 := by omega
    rw [e1, e2, add_zero, add_zero, dayNumber_eq, dayNumber_eq, yday_first y m, yday_first y (m + 1)]
    obtain ⟨L2, hL2, _, _, h'⟩ := month_table y (m + 1) (by omega) (by omega)
    have : L2 = L := by rw [hL, hL2]
    subst this
    omega


/-! ## The backward helpers -/

theorem lastOf_spec (a : List Int) (hne : a ≠ []) (h : a.Pairwise (· ≤ ·)) :
    ∃ v, lastOf a = .ok v ∧ v ∈ a ∧ ∀ x ∈ a, x ≤ v := by
  have hlen : 0 < a.length := List.length_pos.mpr hne
  have hcast : ((a.length : Int) - 1) = ((a.length - 1 : Nat) : Int) := by omega
  refine ⟨a.getD (a.length - 1) 0, ?_, getD_mem a _ (by omega), ?_⟩
  · unfold lastOf
    rw [hcast]
    exact index_natCast a _ (by omega)
  · intro x hx
    obtain ⟨k, hk, rfl⟩ := mem_getD a x hx
    exact getD_mono h (by omega) (by omega)

/-- How the two guards of `Prev` classify a value against a sorted slice. -/
theorem guards_spec (a : List Int) (v : Int) (hne : a ≠ []) (h : a.Pairwise (· ≤ ·)) :
    (frontDiffers a (SearchInts a v) v = .ok true ∧ ∀ x ∈ a, v < x) ∨
    (frontDiffers a (SearchInts a v) v = .ok false ∧
      absentAt a (SearchInts a v) v = .ok true ∧ v ∉ a) ∨
    (frontDiffers a (SearchInts a v) v = .ok false ∧
      absentAt a (SearchInts a v) v = .ok false ∧ v ∈ a) := by
  have hlen : 0 < a.length := List.length_pos.mpr hne
  have hle := SearchInts_le a v
  obtain ⟨hlo, hhi⟩ := SearchInts_spec a v h
  generalize SearchInts a v = r at hle hlo hhi
  have hnotin : (∀ k, r ≤ k → k < a.length → v < a.getD k 0) → v ∉ a := by
    intro hgt hmem
    obtain ⟨k, hk, hkv⟩ := mem_getD a v hmem
    by_cases hkr : k < r
    · have := hlo k hkr; omega
    · have := hgt k (by omega) hk; omega
  by_cases hr0 : r = 0
  · subst hr0
    have h0 := hhi 0 (le_refl _) hlen
    rw [frontDiffers_zero a v hlen, absentAt_lt a 0 v hlen]
    by_cases hv : a.getD 0 0 = v
    · right; right
      have hb : (a.getD 0 0 != v) = false := by rw [hv]; exact bne_self_eq_false v
      rw [hb]
      exact ⟨rfl, rfl, hv ▸ getD_mem a 0 hlen⟩
    · left
      have hb : (a.getD 0 0 != v) = true := bne_iff_ne.mpr hv
      rw [hb]
      refine ⟨rfl, ?_⟩
      intro x hx
      obtain ⟨k, hk, rfl⟩ := mem_getD a x hx
      have := getD_mono h (Nat.zero_le k) hk
      omega
  · right
    rw [frontDiffers_pos a r v hr0]
    by_cases hrl : r = a.length
    · left
      rw [hrl, absentAt_length]
      refine ⟨rfl, rfl, hnotin ?_⟩
      intro k hk hk2; omega
    · have hrlt : r < a.length := by omega
      have hr := hhi r (le_refl _) hrlt
      rw [absentAt_lt a r v hrlt]
      by_cases hv : a.getD r 0 = v
      · right
        have hb : (a.getD r 0 != v) = false := by rw [hv]; exact bne_self_eq_false v
        rw [hb]
        exact ⟨rfl, rfl, hv ▸ getD_mem a r hrlt⟩
      · left
        have hb : (a.getD r 0 != v) = true := bne_iff_ne.mpr hv
        rw [hb]
        refine ⟨rfl, rfl, hnotin ?_⟩
        intro k hk hk2
        have := getD_mono h hk hk2
        omega

theorem Latest.convert {resolve : DayResolver} {e : Expression}
    {lt1 lt2 : Time → Time → Prop} {t1 t2 r : Time} {l : List Int}
    (h : Latest resolve e lt1 t1 r l) (hloc : t1.loc = t2.loc)
    (hiff : ∀ m, Matches resolve e m → (lt2 m t2 ↔ lt1 m t1)) :
    Latest resolve e lt2 t2 r l := by
  rcases h with ⟨hz, hno⟩ | ⟨hm, hns, hl, hlt, hc, hmax⟩
  · left
    exact ⟨hz, fun m hm hlt => hno m hm ((hiff m hm).mp hlt)⟩
  · right
    exact ⟨hm, hns, ⟨hl.1.trans hloc, hloc ▸ hl.2⟩, (hiff r hm).mpr hlt, hc,
      fun m hm2 hlt2 => hmax m hm2 ((hiff m hm2).mp hlt2)⟩

theorem countBelow_le (a : List Int) (v : Int) : countBelow a v ≤ a.length :=
  List.length_filter_le _ _

theorem countBelow_lt (a : List Int) (v w : Int) (hv : v ∈ a) (hvw : v < w) :
    countBelow a v < countBelow a w := by
  unfold countBelow
  induction a with
  | nil => cases hv
  | cons x xs ih =>
    have hmono : (xs.filter (fun x => decide (x < v))).length ≤
        (xs.filter (fun x => decide (x < w))).length := by
      apply List.Sublist.length_le
      apply List.monotone_filter_right
      intro y hy
      simp only [decide_eq_true_eq] at hy ⊢
      omega
    rcases List.mem_cons.mp hv with rfl | hv2
    · simp only [List.filter_cons, decide_eq_true_eq]
      split_ifs <;> (try simp only [List.length_cons]) <;> omega
    · have := ih hv2
      simp only [List.filter_cons, decide_eq_true_eq]
      split_ifs <;> (try simp only [List.length_cons]) <;> omega


@[simp] theorem withDays_yearList (e : Expression) (l : List Int) :
    (e.withDays l).yearList = e.yearList := rfl
@[simp] theorem withDays_monthList (e : Expression) (l : List Int) :
    (e.withDays l).monthList = e.monthList := rfl
@[simp] theorem withDays_hourList (e : Expression) (l : List Int) :
    (e.withDays l).hourList = e.hourList := rfl
@[simp] theorem withDays_minuteList (e : Expression) (l : List Int) :
    (e.withDays l).minuteList = e.minuteList := rfl
@[simp] theorem withDays_secondList (e : Expression) (l : List Int) :
    (e.withDays l).secondList = e.secondList := rfl
@[simp] theorem withDays_days (e : Expression) (l : List Int) :
    (e.withDays l).actualDaysOfMonthList = l := rfl
@[simp] theorem withDays_withDays (e : Expression) (l l2 : List Int) :
    (e.withDays l).withDays l2 = e.withDays l2 := rfl

theorem asc_of_strict {a : List Int} (h : a.Pairwise (· < ·)) : a.Pairwise (· ≤ ·) :=
  h.imp (fun h => le_of_lt h)

/-- The facts about the last elements of the lists of a well-formed expression. -/
theorem WellFormed.lasts {e : Expression} (hwf : WellFormed e) :
    ∃ lm lh lmi ls, lastOf e.monthList = .ok lm ∧ lastOf e.hourList = .ok lh ∧
      lastOf e.minuteList = .ok lmi ∧ lastOf e.secondList = .ok ls ∧
      lm ∈ e.monthList ∧ lh ∈ e.hourList ∧ lmi ∈ e.minuteList ∧ ls ∈ e.secondList ∧
      (∀ x ∈ e.monthList, x ≤ lm) ∧ (∀ x ∈ e.hourList, x ≤ lh) ∧
      (∀ x ∈ e.minuteList, x ≤ lmi) ∧ (∀ x ∈ e.secondList, x ≤ ls) := by
  obtain ⟨lm, a1, a2, a3⟩ := lastOf_spec _ hwf.month_ne (asc_of_strict hwf.month_asc)
  obtain ⟨lh, b1, b2, b3⟩ := lastOf_spec _ hwf.hour_ne (asc_of_strict hwf.hour_asc)
  obtain ⟨lmi, c1, c2, c3⟩ := lastOf_spec _ hwf.minute_ne (asc_of_strict hwf.minute_asc)
  obtain ⟨ls, d1, d2, d3⟩ := lastOf_spec _ hwf.second_ne (asc_of_strict hwf.second_asc)
  exact ⟨lm, lh, lmi, ls, a1, b1, c1, d1, a2, b2, c2, d2, a3, b3, c3, d3⟩

theorem prevYearMonth_spec {resolve : DayResolver} {e : Expression}
    (hwf : WellFormed e) (hok : ResolverOK resolve e) (hyr : YearsInRange e) : ∀ fuel,
    (∀ l t, t.loc.tx = [] →
      countBelow e.yearList t.year * (e.monthList.length + 2) < fuel →
      ∃ r l2, prevYear resolve fuel (e.withDays l) t = .ok (r, e.withDays l2) ∧
        Latest resolve e ltYear t r l2) ∧
    (∀ l t, t.loc.tx = [] → t.year ∈ e.yearList →
      countBelow e.yearList t.year * (e.monthList.length + 2)
        + countBelow e.monthList t.month + 1 < fuel →
      ∃ r l2, prevMonth resolve fuel (e.withDays l) t = .ok (r, e.withDays l2) ∧
        Latest resolve e ltMonth t r l2) := by
  obtain ⟨lm, lh, lmi, ls, hlm, hlh, hlmi, hls, mlm, mlh, mlmi, mls, xlm, xlh, xlmi, xls⟩ :=
    hwf.lasts
  have rlm := hwf.month_range lm mlm
  have rlh := hwf.hour_range lh mlh
  have rlmi := hwf.minute_range lmi mlmi
  have rls := hwf.second_range ls mls
  intro fuel
  induction fuel with
  | zero =>
    exact ⟨fun l t _ h => absurd h (Nat.not_lt_zero _),
      fun l t _ _ h => absurd h (Nat.not_lt_zero _)⟩
  | succ fuel ih =>
    obtain ⟨ihY, ihM⟩ := ih
    refine ⟨?_, ?_⟩
    · -- prevYear
      intro l t hfix hfuel
      rw [prevYear]
      simp only [bind, Except.bind, pure, Except.pure, withDays_yearList, withDays_monthList,
        withDays_hourList, withDays_minuteList, withDays_secondList, hok.frame]
      rcases findTargetOrLower_spec e.yearList (t.year - 1) hwf.year_ne
        (asc_of_strict hwf.year_asc) with ⟨hf, hall⟩ | ⟨i, hi, hf, hle, hmax⟩
      · refine ⟨Time.zero, l, ?_, ?_⟩
        · simp only [hf, if_true]
        · left
          refine ⟨rfl, ?_⟩
          intro m hm hlt
          have := hall m.year hm.year
          unfold ltYear at hlt
          omega
      · have hne1 : ¬ ((i : Int) = -1) := by omega
        have hY := getD_mem e.yearList i hi
        have hidx := index_natCast e.yearList i hi
        generalize e.yearList.getD i 0 = Y at hle hmax hY hidx
        simp only [hf, hne1, if_false, hidx, hlm, hlh, hlmi, hls]
        have hcnt := countBelow_lt e.yearList Y t.year hY (by omega)
        have hmul : (countBelow e.yearList Y + 1) * (e.monthList.length + 2) ≤
            countBelow e.yearList t.year * (e.monthList.length + 2) :=
          Nat.mul_le_mul_right _ hcnt
        rw [Nat.add_mul, Nat.one_mul] at hmul
        by_cases hD : (resolve e Y lm).length = 0
        · rw [if_pos hD]
          have hDnil : resolve e Y lm = [] := List.length_eq_zero.mp hD
          have hdate : Date Y lm (lastDayOfMonth Y lm t.loc) lh lmi ls 0 t.loc =
              ⟨Y, lm, daysIn Y lm, lh, lmi, ls, 0, t.loc, t.loc.offset⟩ := by
            rw [lastDayOfMonth_eq Y lm t.loc rlm.1 rlm.2 hfix (hyr Y hY)]
            have := daysIn_bounds Y lm rlm.1 rlm.2
            exact Date_of_valid _ _ _ _ _ _ _ rlm.1 rlm.2 (by omega) (le_refl _) rlh.1 rlh.2
              rlmi.1 rlmi.2 rls.1 rls.2 hfix (hyr Y hY)
          rw [hdate]
          have hcm := countBelow_le e.monthList lm
          obtain ⟨r, l2, hrun, hlat⟩ := ihM (resolve e Y lm)
            ⟨Y, lm, daysIn Y lm, lh, lmi, ls, 0, t.loc, t.loc.offset⟩ hfix hY (by simp only; omega)
          refine ⟨r, l2, hrun, hlat.convert rfl ?_⟩
          intro m hm
          have h1 := hmax m.year hm.year
          have h2 := xlm m.month hm.month
          have h3 : m.year = Y → m.month = lm → False := by
            intro e1 e2
            have := hm.day
            rw [e1, e2, hDnil] at this
            cases this
          unfold ltYear ltMonth
          simp only
          constructor
          · intro hlt
            by_cases e1 : m.year = Y
            · by_cases e2 : m.month = lm
              · exact (h3 e1 e2).elim
              · omega
            · omega
          · intro hlt; omega
        · rw [if_neg hD]
          have hDne : resolve e Y lm ≠ [] := fun h => hD (List.length_eq_zero.mpr h)
          obtain ⟨ld, hld, mld, xld⟩ := lastOf_spec _ hDne (hok.asc Y lm)
          have rld := hok.valid Y lm ld rlm.1 rlm.2 mld
          simp only [hld]
          have hdate : Date Y lm ld lh lmi ls 0 t.loc = ⟨Y, lm, ld, lh, lmi, ls, 0, t.loc, t.loc.offset⟩ :=
            Date_of_valid _ _ _ _ _ _ _ rlm.1 rlm.2 rld.1 rld.2 rlh.1 rlh.2
              rlmi.1 rlmi.2 rls.1 rls.2 hfix (hyr Y hY)
          rw [hdate]
          refine ⟨_, resolve e Y lm, rfl, ?_⟩
          right
          refine ⟨⟨hY, mlm, mld, mlh, mlmi, mls⟩, rfl, ⟨rfl, rfl⟩, ?_, rfl, ?_⟩
          · unfold ltYear; simp only; omega
          · intro m hm hlt
            have h1 := hmax m.year hm.year
            have h2 := xlm m.month hm.month
            have h4 := xlh m.hour hm.hour
            have h5 := xlmi m.minute hm.minute
            have h6 := xls m.second hm.second
            have h3 : m.year = Y → m.month = lm → m.day ≤ ld := by
              intro e1 e2
              have := hm.day
              rw [e1, e2] at this
              exact xld _ this
            unfold ltYear at hlt
            unfold ltSecond
            simp only
            by_cases e1 : m.year = Y
            · by_cases e2 : m.month = lm
              · have := h3 e1 e2; omega
              · omega
            · omega
    · -- prevMonth
      intro l t hfix hty hfuel
      rw [prevMonth]
      simp only [bind, Except.bind, pure, Except.pure, withDays_yearList, withDays_monthList,
        withDays_hourList, withDays_minuteList, withDays_secondList, hok.frame]
      rcases findTargetOrLower_spec e.monthList (t.month - 1) hwf.month_ne
        (asc_of_strict hwf.month_asc) with ⟨hf, hall⟩ | ⟨i, hi, hf, hle, hmax⟩
      · simp only [hf, if_true]
        obtain ⟨r, l2, hrun, hlat⟩ := ihY l t hfix (by omega)
        refine ⟨r, l2, hrun, hlat.convert rfl ?_⟩
        intro m hm
        have := hall m.month hm.month
        unfold ltYear ltMonth
        constructor
        · intro hlt; omega
        · intro hlt; omega
      · have hne1 : ¬ ((i : Int) = -1) := by omega
        have hM := getD_mem e.monthList i hi
        have hidx := index_natCast e.monthList i hi
        generalize e.monthList.getD i 0 = M at hle hmax hM hidx
        have rM := hwf.month_range M hM
        simp only [hf, hne1, if_false, hidx, hlh, hlmi, hls]
        have hcnt := countBelow_lt e.monthList M t.month hM (by omega)
        by_cases hD : (resolve e t.year M).length = 0
        · rw [if_pos hD]
          have hDnil : resolve e t.year M = [] := List.length_eq_zero.mp hD
          have hdate : Date t.year M (lastDayOfMonth t.year M t.loc) lh lmi ls 0 t.loc =
              ⟨t.year, M, daysIn t.year M, lh, lmi, ls, 0, t.loc, t.loc.offset⟩ := by
            rw [lastDayOfMonth_eq t.year M t.loc rM.1 rM.2 hfix (hyr _ hty)]
            have := daysIn_bounds t.year M rM.1 rM.2
            exact Date_of_valid _ _ _ _ _ _ _ rM.1 rM.2 (by omega) (le_refl _) rlh.1 rlh.2
              rlmi.1 rlmi.2 rls.1 rls.2 hfix (hyr _ hty)
          rw [hdate]
          obtain ⟨r, l2, hrun, hlat⟩ := ihM (resolve e t.year M)
            ⟨t.year, M, daysIn t.year M, lh, lmi, ls, 0, t.loc, t.loc.offset⟩ hfix hty
            (by simp only; omega)
          refine ⟨r, l2, hrun, hlat.convert rfl ?_⟩
          intro m hm
          have h2 := hmax m.month hm.month
          have h3 : m.year = t.year → m.month = M → False := by
            intro e1 e2
            have := hm.day
            rw [e1, e2, hDnil] at this
            cases this
          unfold ltMonth
          simp only
          constructor
          · intro hlt
            by_cases e1 : m.year = t.year
            · by_cases e2 : m.month = M
              · exact (h3 e1 e2).elim
              · omega
            · omega
          · intro hlt; omega
        · rw [if_neg hD]
          have hDne : resolve e t.year M ≠ [] := fun h => hD (List.length_eq_zero.mpr h)
          obtain ⟨ld, hld, mld, xld⟩ := lastOf_spec _ hDne (hok.asc t.year M)
          have rld := hok.valid t.year M ld rM.1 rM.2 mld
          simp only [hld]
          have hdate : Date t.year M ld lh lmi ls 0 t.loc =
              ⟨t.year, M, ld, lh, lmi, ls, 0, t.loc, t.loc.offset⟩ :=
            Date_of_valid _ _ _ _ _ _ _ rM.1 rM.2 rld.1 rld.2 rlh.1 rlh.2
              rlmi.1 rlmi.2 rls.1 rls.2 hfix (hyr _ hty)
          rw [hdate]
          refine ⟨_, resolve e t.year M, rfl, ?_⟩
          right
          refine ⟨⟨hty, hM, mld, mlh, mlmi, mls⟩, rfl, ⟨rfl, rfl⟩, ?_, rfl, ?_⟩
          · unfold ltMonth; exact Or.inr ⟨rfl, by simp only; omega⟩
          · intro m hm hlt
            have h2 := hmax m.month hm.month
            have h4 := xlh m.hour hm.hour
            have h5 := xlmi m.minute hm.minute
            have h6 := xls m.second hm.second
            have h3 : m.year = t.year → m.month = M → m.day ≤ ld := by
              intro e1 e2
              have := hm.day
              rw [e1, e2] at this
              exact xld _ this
            unfold ltMonth at hlt
            unfold ltSecond
            simp only
            by_cases e1 : m.year = t.year
            · by_cases e2 : m.month = M
              · have := h3 e1 e2; omega
              · omega
            · omega


theorem fuel_enough (e : Expression) (y m : Int) (fuel : Nat) (h : prevFuel e ≤ fuel) :
    countBelow e.yearList y * (e.monthList.length + 2) + countBelow e.monthList m + 1 < fuel := by
  have h1 := countBelow_le e.yearList y
  have h2 := countBelow_le e.monthList m
  have h3 : countBelow e.yearList y * (e.monthList.length + 2) ≤
      e.yearList.length * (e.monthList.length + 2) := Nat.mul_le_mul_right _ h1
  unfold prevFuel at h
  rw [Nat.add_mul, Nat.one_mul] at h
  omega

theorem prevYear_spec {resolve : DayResolver} {e : Expression}
    (hwf : WellFormed e) (hok : ResolverOK resolve e) (hyr : YearsInRange e) (fuel : Nat)
    (hfuel : prevFuel e ≤ fuel)
    (l : List Int) (t : Time) (hfix : t.loc.tx = []) :
    ∃ r l2, prevYear resolve fuel (e.withDays l) t = .ok (r, e.withDays l2) ∧
      Latest resolve e ltYear t r l2 :=
  (prevYearMonth_spec hwf hok hyr fuel).1 l t hfix (by have := fuel_enough e t.year 0 fuel hfuel; omega)

theorem prevMonth_spec {resolve : DayResolver} {e : Expression}
    (hwf : WellFormed e) (hok : ResolverOK resolve e) (hyr : YearsInRange e) (fuel : Nat)
    (hfuel : prevFuel e ≤ fuel)
    (l : List Int) (t : Time) (hfix : t.loc.tx = []) (hy : t.year ∈ e.yearList) :
    ∃ r l2, prevMonth resolve fuel (e.withDays l) t = .ok (r, e.withDays l2) ∧
      Latest resolve e ltMonth t r l2 :=
  (prevYearMonth_spec hwf hok hyr fuel).2 l t hfix hy (fuel_enough e t.year t.month fuel hfuel)

theorem prevDayOfMonth_spec {resolve : DayResolver} {e : Expression}
    (hwf : WellFormed e) (hok : ResolverOK resolve e) (hyr : YearsInRange e) (fuel : Nat)
    (hfuel : prevFuel e ≤ fuel)
    (t : Time) (hfix : t.loc.tx = []) (hy : t.year ∈ e.yearList) (hmo : t.month ∈ e.monthList)
    (hD : resolve e t.year t.month ≠ []) :
    ∃ r l2, prevDayOfMonth resolve fuel (e.withDays (resolve e t.year t.month)) t
        = .ok (r, e.withDays l2) ∧ Latest resolve e ltDay t r l2 := by
  obtain ⟨lm, lh, lmi, ls, hlm, hlh, hlmi, hls, mlm, mlh, mlmi, mls, xlm, xlh, xlmi, xls⟩ :=
    hwf.lasts
  have rmo := hwf.month_range _ hmo
  have rlh := hwf.hour_range lh mlh
  have rlmi := hwf.minute_range lmi mlmi
  have rls := hwf.second_range ls mls
  unfold prevDayOfMonth
  simp only [bind, Except.bind, pure, Except.pure, withDays_yearList, withDays_monthList,
    withDays_hourList, withDays_minuteList, withDays_secondList, withDays_days]
  rcases findTargetOrLower_spec (resolve e t.year t.month) (t.day - 1) hD
    (hok.asc _ _) with ⟨hf, hall⟩ | ⟨i, hi, hf, hle, hmax⟩
  · simp only [hf, if_true]
    obtain ⟨r, l2, hrun, hlat⟩ := prevMonth_spec hwf hok hyr fuel hfuel
      (resolve e t.year t.month) t hfix hy
    refine ⟨r, l2, hrun, hlat.convert rfl ?_⟩
    intro m hm
    have h3 : m.year = t.year → m.month = t.month → t.day - 1 < m.day := by
      intro e1 e2
      have := hm.day
      rw [e1, e2] at this
      exact hall _ this
    unfold ltMonth ltDay
    constructor
    · intro hlt
      by_cases e1 : m.year = t.year
      · by_cases e2 : m.month = t.month
        · have := h3 e1 e2; omega
        · omega
      · omega
    · intro hlt; omega
  · have hne1 : ¬ ((i : Int) = -1) := by omega
    have hM := getD_mem (resolve e t.year t.month) i hi
    have hidx := index_natCast (resolve e t.year t.month) i hi
    generalize (resolve e t.year t.month).getD i 0 = d at hle hmax hM hidx
    have rd := hok.valid t.year t.month d rmo.1 rmo.2 hM
    simp only [hf, hne1, if_false, hidx, hlh, hlmi, hls]
    have hdate : Date t.year t.month d lh lmi ls 0 t.loc =
        ⟨t.year, t.month, d, lh, lmi, ls, 0, t.loc, t.loc.offset⟩ :=
      Date_of_valid _ _ _ _ _ _ _ rmo.1 rmo.2 rd.1 rd.2 rlh.1 rlh.2 rlmi.1 rlmi.2 rls.1 rls.2
        hfix (hyr _ hy)
    rw [hdate]
    refine ⟨_, resolve e t.year t.month, rfl, ?_⟩
    right
    refine ⟨⟨hy, hmo, hM, mlh, mlmi, mls⟩, rfl, ⟨rfl, rfl⟩, ?_, rfl, ?_⟩
    · unfold ltDay; exact Or.inr ⟨rfl, Or.inr ⟨rfl, by simp only; omega⟩⟩
    · intro m hm hlt
      have h4 := xlh m.hour hm.hour
      have h5 := xlmi m.minute hm.minute
      have h6 := xls m.second hm.second
      have h3 : m.year = t.year → m.month = t.month → m.day ≤ t.day - 1 → m.day ≤ d := by
        intro e1 e2 e3
        have := hm.day
        rw [e1, e2] at this
        exact hmax _ this e3
      unfold ltDay at hlt
      unfold ltSecond
      simp only
      by_cases e1 : m.year = t.year
      · by_cases e2 : m.month = t.month
        · by_cases e3 : m.day ≤ t.day - 1
          · have := h3 e1 e2 e3; omega
          · omega
        · omega
      · omega

theorem prevHour_spec {resolve : DayResolver} {e : Expression}
    (hwf : WellFormed e) (hok : ResolverOK resolve e) (hyr : YearsInRange e) (fuel : Nat)
    (hfuel : prevFuel e ≤ fuel)
    (t : Time) (hfix : t.loc.tx = []) (hy : t.year ∈ e.yearList) (hmo : t.month ∈ e.monthList)
    (hd : t.day ∈ resolve e t.year t.month) :
    ∃ r l2, prevHour resolve fuel (e.withDays (resolve e t.year t.month)) t
        = .ok (r, e.withDays l2) ∧ Latest resolve e ltHour t r l2 := by
  obtain ⟨lm, lh, lmi, ls, hlm, hlh, hlmi, hls, mlm, mlh, mlmi, mls, xlm, xlh, xlmi, xls⟩ :=
    hwf.lasts
  have rmo := hwf.month_range _ hmo
  have rd := hok.valid t.year t.month t.day rmo.1 rmo.2 hd
  have rlmi := hwf.minute_range lmi mlmi
  have rls := hwf.second_range ls mls
  unfold prevHour
  simp only [bind, Except.bind, pure, Except.pure, withDays_yearList, withDays_monthList,
    withDays_hourList, withDays_minuteList, withDays_secondList, withDays_days]
  rcases findTargetOrLower_spec e.hourList (t.hour - 1) hwf.hour_ne
    (asc_of_strict hwf.hour_asc) with ⟨hf, hall⟩ | ⟨i, hi, hf, hle, hmax⟩
  · simp only [hf, if_true]
    obtain ⟨r, l2, hrun, hlat⟩ := prevDayOfMonth_spec hwf hok hyr fuel hfuel t hfix hy hmo
      (List.ne_nil_of_mem hd)
    refine ⟨r, l2, hrun, hlat.convert rfl ?_⟩
    intro m hm
    have h3 := hall _ hm.hour
    unfold ltDay ltHour
    constructor
    · intro hlt; omega
    · intro hlt; omega
  · have hne1 : ¬ ((i : Int) = -1) := by omega
    have hM := getD_mem e.hourList i hi
    have hidx := index_natCast e.hourList i hi
    generalize e.hourList.getD i 0 = h at hle hmax hM hidx
    have rh := hwf.hour_range h hM
    simp only [hf, hne1, if_false, hidx, hlmi, hls]
    have hdate : Date t.year t.month t.day h lmi ls 0 t.loc =
        ⟨t.year, t.month, t.day, h, lmi, ls, 0, t.loc, t.loc.offset⟩ :=
      Date_of_valid _ _ _ _ _ _ _ rmo.1 rmo.2 rd.1 rd.2 rh.1 rh.2 rlmi.1 rlmi.2 rls.1 rls.2
        hfix (hyr _ hy)
    rw [hdate]
    refine ⟨_, resolve e t.year t.month, rfl, ?_⟩
    right
    refine ⟨⟨hy, hmo, hd, hM, mlmi, mls⟩, rfl, ⟨rfl, rfl⟩, ?_, rfl, ?_⟩
    · unfold ltHour; exact Or.inr ⟨rfl, Or.inr ⟨rfl, Or.inr ⟨rfl, by simp only; omega⟩⟩⟩
    · intro m hm hlt
      have h4 := hmax m.hour hm.hour
      have h5 := xlmi m.minute hm.minute
      have h6 := xls m.second hm.second
      unfold ltHour at hlt
      unfold ltSecond
      simp only
      omega

theorem prevMinute_spec {resolve : DayResolver} {e : Expression}
    (hwf : WellFormed e) (hok : ResolverOK resolve e) (hyr : YearsInRange e) (fuel : Nat)
    (hfuel : prevFuel e ≤ fuel)
    (t : Time) (hfix : t.loc.tx = []) (hy : t.year ∈ e.yearList) (hmo : t.month ∈ e.monthList)
    (hd : t.day ∈ resolve e t.year t.month) (hh : t.hour ∈ e.hourList) :
    ∃ r l2, prevMinute resolve fuel (e.withDays (resolve e t.year t.month)) t
        = .ok (r, e.withDays l2) ∧ Latest resolve e ltMinute t r l2 := by
  obtain ⟨lm, lh, lmi, ls, hlm, hlh, hlmi, hls, mlm, mlh, mlmi, mls, xlm, xlh, xlmi, xls⟩ :=
    hwf.lasts
  have rmo := hwf.month_range _ hmo
  have rd := hok.valid t.year t.month t.day rmo.1 rmo.2 hd
  have rh := hwf.hour_range _ hh
  have rls := hwf.second_range ls mls
  unfold prevMinute
  simp only [bind, Except.bind, pure, Except.pure, withDays_yearList, withDays_monthList,
    withDays_hourList, withDays_minuteList, withDays_secondList, withDays_days]
  rcases findTargetOrLower_spec e.minuteList (t.minute - 1) hwf.minute_ne
    (asc_of_strict hwf.minute_asc) with ⟨hf, hall⟩ | ⟨i, hi, hf, hle, hmax⟩
  · simp only [hf, if_true]
    obtain ⟨r, l2, hrun, hlat⟩ := prevHour_spec hwf hok hyr fuel hfuel t hfix hy hmo hd
    refine ⟨r, l2, hrun, hlat.convert rfl ?_⟩
    intro m hm
    have h3 := hall _ hm.minute
    unfold ltHour ltMinute
    constructor
    · intro hlt; omega
    · intro hlt; omega
  · have hne1 : ¬ ((i : Int) = -1) := by omega
    have hM := getD_mem e.minuteList i hi
    have hidx := index_natCast e.minuteList i hi
    generalize e.minuteList.getD i 0 = mi at hle hmax hM hidx
    have rmi := hwf.minute_range mi hM
    simp only [hf, hne1, if_false, hidx, hls]
    have hdate : Date t.year t.month t.day t.hour mi ls 0 t.loc =
        ⟨t.year, t.month, t.day, t.hour, mi, ls, 0, t.loc, t.loc.offset⟩ :=
      Date_of_valid _ _ _ _ _ _ _ rmo.1 rmo.2 rd.1 rd.2 rh.1 rh.2 rmi.1 rmi.2 rls.1 rls.2
        hfix (hyr _ hy)
    rw [hdate]
    refine ⟨_, resolve e t.year t.month, rfl, ?_⟩
    right
    refine ⟨⟨hy, hmo, hd, hh, hM, mls⟩, rfl, ⟨rfl, rfl⟩, ?_, rfl, ?_⟩
    · unfold ltMinute
      exact Or.inr ⟨rfl, Or.inr ⟨rfl, Or.inr ⟨rfl, Or.inr ⟨rfl, by simp only; omega⟩⟩⟩⟩
    · intro m hm hlt
      have h5 := hmax m.minute hm.minute
      have h6 := xls m.second hm.second
      unfold ltMinute at hlt
      unfold ltSecond
      simp only
      omega

theorem prevSecond_spec {resolve : DayResolver} {e : Expression}
    (hwf : WellFormed e) (hok : ResolverOK resolve e) (hyr : YearsInRange e) (fuel : Nat)
    (hfuel : prevFuel e ≤ fuel)
    (t : Time) (hfix : t.loc.tx = []) (hy : t.year ∈ e.yearList) (hmo : t.month ∈ e.monthList)
    (hd : t.day ∈ resolve e t.year t.month) (hh : t.hour ∈ e.hourList)
    (hmi : t.minute ∈ e.minuteList) :
    ∃ r l2, prevSecond resolve fuel (e.withDays (resolve e t.year t.month)) t
        = .ok (r, e.withDays l2) ∧ Latest resolve e ltSecond t r l2 := by
  have rmo := hwf.month_range _ hmo
  have rd := hok.valid t.year t.month t.day rmo.1 rmo.2 hd
  have rh := hwf.hour_range _ hh
  have rmi := hwf.minute_range _ hmi
  unfold prevSecond
  simp only [bind, Except.bind, pure, Except.pure, withDays_yearList, withDays_monthList,
    withDays_hourList, withDays_minuteList, withDays_secondList, withDays_days]
  rcases findTargetOrLower_spec e.secondList (t.second - 1) hwf.second_ne
    (asc_of_strict hwf.second_asc) with ⟨hf, hall⟩ | ⟨i, hi, hf, hle, hmax⟩
  · simp only [hf, if_true]
    obtain ⟨r, l2, hrun, hlat⟩ := prevMinute_spec hwf hok hyr fuel hfuel t hfix hy hmo hd hh
    refine ⟨r, l2, hrun, hlat.convert rfl ?_⟩
    intro m hm
    have h3 := hall _ hm.second
    unfold ltMinute ltSecond
    constructor
    · intro hlt; omega
    · intro hlt; omega
  · have hne1 : ¬ ((i : Int) = -1) := by omega
    have hM := getD_mem e.secondList i hi
    have hidx := index_natCast e.secondList i hi
    generalize e.secondList.getD i 0 = s at hle hmax hM hidx
    have rs := hwf.second_range s hM
    simp only [hf, hne1, if_false, hidx]
    have hdate : Date t.year t.month t.day t.hour t.minute s 0 t.loc =
        ⟨t.year, t.month, t.day, t.hour, t.minute, s, 0, t.loc, t.loc.offset⟩ :=
      Date_of_valid _ _ _ _ _ _ _ rmo.1 rmo.2 rd.1 rd.2 rh.1 rh.2 rmi.1 rmi.2 rs.1 rs.2
        hfix (hyr _ hy)
    rw [hdate]
    refine ⟨_, resolve e t.year t.month, rfl, ?_⟩
    right
    refine ⟨⟨hy, hmo, hd, hh, hmi, hM⟩, rfl, ⟨rfl, rfl⟩, ?_, rfl, ?_⟩
    · unfold ltSecond
      exact Or.inr ⟨rfl, Or.inr ⟨rfl, Or.inr ⟨rfl, Or.inr ⟨rfl, Or.inr ⟨rfl, by simp only; omega⟩⟩⟩⟩⟩
    · intro m hm hlt
      have h6 := hmax m.second hm.second
      unfold ltSecond at hlt ⊢
      simp only
      omega


/-! ## `Prev` -/

theorem Prev_spec {resolve : DayResolver} {e : Expression}
    (hwf : WellFormed e) (hok : ResolverOK resolve e) (hyr : YearsInRange e) (fuel : Nat)
    (hfuel : prevFuel e ≤ fuel)
    (l : List Int) (t : Time) (hfix : t.loc.tx = []) (hnz : ¬ t.IsZero) :
    ∃ r l2, Prev resolve fuel (e.withDays l) t = .ok (r, e.withDays l2) ∧
      Latest resolve e ltSecond t r l2 := by
  unfold Prev
  simp only [bind, Except.bind, pure, Except.pure, withDays_yearList, withDays_monthList,
    withDays_hourList, withDays_minuteList, withDays_secondList, hok.frame, hnz, if_false]
  -- year
  rcases guards_spec e.yearList t.year hwf.year_ne (asc_of_strict hwf.year_asc) with
    ⟨g1, hall⟩ | ⟨g1, g2, hnot⟩ | ⟨g1, g2, hy⟩
  · simp only [g1, if_true]
    refine ⟨Time.zero, l, rfl, Or.inl ⟨rfl, ?_⟩⟩
    intro m hm hlt
    have := hall _ hm.year
    unfold ltSecond at hlt
    omega
  · simp only [g1, g2, if_true, Bool.false_eq_true, if_false]
    obtain ⟨r, l2, hrun, hlat⟩ := prevYear_spec hwf hok hyr fuel hfuel l t hfix
    refine ⟨r, l2, hrun, hlat.convert rfl ?_⟩
    intro m hm
    have : m.year ≠ t.year := fun h => hnot (h ▸ hm.year)
    unfold ltYear ltSecond
    constructor <;> intro hlt <;> omega
  simp only [g1, g2, Bool.false_eq_true, if_false]
  -- month
  rcases guards_spec e.monthList t.month hwf.month_ne (asc_of_strict hwf.month_asc) with
    ⟨g1, hall⟩ | ⟨g1, g2, hnot⟩ | ⟨g1, g2, hmo⟩
  · simp only [g1, if_true]
    obtain ⟨r, l2, hrun, hlat⟩ := prevYear_spec hwf hok hyr fuel hfuel l t hfix
    refine ⟨r, l2, hrun, hlat.convert rfl ?_⟩
    intro m hm
    have := hall _ hm.month
    unfold ltYear ltSecond
    constructor <;> intro hlt <;> omega
  · simp only [g1, g2, if_true, Bool.false_eq_true, if_false]
    obtain ⟨r, l2, hrun, hlat⟩ := prevMonth_spec hwf hok hyr fuel hfuel l t hfix hy
    refine ⟨r, l2, hrun, hlat.convert rfl ?_⟩
    intro m hm
    have : m.month ≠ t.month := fun h => hnot (h ▸ hm.month)
    unfold ltMonth ltSecond
    constructor <;> intro hlt <;> omega
  simp only [g1, g2, Bool.false_eq_true, if_false]
  -- the resolved day list
  by_cases hD : (resolve e t.year t.month).length = 0
  · rw [if_pos hD]
    have hDnil : resolve e t.year t.month = [] := List.length_eq_zero.mp hD
    obtain ⟨r, l2, hrun, hlat⟩ := prevMonth_spec hwf hok hyr fuel hfuel
      (resolve e t.year t.month) t hfix hy
    refine ⟨r, l2, hrun, hlat.convert rfl ?_⟩
    intro m hm
    have h3 : m.year = t.year → m.month = t.month → False := by
      intro e1 e2
      have := hm.day
      rw [e1, e2, hDnil] at this
      cases this
    unfold ltMonth ltSecond
    constructor
    · intro hlt
      by_cases e1 : m.year = t.year
      · by_cases e2 : m.month = t.month
        · exact (h3 e1 e2).elim
        · omega
      · omega
    · intro hlt; omega
  rw [if_neg hD]
  have hDne : resolve e t.year t.month ≠ [] := fun h => hD (List.length_eq_zero.mpr h)
  have hmday : ∀ m : Time, Matches resolve e m → m.year = t.year → m.month = t.month →
      m.day ∈ resolve e t.year t.month := by
    intro m hm e1 e2
    have := hm.day
    rw [e1, e2] at this
    exact this
  -- day of month
  rcases guards_spec (resolve e t.year t.month) t.day hDne (hok.asc _ _) with
    ⟨g1, hall⟩ | ⟨g1, g2, hnot⟩ | ⟨g1, g2, hd⟩
  · simp only [g1, if_true]
    obtain ⟨r, l2, hrun, hlat⟩ := prevMonth_spec hwf hok hyr fuel hfuel
      (resolve e t.year t.month) t hfix hy
    refine ⟨r, l2, hrun, hlat.convert rfl ?_⟩
    intro m hm
    have h3 : m.year = t.year → m.month = t.month → t.day < m.day :=
      fun e1 e2 => hall _ (hmday m hm e1 e2)
    unfold ltMonth ltSecond
    constructor
    · intro hlt
      by_cases e1 : m.year = t.year
      · by_cases e2 : m.month = t.month
        · have := h3 e1 e2; omega
        · omega
      · omega
    · intro hlt; omega
  · simp only [g1, g2, if_true, Bool.false_eq_true, if_false]
    obtain ⟨r, l2, hrun, hlat⟩ := prevDayOfMonth_spec hwf hok hyr fuel hfuel t hfix hy hmo hDne
    refine ⟨r, l2, hrun, hlat.convert rfl ?_⟩
    intro m hm
    have h3 : m.year = t.year → m.month = t.month → m.day ≠ t.day :=
      fun e1 e2 e3 => hnot (e3 ▸ hmday m hm e1 e2)
    unfold ltDay ltSecond
    constructor
    · intro hlt
      by_cases e1 : m.year = t.year
      · by_cases e2 : m.month = t.month
        · have := h3 e1 e2; omega
        · omega
      · omega
    · intro hlt; omega
  simp only [g1, g2, Bool.false_eq_true, if_false]
  -- hour
  rcases guards_spec e.hourList t.hour hwf.hour_ne (asc_of_strict hwf.hour_asc) with
    ⟨g1, hall⟩ | ⟨g1, g2, hnot⟩ | ⟨g1, g2, hh⟩
  · simp only [g1, if_true]
    obtain ⟨r, l2, hrun, hlat⟩ := prevDayOfMonth_spec hwf hok hyr fuel hfuel t hfix hy hmo hDne
    refine ⟨r, l2, hrun, hlat.convert rfl ?_⟩
    intro m hm
    have := hall _ hm.hour
    unfold ltDay ltSecond
    constructor <;> intro hlt <;> omega
  · simp only [g1, g2, if_true, Bool.false_eq_true, if_false]
    obtain ⟨r, l2, hrun, hlat⟩ := prevHour_spec hwf hok hyr fuel hfuel t hfix hy hmo hd
    refine ⟨r, l2, hrun, hlat.convert rfl ?_⟩
    intro m hm
    have : m.hour ≠ t.hour := fun h => hnot (h ▸ hm.hour)
    unfold ltHour ltSecond
    constructor <;> intro hlt <;> omega
  simp only [g1, g2, Bool.false_eq_true, if_false]
  -- minute
  rcases guards_spec e.minuteList t.minute hwf.minute_ne (asc_of_strict hwf.minute_asc) with
    ⟨g1, hall⟩ | ⟨g1, g2, hnot⟩ | ⟨g1, g2, hmi⟩
  · simp only [g1, if_true]
    obtain ⟨r, l2, hrun, hlat⟩ := prevHour_spec hwf hok hyr fuel hfuel t hfix hy hmo hd
    refine ⟨r, l2, hrun, hlat.convert rfl ?_⟩
    intro m hm
    have := hall _ hm.minute
    unfold ltHour ltSecond
    constructor <;> intro hlt <;> omega
  · simp only [g1, g2, if_true, Bool.false_eq_true, if_false]
    obtain ⟨r, l2, hrun, hlat⟩ := prevMinute_spec hwf hok hyr fuel hfuel t hfix hy hmo hd hh
    refine ⟨r, l2, hrun, hlat.convert rfl ?_⟩
    intro m hm
    have : m.minute ≠ t.minute := fun h => hnot (h ▸ hm.minute)
    unfold ltMinute ltSecond
    constructor <;> intro hlt <;> omega
  simp only [g1, g2, Bool.false_eq_true, if_false]
  -- second
  rcases guards_spec e.secondList t.second hwf.second_ne (asc_of_strict hwf.second_asc) with
    ⟨g1, hall⟩ | ⟨g1, _, _⟩ | ⟨g1, _, _⟩
  · simp only [g1, if_true]
    obtain ⟨r, l2, hrun, hlat⟩ := prevMinute_spec hwf hok hyr fuel hfuel t hfix hy hmo hd hh
    refine ⟨r, l2, hrun, hlat.convert rfl ?_⟩
    intro m hm
    have := hall _ hm.second
    unfold ltMinute ltSecond
    constructor <;> intro hlt <;> omega
  · simp only [g1, Bool.false_eq_true, if_false]
    exact prevSecond_spec hwf hok hyr fuel hfuel t hfix hy hmo hd hh hmi
  · simp only [g1, Bool.false_eq_true, if_false]
    exact prevSecond_spec hwf hok hyr fuel hfuel t hfix hy hmo hd hh hmi

/-! ## Civil order and the instant order -/

theorem Time.zero_isZero : Time.zero.IsZero := by decide

theorem Time.zero_valid : Time.zero.Valid := by
  refine ⟨?_, ?_, ?_, ?_, ?_, ?_, ?_, ?_, ?_, ?_, ?_, ?_⟩ <;> decide

theorem Time.zero_plain : Time.zero.Plain :=
  ⟨⟨Time.zero_valid, by decide, by decide, by decide, by decide⟩, rfl, by decide⟩

theorem InZone_fixed {t : Time} (hfix : t.loc.tx = []) :
    t.InZone ↔ t.zoneOffset = t.loc.offset := by
  unfold Time.InZone
  rw [lookup_fixed t.loc hfix]

/-- In range, the count of seconds of an instant is the exact one. -/
theorem absSec_exact {t : Time} (h : t.InRange) :
    t.absSec = dayNumber t.year t.month t.day * 86400 + t.hour * 3600 + t.minute * 60
      + t.second - t.zoneOffset := by
  have hb := dayNumber_bounds t.year t.month t.day h.year_lo h.year_hi h.valid.month_lo
    h.valid.month_hi h.valid.day_lo h.valid.day_hi
  have h1 := h.valid.hour_lo; have h2 := h.valid.hour_hi
  have h3 := h.valid.minute_lo; have h4 := h.valid.minute_hi
  have h5 := h.valid.second_lo; have h6 := h.valid.second_hi
  have h7 := h.offset_lo; have h8 := h.offset_hi
  unfold Time.absSec wrap64
  omega

theorem absSec_lt_of_ltSecond {a b : Time} (ra : a.InRange) (rb : b.InRange)
    (hoff : a.zoneOffset = b.zoneOffset) (h : ltSecond a b) : a.absSec < b.absSec := by
  rw [absSec_exact ra, absSec_exact rb, hoff]
  have va := ra.valid
  have vb := rb.valid
  have ha := va.hour_lo; have ha2 := va.hour_hi
  have hb := vb.hour_lo; have hb2 := vb.hour_hi
  have hc := va.minute_lo; have hc2 := va.minute_hi
  have hd := vb.minute_lo; have hd2 := vb.minute_hi
  have he := va.second_lo; have he2 := va.second_hi
  have hf := vb.second_lo; have hf2 := vb.second_hi
  unfold ltSecond at h
  by_cases hdate : a.year < b.year ∨ (a.year = b.year ∧ (a.month < b.month ∨
      (a.month = b.month ∧ a.day < b.day)))
  · have := dayNumber_lt a.year a.month a.day b.year b.month b.day va.month_lo va.month_hi
      va.day_lo va.day_hi vb.month_lo vb.month_hi vb.day_lo vb.day_hi hdate
    omega
  · have e1 : a.year = b.year := by omega
    have e2 : a.month = b.month := by omega
    have e3 : a.day = b.day := by omega
    rw [e1, e2, e3]
    omega

theorem absSec_eq_of_fields {a b : Time} (hoff : a.zoneOffset = b.zoneOffset)
    (h1 : a.year = b.year) (h2 : a.month = b.month) (h3 : a.day = b.day)
    (h4 : a.hour = b.hour) (h5 : a.minute = b.minute) (h6 : a.second = b.second) :
    a.absSec = b.absSec := by
  unfold Time.absSec
  rw [hoff, h1, h2, h3, h4, h5, h6]

theorem ltSecond_of_absSec_lt {a b : Time} (ra : a.InRange) (rb : b.InRange)
    (hoff : a.zoneOffset = b.zoneOffset) (h : a.absSec < b.absSec) : ltSecond a b := by
  by_contra hn
  by_cases hba : ltSecond b a
  · have := absSec_lt_of_ltSecond rb ra hoff.symm hba
    omega
  · unfold ltSecond at hn hba
    have := absSec_eq_of_fields hoff (by omega) (by omega) (by omega) (by omega) (by omega)
      (by omega)
    omega

theorem Matches.valid {resolve : DayResolver} {e : Expression} {m : Time}
    (hwf : WellFormed e) (hok : ResolverOK resolve e) (hm : Matches resolve e m)
    (hns : m.nsec = 0) : m.Valid := by
  have a := hwf.month_range _ hm.month
  have b := hok.valid _ _ _ a.1 a.2 hm.day
  have c := hwf.hour_range _ hm.hour
  have d := hwf.minute_range _ hm.minute
  have f := hwf.second_range _ hm.second
  exact ⟨a.1, a.2, b.1, b.2, c.1, c.2, d.1, d.2, f.1, f.2, by omega, by omega⟩

/-- A whole-second match of the schedule, at the offset of an instant in
range, is in range. -/
theorem Matches.inRange {resolve : DayResolver} {e : Expression} {m t : Time}
    (hwf : WellFormed e) (hok : ResolverOK resolve e) (hyr : YearsInRange e)
    (hm : Matches resolve e m) (hns : m.nsec = 0) (ht : t.InRange)
    (hoff : m.zoneOffset = t.zoneOffset) : m.InRange :=
  ⟨hm.valid hwf hok hns, (hyr _ hm.year).1, (hyr _ hm.year).2, hoff ▸ ht.offset_lo,
    hoff ▸ ht.offset_hi⟩

/-- An instant of the location of a plain instant `t` that is at the offset in
effect there has the zone offset of `t`. -/
theorem Plain.zone_eq {t m : Time} (hp : t.Plain) (hloc : m.loc = t.loc) (hz : m.InZone) :
    m.zoneOffset = t.zoneOffset := by
  have h1 := (InZone_fixed hp.fixed).mp hp.zone
  have h2 := (InZone_fixed (hloc ▸ hp.fixed)).mp hz
  rw [h1, h2, hloc]

/-! ## The concrete schedules -/

theorem mem_monthDays (y m d : Int) : d ∈ monthDays y m ↔ 1 ≤ d ∧ d ≤ daysIn y m := by
  unfold monthDays
  simp only [List.mem_map, List.mem_range]
  constructor
  · rintro ⟨k, hk, rfl⟩
    omega
  · rintro ⟨h1, h2⟩
    exact ⟨(d - 1).toNat, by omega, by omega⟩

theorem monthDays_asc (y m : Int) : (monthDays y m).Pairwise (· < ·) := by
  unfold monthDays
  rw [List.pairwise_map]
  exact (List.pairwise_lt_range _).imp (fun h => by omega)

theorem specResolver_ok (e : Expression) : ResolverOK specResolver e := by
  refine ⟨fun l y m => rfl, ?_, ?_⟩
  · intro y m
    unfold specResolver
    split
    · exact ((monthDays_asc y m).imp (fun h => le_of_lt h)).filter _
    · exact (monthDays_asc y m).imp (fun h => le_of_lt h)
  · intro y m d _ _ hd
    unfold specResolver at hd
    split at hd
    · exact (mem_monthDays y m d).mp (List.mem_filter.mp hd).1
    · exact (mem_monthDays y m d).mp hd

theorem everyMorning_wf : WellFormed everyMorning := by
  refine ⟨?_, ?_, ?_, ?_, ?_, ?_, ?_, ?_, ?_, ?_, ?_, ?_, ?_, ?_⟩ <;> decide

theorem oneMorning_wf : WellFormed oneMorning := by
  refine ⟨?_, ?_, ?_, ?_, ?_, ?_, ?_, ?_, ?_, ?_, ?_, ?_, ?_, ?_⟩ <;> decide

theorem leapDay_wf : WellFormed leapDay := by
  refine ⟨?_, ?_, ?_, ?_, ?_, ?_, ?_, ?_, ?_, ?_, ?_, ?_, ?_, ?_⟩ <;> decide

theorem lastOfJanuary_wf : WellFormed lastOfJanuary := by
  refine ⟨?_, ?_, ?_, ?_, ?_, ?_, ?_, ?_, ?_, ?_, ?_, ?_, ?_, ?_⟩ <;> decide

theorem nightly_wf : WellFormed nightly := by
  refine ⟨?_, ?_, ?_, ?_, ?_, ?_, ?_, ?_, ?_, ?_, ?_, ?_, ?_, ?_⟩ <;> decide

theorem lateNight_wf : WellFormed lateNight := by
  refine ⟨?_, ?_, ?_, ?_, ?_, ?_, ?_, ?_, ?_, ?_, ?_, ?_, ?_, ?_⟩ <;> decide

theorem marchNight_wf : WellFormed marchNight := by
  refine ⟨?_, ?_, ?_, ?_, ?_, ?_, ?_, ?_, ?_, ?_, ?_, ?_, ?_, ?_⟩ <;> decide

theorem marchMidnight_wf : WellFormed marchMidnight := by
  refine ⟨?_, ?_, ?_, ?_, ?_, ?_, ?_, ?_, ?_, ?_, ?_, ?_, ?_, ?_⟩ <;> decide

theorem novemberEnd_wf : WellFormed novemberEnd := by
  refine ⟨?_, ?_, ?_, ?_, ?_, ?_, ?_, ?_, ?_, ?_, ?_, ?_, ?_, ?_⟩ <;> decide

theorem farPast_wf : WellFormed farPast := by
  refine ⟨?_, ?_, ?_, ?_, ?_, ?_, ?_, ?_, ?_, ?_, ?_, ?_, ?_, ?_⟩ <;> decide

theorem farPastSeventh_wf : WellFormed farPastSeventh := by
  refine ⟨?_, ?_, ?_, ?_, ?_, ?_, ?_, ?_, ?_, ?_, ?_, ?_, ?_, ?_⟩ <;> decide

theorem farPastNovember_wf : WellFormed farPastNovember := by
  refine ⟨?_, ?_, ?_, ?_, ?_, ?_, ?_, ?_, ?_, ?_, ?_, ?_, ?_, ?_⟩ <;> decide

theorem yearOne_wf : WellFormed yearOne := by
  refine ⟨?_, ?_, ?_, ?_, ?_, ?_, ?_, ?_, ?_, ?_, ?_, ?_, ?_, ?_⟩ <;> decide

theorem years_everyMorning : YearsInRange everyMorning := by
  unfold YearsInRange; decide

theorem years_oneMorning : YearsInRange oneMorning := by
  unfold YearsInRange; decide

theorem years_leapDay : YearsInRange leapDay := by
  unfold YearsInRange; decide

theorem years_lastOfJanuary : YearsInRange lastOfJanuary := by
  unfold YearsInRange; decide

theorem years_yearOne : YearsInRange yearOne := by
  unfold YearsInRange; decide

/-- An instant of `time.UTC` with valid civil fields, in a year in range, is
plain. -/
theorem plain_utc (y m d h mi s ns : Int) (hv : (⟨y, m, d, h, mi, s, ns, UTC, 0⟩ : Time).Valid)
    (hy1 : absoluteZeroYear ≤ y) (hy2 : y ≤ maxYear) :
    (⟨y, m, d, h, mi, s, ns, UTC, 0⟩ : Time).Plain :=
  ⟨⟨hv, hy1, hy2, by show (-86400 : Int) < 0; decide, by show (0 : Int) < 86400; decide⟩,
    rfl, (InZone_fixed rfl).mpr rfl⟩


/-! ## Consequences of the specification of `Prev` -/

theorem SearchInts_all_lt (a : List Int) (v : Int) (h : ∀ x ∈ a, x < v) :
    SearchInts a v = a.length := by
  have hf : ∀ k, k < a.length → decide (v ≤ a.getD k 0) = false := by
    intro k hk
    have := h _ (getD_mem a k hk)
    simp only [decide_eq_false_iff_not]
    omega
  have := searchLoop_spec (fun h => decide (v ≤ a.getD h 0)) a.length
    (by
      intro k k2 hk hk2 hfk
      have := hf k (by omega)
      simp only at hfk
      rw [this] at hfk
      exact Bool.noConfusion hfk)
    a.length 0 a.length (by omega) (by omega) (le_refl _) (by intro k hk; omega)
    (by intro k hk hk2; omega)
  have hle := SearchInts_le a v
  by_contra hne
  have hlt : SearchInts a v < a.length := by omega
  have h1 := this.2.2.2 (SearchInts a v) (le_refl _) hlt
  have h2 := hf _ hlt
  simp only at h1
  rw [h2] at h1
  exact Bool.noConfusion h1

/-- A match that `Prev` returns for a plain instant `t` is plain and at the
zone offset of `t`. -/
theorem plain_of_match {resolve : DayResolver} {e : Expression} {t r : Time}
    (hwf : WellFormed e) (hok : ResolverOK resolve e) (hyr : YearsInRange e) (hp : t.Plain)
    (hm : Matches resolve e r) (hns : r.nsec = 0) (hloc : r.loc = t.loc)
    (hzo : r.zoneOffset = t.loc.offset) : r.Plain ∧ r.zoneOffset = t.zoneOffset := by
  have h1 := (InZone_fixed hp.fixed).mp hp.zone
  have hoff : r.zoneOffset = t.zoneOffset := by rw [hzo, h1]
  have hfix : r.loc.tx = [] := by rw [hloc]; exact hp.fixed
  exact ⟨⟨hm.inRange hwf hok hyr hns hp.range hoff, hfix,
    (InZone_fixed hfix).mpr (by rw [hzo, hloc])⟩, hoff⟩

/-- One call of `Prev` on a plain instant: it returns, the result is a plain
instant, at least one second earlier unless it is the zero instant, and the
zero instant is returned unchanged. -/
theorem Prev_step {resolve : DayResolver} {e : Expression}
    (hwf : WellFormed e) (hok : ResolverOK resolve e) (hyr : YearsInRange e) (fuel : Nat)
    (hfuel : prevFuel e ≤ fuel) (l : List Int) (t : Time) (hp : t.Plain) :
    ∃ r l2, Prev resolve fuel (e.withDays l) t = .ok (r, e.withDays l2) ∧ r.Plain ∧
      (¬ r.IsZero → r.absSec + 1 ≤ t.absSec) ∧ (t.IsZero → r = t) := by
  by_cases hz : t.IsZero
  · refine ⟨t, l, ?_, hp, fun h => (h hz).elim, fun _ => rfl⟩
    unfold Prev
    simp only [hz, if_true, pure, Except.pure]
  · obtain ⟨r, l2, hrun, hlat⟩ := Prev_spec hwf hok hyr fuel hfuel l t hp.fixed hz
    refine ⟨r, l2, hrun, ?_, ?_, fun h => (hz h).elim⟩
    · rcases hlat with ⟨rfl, _⟩ | ⟨hm, hns, ⟨hloc, hzo⟩, _⟩
      · exact Time.zero_plain
      · exact (plain_of_match hwf hok hyr hp hm hns hloc hzo).1
    · intro hnz
      rcases hlat with ⟨rfl, _⟩ | ⟨hm, hns, ⟨hloc, hzo⟩, hlt, _⟩
      · exact (hnz Time.zero_isZero).elim
      · obtain ⟨hrp, hoff⟩ := plain_of_match hwf hok hyr hp hm hns hloc hzo
        have := absSec_lt_of_ltSecond hrp.range hp.range hoff hlt
        omega

theorem PrevN_spec {resolve : DayResolver} {e : Expression}
    (hwf : WellFormed e) (hok : ResolverOK resolve e) (hyr : YearsInRange e) (fuel : Nat)
    (hfuel : prevFuel e ≤ fuel) (l : List Int) (t : Time) (hp : t.Plain) (n : Nat) :
    ∃ a la b lb, PrevN resolve fuel (e.withDays l) t n = .ok (a, e.withDays la) ∧
      PrevN resolve fuel (e.withDays l) t (n + 1) = .ok (b, e.withDays lb) ∧
      a.Plain ∧ b.Plain ∧ (¬ b.IsZero → b.absSec + 1 ≤ a.absSec) ∧ (a.IsZero → b = a) := by
  induction n with
  | zero =>
    obtain ⟨r, l2, hrun, hrv, hlt, hz⟩ := Prev_step hwf hok hyr fuel hfuel l t hp
    refine ⟨t, l, r, l2, rfl, ?_, hp, hrv, hlt, hz⟩
    simp only [PrevN, bind, Except.bind]
    exact hrun
  | succ n ih =>
    obtain ⟨a, la, b, lb, h1, h2, va, vb, _, _⟩ := ih
    obtain ⟨r, l2, hrun, hrv, hlt, hz⟩ := Prev_step hwf hok hyr fuel hfuel lb b vb
    refine ⟨b, lb, r, l2, h2, ?_, vb, hrv, hlt, hz⟩
    rw [PrevN]
    simp only [bind, Except.bind, h2]
    exact hrun

theorem hour47_ascending : Ascending hour47 := by
  refine ⟨?_, ?_, ?_, ?_, ?_, ?_, ?_, ?_, ?_, ?_⟩ <;> decide

/-- C1, as amended. Soundness of `Prev`: on a well-formed expression (lists
non-empty, strictly ascending, values in their domains) whose years lie where
the count of seconds does not wrap, with a day resolver that returns ascending
lists of valid days, `Prev` of a non-zero instant of a location without zone
transitions returns (with fuel for every (year, month) pair), and a result
that is not the zero instant matches the schedule at every level: year, month,
day of the resolved day list of its own (year, month), hour, minute and
second. -/
theorem Prev_sound (resolve : DayResolver) (e : Expression) (fromTime : Time) (fuel : Nat)
    (hwf : WellFormed e) (hok : ResolverOK resolve e) (hyr : YearsInRange e)
    (hfix : fromTime.loc.tx = []) (hnz : ¬ fromTime.IsZero) (hfuel : prevFuel e ≤ fuel) :
    ∃ r e2, Prev resolve fuel e fromTime = .ok (r, e2) ∧
      (¬ r.IsZero → Matches resolve e r) := by
  obtain ⟨r, l2, hrun, hlat⟩ :=
    Prev_spec hwf hok hyr fuel hfuel e.actualDaysOfMonthList fromTime hfix hnz
  refine ⟨r, e.withDays l2, hrun, ?_⟩
  intro hrz
  rcases hlat with ⟨rfl, _⟩ | ⟨hm, _⟩
  · exact (hrz Time.zero_isZero).elim
  · exact hm

/-- The hypotheses of `Prev_sound` hold for the schedule "every day at 09:30:00
in 2023 to 2025" and the instant 2024-03-10 12:00:00 UTC. -/
theorem Prev_sound_witness :
    WellFormed everyMorning ∧ ResolverOK specResolver everyMorning ∧
    YearsInRange everyMorning ∧ UTC.tx = [] ∧
    ¬ (⟨2024, 3, 10, 12, 0, 0, 0, UTC, 0⟩ : Time).IsZero ∧
    ∃ r e2, Prev specResolver (prevFuel everyMorning) everyMorning
        ⟨2024, 3, 10, 12, 0, 0, 0, UTC, 0⟩ = .ok (r, e2) ∧
      (¬ r.IsZero → Matches specResolver everyMorning r) :=
  ⟨everyMorning_wf, specResolver_ok _, years_everyMorning, rfl, by decide,
    Prev_sound specResolver everyMorning ⟨2024, 3, 10, 12, 0, 0, 0, UTC, 0⟩ _ everyMorning_wf
      (specResolver_ok _) years_everyMorning rfl (by decide) (le_refl _)⟩

/-- C1, as stated, fails in three ways.  With an hour outside 0..23 (hour 47
on March 10, 2024; the lists are non-empty and strictly ascending), `Prev`
from 2024-03-11 12:00:00 UTC returns 2024-03-11 23:00:00, whose hour and day
are not listed.  Across a zone transition (every day at 02:30:00 in 2024, in
`America/New_York`), `Prev` from 2024-03-11 01:00:00 returns 2024-03-10
01:30:00, whose hour is not listed: 02:30 does not exist on that day.  With a
year where the count of seconds wraps (-300000000000), `Prev` from 2024-01-01
returns an instant of the year 284554049253, which is not listed. -/
theorem Prev_sound_counterexample :
    (Ascending hour47 ∧ ResolverOK specResolver hour47 ∧
      ¬ (⟨2024, 3, 11, 12, 0, 0, 0, UTC, 0⟩ : Time).IsZero ∧
      Prev specResolver (prevFuel hour47) hour47 ⟨2024, 3, 11, 12, 0, 0, 0, UTC, 0⟩
        = .ok (⟨2024, 3, 11, 23, 0, 0, 0, UTC, 0⟩, hour47.withDays [10]) ∧
      ¬ (⟨2024, 3, 11, 23, 0, 0, 0, UTC, 0⟩ : Time).IsZero ∧
      ¬ Matches specResolver hour47 ⟨2024, 3, 11, 23, 0, 0, 0, UTC, 0⟩) ∧
    (WellFormed nightly ∧ ResolverOK specResolver nightly ∧
      (⟨2024, 3, 11, 1, 0, 0, 0, newYork, -14400⟩ : Time).InZone ∧
      ¬ (⟨2024, 3, 11, 1, 0, 0, 0, newYork, -14400⟩ : Time).IsZero ∧
      Prev specResolver (prevFuel nightly) nightly ⟨2024, 3, 11, 1, 0, 0, 0, newYork, -14400⟩
        = .ok (⟨2024, 3, 10, 1, 30, 0, 0, newYork, -18000⟩,
            nightly.withDays (monthDays 2024 3)) ∧
      ¬ (⟨2024, 3, 10, 1, 30, 0, 0, newYork, -18000⟩ : Time).IsZero ∧
      ¬ Matches specResolver nightly ⟨2024, 3, 10, 1, 30, 0, 0, newYork, -18000⟩) ∧
    (WellFormed farPast ∧ ResolverOK specResolver farPast ∧
      ¬ (⟨2024, 1, 1, 0, 0, 0, 0, UTC, 0⟩ : Time).IsZero ∧
      ∃ r e2, Prev specResolver (prevFuel farPast) farPast ⟨2024, 1, 1, 0, 0, 0, 0, UTC, 0⟩
          = .ok (r, e2) ∧
        ¬ r.IsZero ∧ r.year = 284554049253 ∧ ¬ Matches specResolver farPast r) := by
  refine ⟨⟨hour47_ascending, specResolver_ok _, by decide, by rfl, by decide, ?_⟩,
    ⟨nightly_wf, specResolver_ok _, by decide, by decide, by rfl, by decide, ?_⟩,
    ⟨farPast_wf, specResolver_ok _, by decide, _, _, rfl, by decide, rfl, ?_⟩⟩
  · exact fun h => absurd h.hour (by decide)
  · exact fun h => absurd h.hour (by decide)
  · exact fun h => absurd h.year (by decide)


theorem valid_of_fields (y m d h mi s ns : Int) (loc : Location) (z : Int)
    (h1 : 1 ≤ m ∧ m ≤ 12) (h2 : 1 ≤ d ∧ d ≤ daysIn y m) (h3 : 0 ≤ h ∧ h ≤ 23)
    (h4 : 0 ≤ mi ∧ mi ≤ 59) (h5 : 0 ≤ s ∧ s ≤ 59) (h6 : 0 ≤ ns ∧ ns ≤ 999999999) :
    (⟨y, m, d, h, mi, s, ns, loc, z⟩ : Time).Valid :=
  ⟨h1.1, h1.2, h2.1, h2.2, h3.1, h3.2, h4.1, h4.2, h5.1, h5.2, h6.1, h6.2⟩

/-- C2, as amended. Maximality of `Prev` up to the whole second of `fromTime`:
on a well-formed expression (lists non-empty, strictly ascending, values in
their domains) whose years lie where the count of seconds does not wrap, with
a day resolver that returns ascending lists of valid days, for a non-zero
`fromTime` of a location without zone transitions, in a year and at an offset
at which the count of seconds does not wrap, `Prev` returns, and a result `r`
that is not the zero instant matches the schedule, lies before `fromTime`,
and no whole-second instant `m` of that location that matches the schedule
lies after `r` and before the whole second of `fromTime`. -/
theorem Prev_latest (resolve : DayResolver) (e : Expression) (fromTime : Time) (fuel : Nat)
    (hwf : WellFormed e) (hok : ResolverOK resolve e) (hyr : YearsInRange e)
    (hp : fromTime.Plain) (hnz : ¬ fromTime.IsZero) (hfuel : prevFuel e ≤ fuel) :
    ∃ r e2, Prev resolve fuel e fromTime = .ok (r, e2) ∧
      (¬ r.IsZero → Matches resolve e r ∧ r.absSec < fromTime.absSec ∧
        ∀ m : Time, m.loc = fromTime.loc → m.InZone → m.nsec = 0 → Matches resolve e m →
          ¬ (r.Before m ∧ m.absSec < fromTime.absSec)) := by
  obtain ⟨r, l2, hrun, hlat⟩ :=
    Prev_spec hwf hok hyr fuel hfuel e.actualDaysOfMonthList fromTime hp.fixed hnz
  refine ⟨r, e.withDays l2, hrun, ?_⟩
  intro hrz
  rcases hlat with ⟨rfl, _⟩ | ⟨hr, hrns, ⟨hrloc, hrzo⟩, hlt, _, hmax⟩
  · exact (hrz Time.zero_isZero).elim
  · obtain ⟨hrp, hroff⟩ := plain_of_match hwf hok hyr hp hr hrns hrloc hrzo
    refine ⟨hr, absSec_lt_of_ltSecond hrp.range hp.range hroff hlt, ?_⟩
    intro m hmloc hmz hmns hm ⟨hrm, hmf⟩
    have hmoff := Plain.zone_eq hp hmloc hmz
    have rm := hm.inRange hwf hok hyr hmns hp.range hmoff
    have h2 := ltSecond_of_absSec_lt rm hp.range hmoff hmf
    have h3 := hmax m hm h2
    unfold Time.Before at hrm
    have h4 : r.absSec < m.absSec := by omega
    exact h3 (ltSecond_of_absSec_lt hrp.range rm (hroff.trans hmoff.symm) h4)

/-- The hypotheses of `Prev_latest` hold for the schedule "every day at
09:30:00 in 2023 to 2025" and the instant 2024-03-10 12:00:00.25 UTC. -/
theorem Prev_latest_witness :
    WellFormed everyMorning ∧ ResolverOK specResolver everyMorning ∧
    YearsInRange everyMorning ∧
    (⟨2024, 3, 10, 12, 0, 0, 250000000, UTC, 0⟩ : Time).Plain ∧
    ¬ (⟨2024, 3, 10, 12, 0, 0, 250000000, UTC, 0⟩ : Time).IsZero ∧
    ∃ r e2, Prev specResolver (prevFuel everyMorning) everyMorning
        ⟨2024, 3, 10, 12, 0, 0, 250000000, UTC, 0⟩ = .ok (r, e2) ∧
      (¬ r.IsZero → Matches specResolver everyMorning r ∧
        r.absSec < (⟨2024, 3, 10, 12, 0, 0, 250000000, UTC, 0⟩ : Time).absSec ∧
        ∀ m : Time, m.loc = UTC → m.InZone → m.nsec = 0 →
          Matches specResolver everyMorning m →
          ¬ (r.Before m ∧
            m.absSec < (⟨2024, 3, 10, 12, 0, 0, 250000000, UTC, 0⟩ : Time).absSec)) :=
  have hp : (⟨2024, 3, 10, 12, 0, 0, 250000000, UTC, 0⟩ : Time).Plain :=
    plain_utc _ _ _ _ _ _ _ (valid_of_fields _ _ _ _ _ _ _ _ _ (by decide) (by decide)
      (by decide) (by decide) (by decide) (by decide)) (by decide) (by decide)
  ⟨everyMorning_wf, specResolver_ok _, years_everyMorning, hp, by decide,
    Prev_latest specResolver everyMorning ⟨2024, 3, 10, 12, 0, 0, 250000000, UTC, 0⟩ _
      everyMorning_wf (specResolver_ok _) years_everyMorning hp (by decide) (le_refl _)⟩

/-- C2, as stated, fails in six ways.  Below the whole second: from 2024-03-10
09:30:00.5 UTC on "every day at 09:30:00", `Prev` returns 2024-03-09 09:30:00
although the match 2024-03-10 09:30:00 lies between the two.  Across a zone
transition: on "every day at 01:30:00 in 2024" in `America/New_York`, from
2024-11-03 12:00:00 EST `Prev` returns the first 01:30:00 of that day (EDT)
although the second 01:30:00 (EST) matches and lies between the two.  With an
hour outside 0..23 (hour 47), with a listed year where the count of seconds
wraps (-300000000000), from an instant whose own count wraps (`time.Unix` of
-9223372036800000000, shown as of the year 292277026598), and in a fixed zone
whose offset makes the count wrap, the result is not before `fromTime`. -/
theorem Prev_latest_counterexample :
    (WellFormed everyMorning ∧ ResolverOK specResolver everyMorning ∧
      (⟨2024, 3, 10, 9, 30, 0, 500000000, UTC, 0⟩ : Time).Valid ∧
      (⟨2024, 3, 10, 9, 30, 0, 500000000, UTC, 0⟩ : Time).InZone ∧
      ¬ (⟨2024, 3, 10, 9, 30, 0, 500000000, UTC, 0⟩ : Time).IsZero ∧
      Prev specResolver (prevFuel everyMorning) everyMorning
          ⟨2024, 3, 10, 9, 30, 0, 500000000, UTC, 0⟩
        = .ok (⟨2024, 3, 9, 9, 30, 0, 0, UTC, 0⟩, everyMorning.withDays (monthDays 2024 3)) ∧
      ¬ (⟨2024, 3, 9, 9, 30, 0, 0, UTC, 0⟩ : Time).IsZero ∧
      Matches specResolver everyMorning ⟨2024, 3, 10, 9, 30, 0, 0, UTC, 0⟩ ∧
      (⟨2024, 3, 10, 9, 30, 0, 0, UTC, 0⟩ : Time).InZone ∧
      (⟨2024, 3, 9, 9, 30, 0, 0, UTC, 0⟩ : Time).Before ⟨2024, 3, 10, 9, 30, 0, 0, UTC, 0⟩ ∧
      (⟨2024, 3, 10, 9, 30, 0, 0, UTC, 0⟩ : Time).Before
        ⟨2024, 3, 10, 9, 30, 0, 500000000, UTC, 0⟩) ∧
    (WellFormed lateNight ∧ ResolverOK specResolver lateNight ∧
      (⟨2024, 11, 3, 12, 0, 0, 0, newYork, -18000⟩ : Time).Valid ∧
      (⟨2024, 11, 3, 12, 0, 0, 0, newYork, -18000⟩ : Time).InZone ∧
      ¬ (⟨2024, 11, 3, 12, 0, 0, 0, newYork, -18000⟩ : Time).IsZero ∧
      Prev specResolver (prevFuel lateNight) lateNight
          ⟨2024, 11, 3, 12, 0, 0, 0, newYork, -18000⟩
        = .ok (⟨2024, 11, 3, 1, 30, 0, 0, newYork, -14400⟩,
            lateNight.withDays (monthDays 2024 11)) ∧
      ¬ (⟨2024, 11, 3, 1, 30, 0, 0, newYork, -14400⟩ : Time).IsZero ∧
      Matches specResolver lateNight ⟨2024, 11, 3, 1, 30, 0, 0, newYork, -18000⟩ ∧
      (⟨2024, 11, 3, 1, 30, 0, 0, newYork, -18000⟩ : Time).InZone ∧
      (⟨2024, 11, 3, 1, 30, 0, 0, newYork, -14400⟩ : Time).Before
        ⟨2024, 11, 3, 1, 30, 0, 0, newYork, -18000⟩ ∧
      (⟨2024, 11, 3, 1, 30, 0, 0, newYork, -18000⟩ : Time).Before
        ⟨2024, 11, 3, 12, 0, 0, 0, newYork, -18000⟩) ∧
    (Ascending hour47 ∧ ResolverOK specResolver hour47 ∧
      (⟨2024, 3, 11, 12, 0, 0, 0, UTC, 0⟩ : Time).Valid ∧
      ¬ (⟨2024, 3, 11, 12, 0, 0, 0, UTC, 0⟩ : Time).IsZero ∧
      Prev specResolver (prevFuel hour47) hour47 ⟨2024, 3, 11, 12, 0, 0, 0, UTC, 0⟩
        = .ok (⟨2024, 3, 11, 23, 0, 0, 0, UTC, 0⟩, hour47.withDays [10]) ∧
      ¬ (⟨2024, 3, 11, 23, 0, 0, 0, UTC, 0⟩ : Time).IsZero ∧
      (⟨2024, 3, 11, 12, 0, 0, 0, UTC, 0⟩ : Time).Before ⟨2024, 3, 11, 23, 0, 0, 0, UTC, 0⟩) ∧
    (WellFormed farPast ∧ ResolverOK specResolver farPast ∧
      (⟨2024, 1, 1, 0, 0, 0, 0, UTC, 0⟩ : Time).Valid ∧
      ¬ (⟨2024, 1, 1, 0, 0, 0, 0, UTC, 0⟩ : Time).IsZero ∧
      Prev specResolver (prevFuel farPast) farPast ⟨2024, 1, 1, 0, 0, 0, 0, UTC, 0⟩
        = .ok (⟨284554049253, 12, 8, 7, 0, 16, 0, UTC, 0⟩,
            farPast.withDays (monthDays (-300000000000) 1)) ∧
      ¬ (⟨284554049253, 12, 8, 7, 0, 16, 0, UTC, 0⟩ : Time).IsZero ∧
      (⟨2024, 1, 1, 0, 0, 0, 0, UTC, 0⟩ : Time).Before
        ⟨284554049253, 12, 8, 7, 0, 16, 0, UTC, 0⟩) ∧
    (WellFormed everyMorning ∧ YearsInRange everyMorning ∧
      unixTime (-9223372036800000000) 0 UTC = ⟨292277026598, 8, 30, 15, 0, 16, 0, UTC, 0⟩ ∧
      (⟨292277026598, 8, 30, 15, 0, 16, 0, UTC, 0⟩ : Time).Valid ∧
      ¬ (⟨292277026598, 8, 30, 15, 0, 16, 0, UTC, 0⟩ : Time).IsZero ∧
      Prev specResolver (prevFuel everyMorning) everyMorning
          ⟨292277026598, 8, 30, 15, 0, 16, 0, UTC, 0⟩
        = .ok (⟨2025, 12, 31, 9, 30, 0, 0, UTC, 0⟩,
            everyMorning.withDays (monthDays 2025 12)) ∧
      ¬ (⟨2025, 12, 31, 9, 30, 0, 0, UTC, 0⟩ : Time).IsZero ∧
      (⟨292277026598, 8, 30, 15, 0, 16, 0, UTC, 0⟩ : Time).Before
        ⟨2025, 12, 31, 9, 30, 0, 0, UTC, 0⟩) ∧
    (WellFormed oneMorning ∧ YearsInRange oneMorning ∧ farZone.tx = [] ∧
      Date 2024 3 10 12 0 0 0 farZone
        = ⟨2024, 3, 10, 12, 0, 0, 0, farZone, -9223371973009107008⟩ ∧
      (⟨2024, 3, 10, 12, 0, 0, 0, farZone, -9223371973009107008⟩ : Time).Valid ∧
      (⟨2024, 3, 10, 12, 0, 0, 0, farZone, -9223371973009107008⟩ : Time).InZone ∧
      ¬ (⟨2024, 3, 10, 12, 0, 0, 0, farZone, -9223371973009107008⟩ : Time).IsZero ∧
      Prev specResolver (prevFuel oneMorning) oneMorning
          ⟨2024, 3, 10, 12, 0, 0, 0, farZone, -9223371973009107008⟩
        = .ok (⟨2024, 3, 10, 9, 30, 0, 0, farZone, -9223371973009107008⟩,
            oneMorning.withDays [10]) ∧
      ¬ (⟨2024, 3, 10, 9, 30, 0, 0, farZone, -9223371973009107008⟩ : Time).IsZero ∧
      (⟨2024, 3, 10, 12, 0, 0, 0, farZone, -9223371973009107008⟩ : Time).Before
        ⟨2024, 3, 10, 9, 30, 0, 0, farZone, -9223371973009107008⟩) := by
  refine ⟨⟨everyMorning_wf, specResolver_ok _, ?_, by decide, by decide, by rfl, by decide,
      ?_, by decide, by decide, by decide⟩,
    ⟨lateNight_wf, specResolver_ok _, ?_, by decide, by decide, by rfl, by decide, ?_,
      by decide, by decide, by decide⟩,
    ⟨hour47_ascending, specResolver_ok _, ?_, by decide, by rfl, by decide, by decide⟩,
    ⟨farPast_wf, specResolver_ok _, ?_, by decide, by rfl, by decide, by decide⟩,
    ⟨everyMorning_wf, years_everyMorning, by rfl, ?_, by decide, by rfl, by decide,
      by decide⟩,
    ⟨oneMorning_wf, years_oneMorning, rfl, by rfl, ?_, by decide, by decide, by rfl,
      by decide, by decide⟩⟩
  · refine ⟨?_, ?_, ?_, ?_, ?_, ?_, ?_, ?_, ?_, ?_, ?_, ?_⟩ <;> decide
  · refine ⟨?_, ?_, ?_, ?_, ?_, ?_⟩ <;> decide
  · refine ⟨?_, ?_, ?_, ?_, ?_, ?_, ?_, ?_, ?_, ?_, ?_, ?_⟩ <;> decide
  · refine ⟨?_, ?_, ?_, ?_, ?_, ?_⟩ <;> decide
  · refine ⟨?_, ?_, ?_, ?_, ?_, ?_, ?_, ?_, ?_, ?_, ?_, ?_⟩ <;> decide
  · refine ⟨?_, ?_, ?_, ?_, ?_, ?_, ?_, ?_, ?_, ?_, ?_, ?_⟩ <;> decide
  · refine ⟨?_, ?_, ?_, ?_, ?_, ?_, ?_, ?_, ?_, ?_, ?_, ?_⟩ <;> decide
  · refine ⟨?_, ?_, ?_, ?_, ?_, ?_, ?_, ?_, ?_, ?_, ?_, ?_⟩ <;> decide


/-- C3, as amended. Strict backward progress: on a well-formed expression
(lists non-empty, strictly ascending, values in their domains) whose years lie
where the count of seconds does not wrap, with a day resolver that returns
ascending lists of valid days, for a `fromTime` of a location without zone
transitions, in a year and at an offset at which the count of seconds does
not wrap, `Prev` returns, and a result that is not the zero instant is at
least one second earlier than `fromTime`; and in the sequence `fromTime`,
`Prev(fromTime)`, `Prev(Prev(fromTime))`, ... every element that is not the
zero instant is at least one second earlier than every element before it. -/
theorem Prev_strictly_earlier (resolve : DayResolver) (e : Expression) (fromTime : Time)
    (fuel : Nat) (hwf : WellFormed e) (hok : ResolverOK resolve e) (hyr : YearsInRange e)
    (hp : fromTime.Plain) (hfuel : prevFuel e ≤ fuel) :
    (∃ r e2, Prev resolve fuel e fromTime = .ok (r, e2) ∧
      (¬ r.IsZero → r.absSec + 1 ≤ fromTime.absSec)) ∧
    (∀ i j : Nat, i < j → ∃ a ea b eb,
      PrevN resolve fuel e fromTime i = .ok (a, ea) ∧
      PrevN resolve fuel e fromTime j = .ok (b, eb) ∧
      (¬ b.IsZero → b.absSec + 1 ≤ a.absSec)) := by
  constructor
  · obtain ⟨r, l2, hrun, _, hlt, _⟩ :=
      Prev_step hwf hok hyr fuel hfuel e.actualDaysOfMonthList fromTime hp
    exact ⟨r, e.withDays l2, hrun, hlt⟩
  · intro i j hij
    obtain ⟨k, rfl⟩ : ∃ k, j = i + k + 1 := ⟨j - i - 1, by omega⟩
    clear hij
    induction k with
    | zero =>
      obtain ⟨a, la, b, lb, h1, h2, _, _, hlt, _⟩ :=
        PrevN_spec hwf hok hyr fuel hfuel e.actualDaysOfMonthList fromTime hp i
      exact ⟨a, _, b, _, h1, h2, hlt⟩
    | succ k ih =>
      obtain ⟨a, ea, b, eb, h1, h2, hlt⟩ := ih
      obtain ⟨b2, lb2, c, lc, h3, h4, _, _, hlt2, hz⟩ :=
        PrevN_spec hwf hok hyr fuel hfuel e.actualDaysOfMonthList fromTime hp (i + k + 1)
      have hb : b2 = b := by
        have h5 : PrevN resolve fuel e fromTime (i + k + 1) = .ok (b2, e.withDays lb2) := h3
        rw [h2] at h5
        injection h5 with h6
        exact (congrArg Prod.fst h6).symm
      subst hb
      refine ⟨a, ea, c, _, h1, h4, ?_⟩
      intro hc
      have hbz : ¬ b2.IsZero := by
        intro hbz
        exact hc ((hz hbz).symm ▸ hbz)
      have := hlt hbz
      have := hlt2 hc
      omega

/-- The hypotheses of `Prev_strictly_earlier` hold for the schedule "every day
at 09:30:00 in 2023 to 2025" and the instant 2024-03-10 12:00:00 UTC. -/
theorem Prev_strictly_earlier_witness :
    WellFormed everyMorning ∧ ResolverOK specResolver everyMorning ∧
    YearsInRange everyMorning ∧ (⟨2024, 3, 10, 12, 0, 0, 0, UTC, 0⟩ : Time).Plain ∧
    ((∃ r e2, Prev specResolver (prevFuel everyMorning) everyMorning
        ⟨2024, 3, 10, 12, 0, 0, 0, UTC, 0⟩ = .ok (r, e2) ∧
      (¬ r.IsZero → r.absSec + 1 ≤ (⟨2024, 3, 10, 12, 0, 0, 0, UTC, 0⟩ : Time).absSec)) ∧
    (∀ i j : Nat, i < j → ∃ a ea b eb,
      PrevN specResolver (prevFuel everyMorning) everyMorning
        ⟨2024, 3, 10, 12, 0, 0, 0, UTC, 0⟩ i = .ok (a, ea) ∧
      PrevN specResolver (prevFuel everyMorning) everyMorning
        ⟨2024, 3, 10, 12, 0, 0, 0, UTC, 0⟩ j = .ok (b, eb) ∧
      (¬ b.IsZero → b.absSec + 1 ≤ a.absSec))) :=
  have hp : (⟨2024, 3, 10, 12, 0, 0, 0, UTC, 0⟩ : Time).Plain :=
    plain_utc _ _ _ _ _ _ _ (valid_of_fields _ _ _ _ _ _ _ _ _ (by decide) (by decide)
      (by decide) (by decide) (by decide) (by decide)) (by decide) (by decide)
  ⟨everyMorning_wf, specResolver_ok _, years_everyMorning, hp,
    Prev_strictly_earlier specResolver everyMorning ⟨2024, 3, 10, 12, 0, 0, 0, UTC, 0⟩ _
      everyMorning_wf (specResolver_ok _) years_everyMorning hp (le_refl _)⟩

/-- C3, as stated, fails in five ways: the result is later than `fromTime`.
Across a zone transition: on "every day at 02:30:00 in 2024" in
`Europe/Berlin`, from 2024-03-31 03:10:00 CEST `Prev` returns 2024-03-31
03:30:00 CEST, because 02:30 does not exist on that day.  With an hour outside
0..23 (hour 47 on March 10): from 2024-03-11 12:00:00 UTC `Prev` returns
2024-03-11 23:00:00.  With a listed year where the count of seconds wraps
(-300000000000): from 2024-01-01 `Prev` returns an instant of the year
284554049253.  From an instant whose own count wraps (`time.Unix` of
-9223372036800000000, shown as of the year 292277026598): `Prev` returns
2025-12-31 09:30:00.  In a fixed zone whose offset makes the count wrap: from
noon of 2024-03-10 `Prev` returns 09:30:00 of that day, whose count of seconds
lies on the other side of the wrap. -/
theorem Prev_strictly_earlier_counterexample :
    (WellFormed nightly ∧ ResolverOK specResolver nightly ∧
      (⟨2024, 3, 31, 3, 10, 0, 0, berlin, 7200⟩ : Time).Valid ∧
      (⟨2024, 3, 31, 3, 10, 0, 0, berlin, 7200⟩ : Time).InZone ∧
      ¬ (⟨2024, 3, 31, 3, 10, 0, 0, berlin, 7200⟩ : Time).IsZero ∧
      Prev specResolver (prevFuel nightly) nightly ⟨2024, 3, 31, 3, 10, 0, 0, berlin, 7200⟩
        = .ok (⟨2024, 3, 31, 3, 30, 0, 0, berlin, 7200⟩,
            nightly.withDays (monthDays 2024 3)) ∧
      ¬ (⟨2024, 3, 31, 3, 30, 0, 0, berlin, 7200⟩ : Time).IsZero ∧
      (⟨2024, 3, 31, 3, 10, 0, 0, berlin, 7200⟩ : Time).Before
        ⟨2024, 3, 31, 3, 30, 0, 0, berlin, 7200⟩) ∧
    (Ascending hour47 ∧ ResolverOK specResolver hour47 ∧
      (⟨2024, 3, 11, 12, 0, 0, 0, UTC, 0⟩ : Time).Valid ∧
      ¬ (⟨2024, 3, 11, 12, 0, 0, 0, UTC, 0⟩ : Time).IsZero ∧
      Prev specResolver (prevFuel hour47) hour47 ⟨2024, 3, 11, 12, 0, 0, 0, UTC, 0⟩
        = .ok (⟨2024, 3, 11, 23, 0, 0, 0, UTC, 0⟩, hour47.withDays [10]) ∧
      ¬ (⟨2024, 3, 11, 23, 0, 0, 0, UTC, 0⟩ : Time).IsZero ∧
      (⟨2024, 3, 11, 12, 0, 0, 0, UTC, 0⟩ : Time).Before ⟨2024, 3, 11, 23, 0, 0, 0, UTC, 0⟩) ∧
    (WellFormed farPast ∧ ResolverOK specResolver farPast ∧
      (⟨2024, 1, 1, 0, 0, 0, 0, UTC, 0⟩ : Time).Valid ∧
      ¬ (⟨2024, 1, 1, 0, 0, 0, 0, UTC, 0⟩ : Time).IsZero ∧
      Prev specResolver (prevFuel farPast) farPast ⟨2024, 1, 1, 0, 0, 0, 0, UTC, 0⟩
        = .ok (⟨284554049253, 12, 8, 7, 0, 16, 0, UTC, 0⟩,
            farPast.withDays (monthDays (-300000000000) 1)) ∧
      ¬ (⟨284554049253, 12, 8, 7, 0, 16, 0, UTC, 0⟩ : Time).IsZero ∧
      (⟨2024, 1, 1, 0, 0, 0, 0, UTC, 0⟩ : Time).Before
        ⟨284554049253, 12, 8, 7, 0, 16, 0, UTC, 0⟩) ∧
    (WellFormed everyMorning ∧ YearsInRange everyMorning ∧
      unixTime (-9223372036800000000) 0 UTC = ⟨292277026598, 8, 30, 15, 0, 16, 0, UTC, 0⟩ ∧
      (⟨292277026598, 8, 30, 15, 0, 16, 0, UTC, 0⟩ : Time).Valid ∧
      ¬ (⟨292277026598, 8, 30, 15, 0, 16, 0, UTC, 0⟩ : Time).IsZero ∧
      Prev specResolver (prevFuel everyMorning) everyMorning
          ⟨292277026598, 8, 30, 15, 0, 16, 0, UTC, 0⟩
        = .ok (⟨2025, 12, 31, 9, 30, 0, 0, UTC, 0⟩,
            everyMorning.withDays (monthDays 2025 12)) ∧
      ¬ (⟨2025, 12, 31, 9, 30, 0, 0, UTC, 0⟩ : Time).IsZero ∧
      (⟨292277026598, 8, 30, 15, 0, 16, 0, UTC, 0⟩ : Time).Before
        ⟨2025, 12, 31, 9, 30, 0, 0, UTC, 0⟩) ∧
    (WellFormed oneMorning ∧ YearsInRange oneMorning ∧ farZone.tx = [] ∧
      Date 2024 3 10 12 0 0 0 farZone
        = ⟨2024, 3, 10, 12, 0, 0, 0, farZone, -9223371973009107008⟩ ∧
      (⟨2024, 3, 10, 12, 0, 0, 0, farZone, -9223371973009107008⟩ : Time).Valid ∧
      (⟨2024, 3, 10, 12, 0, 0, 0, farZone, -9223371973009107008⟩ : Time).InZone ∧
      ¬ (⟨2024, 3, 10, 12, 0, 0, 0, farZone, -9223371973009107008⟩ : Time).IsZero ∧
      Prev specResolver (prevFuel oneMorning) oneMorning
          ⟨2024, 3, 10, 12, 0, 0, 0, farZone, -9223371973009107008⟩
        = .ok (⟨2024, 3, 10, 9, 30, 0, 0, farZone, -9223371973009107008⟩,
            oneMorning.withDays [10]) ∧
      ¬ (⟨2024, 3, 10, 9, 30, 0, 0, farZone, -9223371973009107008⟩ : Time).IsZero ∧
      (⟨2024, 3, 10, 12, 0, 0, 0, farZone, -9223371973009107008⟩ : Time).Before
        ⟨2024, 3, 10, 9, 30, 0, 0, farZone, -9223371973009107008⟩) := by
  refine ⟨⟨nightly_wf, specResolver_ok _, ?_, by decide, by decide, by rfl, by decide,
      by decide⟩,
    ⟨hour47_ascending, specResolver_ok _, ?_, by decide, by rfl, by decide, by decide⟩,
    ⟨farPast_wf, specResolver_ok _, ?_, by decide, by rfl, by decide, by decide⟩,
    ⟨everyMorning_wf, years_everyMorning, by rfl, ?_, by decide, by rfl, by decide,
      by decide⟩,
    ⟨oneMorning_wf, years_oneMorning, rfl, by rfl, ?_, by decide, by decide, by rfl,
      by decide, by decide⟩⟩
  · refine ⟨?_, ?_, ?_, ?_, ?_, ?_, ?_, ?_, ?_, ?_, ?_, ?_⟩ <;> decide
  · refine ⟨?_, ?_, ?_, ?_, ?_, ?_, ?_, ?_, ?_, ?_, ?_, ?_⟩ <;> decide
  · refine ⟨?_, ?_, ?_, ?_, ?_, ?_, ?_, ?_, ?_, ?_, ?_, ?_⟩ <;> decide
  · refine ⟨?_, ?_, ?_, ?_, ?_, ?_, ?_, ?_, ?_, ?_, ?_, ?_⟩ <;> decide
  · refine ⟨?_, ?_, ?_, ?_, ?_, ?_, ?_, ?_, ?_, ?_, ?_, ?_⟩ <;> decide


/-- The only civil time that matches "2024-03-10 at 09:30:00". -/
theorem matches_oneMorning {m : Time} (hm : Matches specResolver oneMorning m) :
    m.year = 2024 ∧ m.month = 3 ∧ m.day = 10 ∧ m.hour = 9 ∧ m.minute = 30 ∧ m.second = 0 := by
  have h1 : m.year = 2024 := List.mem_singleton.mp hm.year
  have h2 : m.month = 3 := List.mem_singleton.mp hm.month
  have h3 : m.day ∈ specResolver oneMorning m.year m.month := hm.day
  rw [h1, h2] at h3
  have h4 : specResolver oneMorning 2024 3 = [10] := by rfl
  rw [h4] at h3
  exact ⟨h1, h2, List.mem_singleton.mp h3, List.mem_singleton.mp hm.hour,
    List.mem_singleton.mp hm.minute, List.mem_singleton.mp hm.second⟩

/-- The only civil time that matches "2024-03-31 at 02:30:00". -/
theorem matches_marchNight {m : Time} (hm : Matches specResolver marchNight m) :
    m.year = 2024 ∧ m.month = 3 ∧ m.day = 31 ∧ m.hour = 2 ∧ m.minute = 30 ∧ m.second = 0 := by
  have h1 : m.year = 2024 := List.mem_singleton.mp hm.year
  have h2 : m.month = 3 := List.mem_singleton.mp hm.month
  have h3 : m.day ∈ specResolver marchNight m.year m.month := hm.day
  rw [h1, h2] at h3
  have h4 : specResolver marchNight 2024 3 = [31] := by rfl
  rw [h4] at h3
  exact ⟨h1, h2, List.mem_singleton.mp h3, List.mem_singleton.mp hm.hour,
    List.mem_singleton.mp hm.minute, List.mem_singleton.mp hm.second⟩

/-- The two offsets of `Europe/Berlin`. -/
theorem berlin_offsets (sec : Int) :
    (berlin.lookup sec).1 = 3600 ∨ (berlin.lookup sec).1 = 7200 := by
  unfold Location.lookup berlin
  simp only [lookupFrom]
  split_ifs <;> simp

/-- No instant of `Europe/Berlin` is 02:30:00 on March 31, 2024: at either
offset of the location, the other one is in effect at that count of seconds. -/
theorem marchNight_skipped (m : Time) (hloc : m.loc = berlin) (hz : m.InZone) :
    ¬ Matches specResolver marchNight m := by
  intro hm
  obtain ⟨h1, h2, h3, h4, h5, h6⟩ := matches_marchNight hm
  unfold Time.InZone Time.Unix Time.absSec at hz
  rw [hloc, h1, h2, h3, h4, h5, h6] at hz
  rcases berlin_offsets (wrap64 (wrap64 (dayNumber 2024 3 31 * 86400 + 2 * 3600 + 30 * 60 + 0
    - m.zoneOffset) - unixToInternal)) with h | h
  · rw [h] at hz
    rw [hz] at h
    revert h
    decide
  · rw [h] at hz
    rw [hz] at h
    revert h
    decide

/-- The count of seconds of an instant at 09:30:00 on March 10, 2024. -/
theorem absSec_oneMorning {m : Time} (hm : Matches specResolver oneMorning m) :
    m.absSec = wrap64 (63845659800 - m.zoneOffset) := by
  obtain ⟨h1, h2, h3, h4, h5, h6⟩ := matches_oneMorning hm
  unfold Time.absSec
  rw [h1, h2, h3, h4, h5, h6]
  rfl

/-- C4, as amended. No-match on exhaustion, up to the whole second of
`fromTime`: on a well-formed expression (lists non-empty, strictly ascending,
values in their domains) whose years lie where the count of seconds does not
wrap, with a day resolver that returns ascending lists of valid days, for a
non-zero `fromTime` of a location without zone transitions, in a year and at
an offset at which the count of seconds does not wrap, `Prev` returns, and
its result is the zero instant if and only if no whole-second instant of that
location matching the schedule lies before the whole second of `fromTime`, or
the latest such instant is itself the zero instant. -/
theorem Prev_zero_iff (resolve : DayResolver) (e : Expression) (fromTime : Time) (fuel : Nat)
    (hwf : WellFormed e) (hok : ResolverOK resolve e) (hyr : YearsInRange e)
    (hp : fromTime.Plain) (hnz : ¬ fromTime.IsZero) (hfuel : prevFuel e ≤ fuel) :
    ∃ r e2, Prev resolve fuel e fromTime = .ok (r, e2) ∧
      (r.IsZero ↔
        ((∀ m : Time, m.loc = fromTime.loc → m.InZone → m.nsec = 0 → Matches resolve e m →
            ¬ m.absSec < fromTime.absSec) ∨
         (∃ m : Time, m.loc = fromTime.loc ∧ m.InZone ∧ m.nsec = 0 ∧ Matches resolve e m ∧
            m.absSec < fromTime.absSec ∧ m.IsZero ∧
            ∀ m2 : Time, m2.loc = fromTime.loc → m2.InZone → m2.nsec = 0 →
              Matches resolve e m2 → m2.absSec < fromTime.absSec → ¬ m.Before m2))) := by
  obtain ⟨r, l2, hrun, hlat⟩ :=
    Prev_spec hwf hok hyr fuel hfuel e.actualDaysOfMonthList fromTime hp.fixed hnz
  refine ⟨r, e.withDays l2, hrun, ?_⟩
  have hcivil : ∀ m : Time, m.loc = fromTime.loc → m.InZone → m.nsec = 0 →
      Matches resolve e m → (m.InRange ∧ m.zoneOffset = fromTime.zoneOffset ∧
        (m.absSec < fromTime.absSec ↔ ltSecond m fromTime)) := by
    intro m hmloc hmz hmns hm
    have hmoff := Plain.zone_eq hp hmloc hmz
    have rm := hm.inRange hwf hok hyr hmns hp.range hmoff
    exact ⟨rm, hmoff, fun h => ltSecond_of_absSec_lt rm hp.range hmoff h,
      fun h => absSec_lt_of_ltSecond rm hp.range hmoff h⟩
  rcases hlat with ⟨rfl, hno⟩ | ⟨hr, hrns, ⟨hrloc, hrzo⟩, hlt, _, hmax⟩
  · constructor
    · intro _
      left
      intro m hmloc hmz hmns hm hb
      exact hno m hm ((hcivil m hmloc hmz hmns hm).2.2.mp hb)
    · intro _
      exact Time.zero_isZero
  · obtain ⟨hrp, hroff⟩ := plain_of_match hwf hok hyr hp hr hrns hrloc hrzo
    have hrb : r.absSec < fromTime.absSec := absSec_lt_of_ltSecond hrp.range hp.range hroff hlt
    have hrmax : ∀ m2 : Time, m2.loc = fromTime.loc → m2.InZone → m2.nsec = 0 →
        Matches resolve e m2 → m2.absSec < fromTime.absSec → ¬ r.absSec < m2.absSec := by
      intro m hmloc hmz hmns hm hb hrm
      obtain ⟨rm, hmoff, hiff⟩ := hcivil m hmloc hmz hmns hm
      exact hmax m hm (hiff.mp hb)
        (ltSecond_of_absSec_lt hrp.range rm (hroff.trans hmoff.symm) hrm)
    constructor
    · intro hz
      right
      refine ⟨r, hrloc, hrp.zone, hrns, hr, hrb, hz, ?_⟩
      intro m hmloc hmz hmns hm hb hrm
      have := hrmax m hmloc hmz hmns hm hb
      unfold Time.Before at hrm
      omega
    · rintro (hno | ⟨m, hmloc, hmz, hmns, hm, hmb, hmzero, hmmax⟩)
      · exact (hno r hrloc hrp.zone hrns hr hrb).elim
      · have h1 := hrmax m hmloc hmz hmns hm hmb
        have h2 := hmmax r hrloc hrp.zone hrns hr hrb
        unfold Time.Before at h2
        unfold Time.IsZero at hmzero ⊢
        omega

/-- The hypotheses of `Prev_zero_iff` hold for the schedule "2024-03-10 at
09:30:00" and the instant 2024-03-10 09:30:00 UTC. -/
theorem Prev_zero_iff_witness :
    WellFormed oneMorning ∧ ResolverOK specResolver oneMorning ∧ YearsInRange oneMorning ∧
    (⟨2024, 3, 10, 9, 30, 0, 0, UTC, 0⟩ : Time).Plain ∧
    ¬ (⟨2024, 3, 10, 9, 30, 0, 0, UTC, 0⟩ : Time).IsZero ∧
    ∃ r e2, Prev specResolver (prevFuel oneMorning) oneMorning
        ⟨2024, 3, 10, 9, 30, 0, 0, UTC, 0⟩ = .ok (r, e2) ∧
      (r.IsZero ↔
        ((∀ m : Time, m.loc = UTC → m.InZone → m.nsec = 0 → Matches specResolver oneMorning m →
            ¬ m.absSec < (⟨2024, 3, 10, 9, 30, 0, 0, UTC, 0⟩ : Time).absSec) ∨
         (∃ m : Time, m.loc = UTC ∧ m.InZone ∧ m.nsec = 0 ∧ Matches specResolver oneMorning m ∧
            m.absSec < (⟨2024, 3, 10, 9, 30, 0, 0, UTC, 0⟩ : Time).absSec ∧ m.IsZero ∧
            ∀ m2 : Time, m2.loc = UTC → m2.InZone → m2.nsec = 0 →
              Matches specResolver oneMorning m2 →
              m2.absSec < (⟨2024, 3, 10, 9, 30, 0, 0, UTC, 0⟩ : Time).absSec →
              ¬ m.Before m2))) :=
  have hp : (⟨2024, 3, 10, 9, 30, 0, 0, UTC, 0⟩ : Time).Plain :=
    plain_utc _ _ _ _ _ _ _ (valid_of_fields _ _ _ _ _ _ _ _ _ (by decide) (by decide)
      (by decide) (by decide) (by decide) (by decide)) (by decide) (by decide)
  ⟨oneMorning_wf, specResolver_ok _, years_oneMorning, hp, by decide,
    Prev_zero_iff specResolver oneMorning ⟨2024, 3, 10, 9, 30, 0, 0, UTC, 0⟩ _ oneMorning_wf
      (specResolver_ok _) years_oneMorning hp (by decide) (le_refl _)⟩

/-- C4, as stated, fails in seven ways.  `Prev` returns the zero instant
although a match lies strictly before `fromTime`: on "2024-03-10 at 09:30:00"
from 2024-03-10 09:30:00.5 UTC (the match is the whole second of `fromTime`),
and on "midnight of January 1 of the year 1" from 0001-01-02 00:00:00 UTC (the
match is the zero instant itself).  `Prev` returns an instant other than the
zero instant although no instant matches before `fromTime`: on "2024-03-31 at
02:30:00" in `Europe/Berlin` (the result is 03:30:00; no instant of the
location is 02:30:00 that day), with an hour outside 0..23 (no valid instant
has the hour 47), with a listed year where the count of seconds wraps (no
instant has the year -300000000000), from an instant whose own count wraps
and in a fixed zone whose offset makes the count wrap (every match is later
than `fromTime`). -/
theorem Prev_zero_iff_counterexample :
    (WellFormed oneMorning ∧ ResolverOK specResolver oneMorning ∧
      (⟨2024, 3, 10, 9, 30, 0, 500000000, UTC, 0⟩ : Time).Valid ∧
      (⟨2024, 3, 10, 9, 30, 0, 500000000, UTC, 0⟩ : Time).InZone ∧
      ¬ (⟨2024, 3, 10, 9, 30, 0, 500000000, UTC, 0⟩ : Time).IsZero ∧
      Prev specResolver (prevFuel oneMorning) oneMorning
          ⟨2024, 3, 10, 9, 30, 0, 500000000, UTC, 0⟩
        = .ok (Time.zero, oneMorning.withDays [10]) ∧
      Time.zero.IsZero ∧
      Matches specResolver oneMorning ⟨2024, 3, 10, 9, 30, 0, 0, UTC, 0⟩ ∧
      (⟨2024, 3, 10, 9, 30, 0, 0, UTC, 0⟩ : Time).InZone ∧
      (⟨2024, 3, 10, 9, 30, 0, 0, UTC, 0⟩ : Time).Before
        ⟨2024, 3, 10, 9, 30, 0, 500000000, UTC, 0⟩) ∧
    (WellFormed yearOne ∧ ResolverOK specResolver yearOne ∧ YearsInRange yearOne ∧
      (⟨1, 1, 2, 0, 0, 0, 0, UTC, 0⟩ : Time).Plain ∧
      ¬ (⟨1, 1, 2, 0, 0, 0, 0, UTC, 0⟩ : Time).IsZero ∧
      Prev specResolver (prevFuel yearOne) yearOne ⟨1, 1, 2, 0, 0, 0, 0, UTC, 0⟩
        = .ok (⟨1, 1, 1, 0, 0, 0, 0, UTC, 0⟩, yearOne.withDays [1]) ∧
      (⟨1, 1, 1, 0, 0, 0, 0, UTC, 0⟩ : Time).IsZero ∧
      Matches specResolver yearOne ⟨1, 1, 1, 0, 0, 0, 0, UTC, 0⟩ ∧
      (⟨1, 1, 1, 0, 0, 0, 0, UTC, 0⟩ : Time).InZone ∧
      (⟨1, 1, 1, 0, 0, 0, 0, UTC, 0⟩ : Time).Before ⟨1, 1, 2, 0, 0, 0, 0, UTC, 0⟩) ∧
    (WellFormed marchNight ∧ ResolverOK specResolver marchNight ∧
      (⟨2024, 4, 1, 0, 0, 0, 0, berlin, 7200⟩ : Time).Valid ∧
      (⟨2024, 4, 1, 0, 0, 0, 0, berlin, 7200⟩ : Time).InZone ∧
      ¬ (⟨2024, 4, 1, 0, 0, 0, 0, berlin, 7200⟩ : Time).IsZero ∧
      Prev specResolver (prevFuel marchNight) marchNight ⟨2024, 4, 1, 0, 0, 0, 0, berlin, 7200⟩
        = .ok (⟨2024, 3, 31, 3, 30, 0, 0, berlin, 7200⟩, marchNight.withDays [31]) ∧
      ¬ (⟨2024, 3, 31, 3, 30, 0, 0, berlin, 7200⟩ : Time).IsZero ∧
      ∀ m : Time, m.loc = berlin → m.InZone → ¬ Matches specResolver marchNight m) ∧
    (Ascending hour47 ∧ ResolverOK specResolver hour47 ∧
      (⟨2024, 3, 11, 12, 0, 0, 0, UTC, 0⟩ : Time).Valid ∧
      ¬ (⟨2024, 3, 11, 12, 0, 0, 0, UTC, 0⟩ : Time).IsZero ∧
      Prev specResolver (prevFuel hour47) hour47 ⟨2024, 3, 11, 12, 0, 0, 0, UTC, 0⟩
        = .ok (⟨2024, 3, 11, 23, 0, 0, 0, UTC, 0⟩, hour47.withDays [10]) ∧
      ¬ (⟨2024, 3, 11, 23, 0, 0, 0, UTC, 0⟩ : Time).IsZero ∧
      ∀ m : Time, m.Valid → ¬ Matches specResolver hour47 m) ∧
    (WellFormed farPast ∧ ResolverOK specResolver farPast ∧
      (⟨2024, 1, 1, 0, 0, 0, 0, UTC, 0⟩ : Time).Valid ∧
      ¬ (⟨2024, 1, 1, 0, 0, 0, 0, UTC, 0⟩ : Time).IsZero ∧
      Prev specResolver (prevFuel farPast) farPast ⟨2024, 1, 1, 0, 0, 0, 0, UTC, 0⟩
        = .ok (⟨284554049253, 12, 8, 7, 0, 16, 0, UTC, 0⟩,
            farPast.withDays (monthDays (-300000000000) 1)) ∧
      ¬ (⟨284554049253, 12, 8, 7, 0, 16, 0, UTC, 0⟩ : Time).IsZero ∧
      ∀ m : Time, absoluteZeroYear ≤ m.year → ¬ Matches specResolver farPast m) ∧
    (WellFormed oneMorning ∧ YearsInRange oneMorning ∧
      unixTime (-9223372036800000000) 0 UTC = ⟨292277026598, 8, 30, 15, 0, 16, 0, UTC, 0⟩ ∧
      (⟨292277026598, 8, 30, 15, 0, 16, 0, UTC, 0⟩ : Time).Valid ∧
      ¬ (⟨292277026598, 8, 30, 15, 0, 16, 0, UTC, 0⟩ : Time).IsZero ∧
      Prev specResolver (prevFuel oneMorning) oneMorning
          ⟨292277026598, 8, 30, 15, 0, 16, 0, UTC, 0⟩
        = .ok (⟨2024, 3, 10, 9, 30, 0, 0, UTC, 0⟩, oneMorning.withDays [10]) ∧
      ¬ (⟨2024, 3, 10, 9, 30, 0, 0, UTC, 0⟩ : Time).IsZero ∧
      ∀ m : Time, m.loc = UTC → m.InZone → Matches specResolver oneMorning m →
        ¬ m.absSec < (⟨292277026598, 8, 30, 15, 0, 16, 0, UTC, 0⟩ : Time).absSec) ∧
    (WellFormed oneMorning ∧ YearsInRange oneMorning ∧ farZone.tx = [] ∧
      Date 2024 3 10 12 0 0 0 farZone
        = ⟨2024, 3, 10, 12, 0, 0, 0, farZone, -9223371973009107008⟩ ∧
      (⟨2024, 3, 10, 12, 0, 0, 0, farZone, -9223371973009107008⟩ : Time).Valid ∧
      (⟨2024, 3, 10, 12, 0, 0, 0, farZone, -9223371973009107008⟩ : Time).InZone ∧
      ¬ (⟨2024, 3, 10, 12, 0, 0, 0, farZone, -9223371973009107008⟩ : Time).IsZero ∧
      Prev specResolver (prevFuel oneMorning) oneMorning
          ⟨2024, 3, 10, 12, 0, 0, 0, farZone, -9223371973009107008⟩
        = .ok (⟨2024, 3, 10, 9, 30, 0, 0, farZone, -9223371973009107008⟩,
            oneMorning.withDays [10]) ∧
      ¬ (⟨2024, 3, 10, 9, 30, 0, 0, farZone, -9223371973009107008⟩ : Time).IsZero ∧
      ∀ m : Time, m.loc = farZone → m.InZone → Matches specResolver oneMorning m →
        ¬ m.absSec
          < (⟨2024, 3, 10, 12, 0, 0, 0, farZone, -9223371973009107008⟩ : Time).absSec) := by
  refine ⟨⟨oneMorning_wf, specResolver_ok _, ?_, by decide, by decide, by rfl, by decide, ?_,
      by decide, by decide⟩,
    ⟨yearOne_wf, specResolver_ok _, years_yearOne, ?_, by decide, by rfl, by decide, ?_,
      by decide, by decide⟩,
    ⟨marchNight_wf, specResolver_ok _, ?_, by decide, by decide, by rfl, by decide,
      marchNight_skipped⟩,
    ⟨hour47_ascending, specResolver_ok _, ?_, by decide, by rfl, by decide, ?_⟩,
    ⟨farPast_wf, specResolver_ok _, ?_, by decide, by rfl, by decide, ?_⟩,
    ⟨oneMorning_wf, years_oneMorning, by rfl, ?_, by decide, by rfl, by decide, ?_⟩,
    ⟨oneMorning_wf, years_oneMorning, rfl, by rfl, ?_, by decide, by decide, by rfl,
      by decide, ?_⟩⟩
  · refine ⟨?_, ?_, ?_, ?_, ?_, ?_, ?_, ?_, ?_, ?_, ?_, ?_⟩ <;> decide
  · refine ⟨?_, ?_, ?_, ?_, ?_, ?_⟩ <;> decide
  · exact plain_utc _ _ _ _ _ _ _ (valid_of_fields _ _ _ _ _ _ _ _ _ (by decide) (by decide)
      (by decide) (by decide) (by decide) (by decide)) (by decide) (by decide)
  · refine ⟨?_, ?_, ?_, ?_, ?_, ?_⟩ <;> decide
  · refine ⟨?_, ?_, ?_, ?_, ?_, ?_, ?_, ?_, ?_, ?_, ?_, ?_⟩ <;> decide
  · refine ⟨?_, ?_, ?_, ?_, ?_, ?_, ?_, ?_, ?_, ?_, ?_, ?_⟩ <;> decide
  · intro m hv hm
    have h1 : m.hour = 47 := List.mem_singleton.mp hm.hour
    have h2 := hv.hour_hi
    omega
  · refine ⟨?_, ?_, ?_, ?_, ?_, ?_, ?_, ?_, ?_, ?_, ?_, ?_⟩ <;> decide
  · intro m hy hm
    have h1 : m.year = -300000000000 := List.mem_singleton.mp hm.year
    unfold absoluteZeroYear at hy
    omega
  · refine ⟨?_, ?_, ?_, ?_, ?_, ?_, ?_, ?_, ?_, ?_, ?_, ?_⟩ <;> decide
  · intro m hloc hz hm
    have h0 : m.zoneOffset = 0 := by
      have := (InZone_fixed (t := m) (by rw [hloc]; rfl)).mp hz
      rw [this, hloc]; rfl
    rw [absSec_oneMorning hm, h0]
    decide
  · refine ⟨?_, ?_, ?_, ?_, ?_, ?_, ?_, ?_, ?_, ?_, ?_, ?_⟩ <;> decide
  · intro m hloc hz hm
    have h0 : m.zoneOffset = -9223371973009107008 := by
      have := (InZone_fixed (t := m) (by rw [hloc]; rfl)).mp hz
      rw [this, hloc]; rfl
    rw [absSec_oneMorning hm, h0]
    decide


theorem lastOf_inv {a : List Int} {v : Int} (hne : a ≠ []) (h : a.Pairwise (· ≤ ·))
    (hl : lastOf a = .ok v) : v ∈ a ∧ ∀ x ∈ a, x ≤ v := by
  obtain ⟨w, hw, h1, h2⟩ := lastOf_spec a hne h
  rw [hl] at hw
  injection hw with hw
  subst hw
  exact ⟨h1, h2⟩

/-- C5, as amended. Past-only year bound: when every listed year is smaller
than the year of the non-zero `fromTime`, `Next` returns the zero instant; and
on a well-formed expression (lists non-empty, strictly ascending, values in
their domains) whose years lie where the count of seconds does not wrap, with
a day resolver that returns ascending lists of valid days, for a `fromTime` of
a location without zone transitions, `Prev` returns the zero instant when no
listed (year, month) pair has a resolved day, and otherwise returns the
instant of the largest listed (year, month) pair `(Y, M)` that has a
non-empty resolved day list, on the last resolved day of that month, at the
largest listed hour, minute and second, in the location of `fromTime`. -/
theorem past_years_only (resolve : DayResolver) (helpers : NextHelpers) (e : Expression)
    (fromTime : Time) (fuel : Nat) (hnz : ¬ fromTime.IsZero)
    (hpast : ∀ y ∈ e.yearList, y < fromTime.year) :
    Next resolve helpers e fromTime = .ok (Time.zero, e) ∧
    (WellFormed e → ResolverOK resolve e → YearsInRange e → fromTime.loc.tx = [] →
      prevFuel e ≤ fuel →
      ((∀ y ∈ e.yearList, ∀ m ∈ e.monthList, resolve e y m = []) →
        ∃ e2, Prev resolve fuel e fromTime = .ok (Time.zero, e2)) ∧
      (∀ Y M D H Mi S : Int, Y ∈ e.yearList → M ∈ e.monthList → resolve e Y M ≠ [] →
        (∀ y ∈ e.yearList, ∀ m ∈ e.monthList, resolve e y m ≠ [] →
          y < Y ∨ (y = Y ∧ m ≤ M)) →
        lastOf (resolve e Y M) = .ok D → lastOf e.hourList = .ok H →
        lastOf e.minuteList = .ok Mi → lastOf e.secondList = .ok S →
        Prev resolve fuel e fromTime
          = .ok (⟨Y, M, D, H, Mi, S, 0, fromTime.loc, fromTime.loc.offset⟩,
              e.withDays (resolve e Y M)))) := by
  constructor
  · unfold Next
    simp only [hnz, if_false, SearchInts_all_lt _ _ hpast, if_true, bind, Except.bind, pure,
      Except.pure]
  · intro hwf hok hyr hfix hfuel
    obtain ⟨r, l2, hrun, hlat⟩ :=
      Prev_spec hwf hok hyr fuel hfuel e.actualDaysOfMonthList fromTime hfix hnz
    constructor
    · intro hnone
      rcases hlat with ⟨rfl, _⟩ | ⟨hr, _⟩
      · exact ⟨_, hrun⟩
      · have hd := hr.day
        rw [hnone _ hr.year _ hr.month] at hd
        cases hd
    · intro Y M D H Mi S hY hM hMne hmax2 hD hH hMi hS
      obtain ⟨hDm, hDx⟩ := lastOf_inv hMne (hok.asc Y M) hD
      obtain ⟨hHm, hHx⟩ := lastOf_inv hwf.hour_ne (asc_of_strict hwf.hour_asc) hH
      obtain ⟨hMim, hMix⟩ := lastOf_inv hwf.minute_ne (asc_of_strict hwf.minute_asc) hMi
      obtain ⟨hSm, hSx⟩ := lastOf_inv hwf.second_ne (asc_of_strict hwf.second_asc) hS
      have hc : Matches resolve e
          ⟨Y, M, D, H, Mi, S, 0, fromTime.loc, fromTime.loc.offset⟩ :=
        ⟨hY, hM, hDm, hHm, hMim, hSm⟩
      have hcl : ltSecond ⟨Y, M, D, H, Mi, S, 0, fromTime.loc, fromTime.loc.offset⟩ fromTime :=
        Or.inl (hpast Y hY)
      rcases hlat with ⟨_, hno⟩ | ⟨hr, hrns, ⟨hrloc, hrzo⟩, _, hl2, hmax⟩
      · exact (hno _ hc hcl).elim
      · have h1 := hmax _ hc hcl
        have hrne : resolve e r.year r.month ≠ [] := by
          intro h
          have hd := hr.day
          rw [h] at hd
          cases hd
        have a1 := hmax2 _ hr.year _ hr.month hrne
        have a4 := hHx _ hr.hour
        have a5 := hMix _ hr.minute
        have a6 := hSx _ hr.second
        have a3 : r.year = Y → r.month = M → r.day ≤ D := by
          intro e1 e2
          have hd := hr.day
          rw [e1, e2] at hd
          exact hDx _ hd
        unfold ltSecond at h1
        simp only at h1
        have e1 : r.year = Y := by omega
        have e2 : r.month = M := by omega
        have e3 : r.day = D := by have := a3 e1 e2; omega
        have e4 : r.hour = H := by omega
        have e5 : r.minute = Mi := by omega
        have e6 : r.second = S := by omega
        have hreq : r = ⟨Y, M, D, H, Mi, S, 0, fromTime.loc, fromTime.loc.offset⟩ := by
          cases r
          simp only at e1 e2 e3 e4 e5 e6 hrns hrloc hrzo
          subst e1 e2 e3 e4 e5 e6 hrns hrloc hrzo
          rfl
        have hl : l2 = resolve e Y M := by rw [hl2, e1, e2]
        rw [← hreq, ← hl]
        exact hrun

/-- The hypotheses of `past_years_only` hold for the schedule "midnight of
February 29 in 2020 and 2023" and the instant 2024-01-01 00:00:00 UTC: `Next`
finds nothing, and `Prev` returns 2020-02-29 00:00:00, the instant of the
largest listed (year, month) pair that has a resolved day. -/
theorem past_years_only_witness :
    ¬ (⟨2024, 1, 1, 0, 0, 0, 0, UTC, 0⟩ : Time).IsZero ∧
    (∀ y ∈ leapDay.yearList, y < 2024) ∧
    WellFormed leapDay ∧ ResolverOK specResolver leapDay ∧ YearsInRange leapDay ∧
    UTC.tx = [] ∧
    Next specResolver idleHelpers leapDay ⟨2024, 1, 1, 0, 0, 0, 0, UTC, 0⟩
      = .ok (Time.zero, leapDay) ∧
    Prev specResolver (prevFuel leapDay) leapDay ⟨2024, 1, 1, 0, 0, 0, 0, UTC, 0⟩
      = .ok (⟨2020, 2, 29, 0, 0, 0, 0, UTC, 0⟩,
          leapDay.withDays (specResolver leapDay 2020 2)) :=
  ⟨by decide, by decide, leapDay_wf, specResolver_ok _, years_leapDay, rfl,
    (past_years_only specResolver idleHelpers leapDay ⟨2024, 1, 1, 0, 0, 0, 0, UTC, 0⟩
      (prevFuel leapDay) (by decide) (by decide)).1,
    ((past_years_only specResolver idleHelpers leapDay ⟨2024, 1, 1, 0, 0, 0, 0, UTC, 0⟩
      (prevFuel leapDay) (by decide) (by decide)).2 leapDay_wf (specResolver_ok _)
      years_leapDay rfl (le_refl _)).2 2020 2 29 0 0 0 (by decide) (by decide) (by decide)
      (by decide) rfl rfl rfl rfl⟩

set_option maxRecDepth 8192 in
/-- The run of `Prev` on "midnight of February 29 in 2020 and 2023" from
2024-01-01 00:00:00 UTC. -/
theorem leapDay_run :
    Prev specResolver (prevFuel leapDay) leapDay ⟨2024, 1, 1, 0, 0, 0, 0, UTC, 0⟩
      = .ok (⟨2020, 2, 29, 0, 0, 0, 0, UTC, 0⟩, leapDay.withDays [29]) := by
  rfl

/-- C5, as stated, fails in four ways; in each, every listed year is before
the year of `fromTime`.  On "midnight of February 29 in 2020 and 2023", `Prev`
from 2024-01-01 00:00:00 UTC returns 2020-02-29 00:00:00, which is not in the
largest listed year 2023: no listed month of 2023 has a resolved day.  Across
a zone transition: on "2024-03-31 at 02:30:00" in `Europe/Berlin`, `Prev` from
2025-01-01 returns 2024-03-31 03:30:00, not at the largest listed hour 2.  With
an hour outside 0..23 (hour 47 on March 10, 2024), `Prev` from 2025-01-01
returns 2024-03-11 23:00:00: neither the last resolved day nor the largest
listed hour.  With a listed year where the count of seconds wraps
(-300000000000), `Prev` returns an instant of the year 284554049253. -/
theorem past_years_only_counterexample :
    (WellFormed leapDay ∧ ResolverOK specResolver leapDay ∧
      ¬ (⟨2024, 1, 1, 0, 0, 0, 0, UTC, 0⟩ : Time).IsZero ∧
      (∀ y ∈ leapDay.yearList, y < (⟨2024, 1, 1, 0, 0, 0, 0, UTC, 0⟩ : Time).year) ∧
      lastOf leapDay.yearList = .ok 2023 ∧
      Prev specResolver (prevFuel leapDay) leapDay ⟨2024, 1, 1, 0, 0, 0, 0, UTC, 0⟩
        = .ok (⟨2020, 2, 29, 0, 0, 0, 0, UTC, 0⟩, leapDay.withDays [29]) ∧
      (⟨2020, 2, 29, 0, 0, 0, 0, UTC, 0⟩ : Time).year ≠ 2023) ∧
    (WellFormed marchNight ∧ ResolverOK specResolver marchNight ∧
      (⟨2025, 1, 1, 0, 0, 0, 0, berlin, 3600⟩ : Time).InZone ∧
      ¬ (⟨2025, 1, 1, 0, 0, 0, 0, berlin, 3600⟩ : Time).IsZero ∧
      (∀ y ∈ marchNight.yearList, y < (⟨2025, 1, 1, 0, 0, 0, 0, berlin, 3600⟩ : Time).year) ∧
      lastOf marchNight.hourList = .ok 2 ∧
      Prev specResolver (prevFuel marchNight) marchNight ⟨2025, 1, 1, 0, 0, 0, 0, berlin, 3600⟩
        = .ok (⟨2024, 3, 31, 3, 30, 0, 0, berlin, 7200⟩, marchNight.withDays [31]) ∧
      (⟨2024, 3, 31, 3, 30, 0, 0, berlin, 7200⟩ : Time).hour ≠ 2) ∧
    (Ascending hour47 ∧ ResolverOK specResolver hour47 ∧
      ¬ (⟨2025, 1, 1, 0, 0, 0, 0, UTC, 0⟩ : Time).IsZero ∧
      (∀ y ∈ hour47.yearList, y < (⟨2025, 1, 1, 0, 0, 0, 0, UTC, 0⟩ : Time).year) ∧
      lastOf (specResolver hour47 2024 3) = .ok 10 ∧ lastOf hour47.hourList = .ok 47 ∧
      Prev specResolver (prevFuel hour47) hour47 ⟨2025, 1, 1, 0, 0, 0, 0, UTC, 0⟩
        = .ok (⟨2024, 3, 11, 23, 0, 0, 0, UTC, 0⟩, hour47.withDays [10]) ∧
      (⟨2024, 3, 11, 23, 0, 0, 0, UTC, 0⟩ : Time).day ≠ 10 ∧
      (⟨2024, 3, 11, 23, 0, 0, 0, UTC, 0⟩ : Time).hour ≠ 47) ∧
    (WellFormed farPast ∧ ResolverOK specResolver farPast ∧
      ¬ (⟨2024, 1, 1, 0, 0, 0, 0, UTC, 0⟩ : Time).IsZero ∧
      (∀ y ∈ farPast.yearList, y < (⟨2024, 1, 1, 0, 0, 0, 0, UTC, 0⟩ : Time).year) ∧
      lastOf farPast.yearList = .ok (-300000000000) ∧
      Prev specResolver (prevFuel farPast) farPast ⟨2024, 1, 1, 0, 0, 0, 0, UTC, 0⟩
        = .ok (⟨284554049253, 12, 8, 7, 0, 16, 0, UTC, 0⟩,
            farPast.withDays (monthDays (-300000000000) 1)) ∧
      (⟨284554049253, 12, 8, 7, 0, 16, 0, UTC, 0⟩ : Time).year ≠ -300000000000) := by
  refine ⟨⟨leapDay_wf, specResolver_ok _, by decide, by decide, by rfl, leapDay_run,
      by decide⟩,
    ⟨marchNight_wf, specResolver_ok _, by decide, by decide, by decide, by rfl, by rfl,
      by decide⟩,
    ⟨hour47_ascending, specResolver_ok _, by decide, by decide, by rfl, by rfl, by rfl,
      by decide, by decide⟩,
    ⟨farPast_wf, specResolver_ok _, by decide, by decide, by rfl, by rfl,
      by show (284554049253 : Int) ≠ -300000000000; omega⟩⟩

/-! ## `Parse` -/

theorem fieldTexts_length (env : ParseEnv) (c : String) :
    (fieldTexts env c).length = (env.fieldFinder (env.cronNormalizer c)).length := by
  unfold fieldTexts
  exact List.length_map _ _

theorem fieldAt_eq (env : ParseEnv) (c : String) (k : Nat)
    (hk : k < (env.fieldFinder (env.cronNormalizer c)).length) :
    fieldAt (env.cronNormalizer c) (env.fieldFinder (env.cronNormalizer c)) k
      = (fieldTexts env c).getD k "" := by
  have h2 : k < (fieldTexts env c).length := by rw [fieldTexts_length]; exact hk
  rw [List.getD_eq_getElem _ _ h2]
  unfold fieldAt
  rw [List.getD_eq_getElem _ _ hk]
  simp only [fieldTexts, List.getElem_map]

theorem Parse_eq (env : ParseEnv) (c : String) :
    Parse env c = parseFields env (fieldTexts env c) := by
  have hlen := fieldTexts_length env c
  unfold parseFields
  by_cases h5 : (fieldTexts env c).length < 5
  · rw [if_pos h5]
    unfold Parse
    simp only [← hlen, h5, if_true]
  rw [if_neg h5]
  have hn5 : ¬ (env.fieldFinder (env.cronNormalizer c)).length < 5 := by omega
  have f0 := fieldAt_eq env c 0 (by omega)
  have f1 := fieldAt_eq env c 1 (by omega)
  have f2 := fieldAt_eq env c 2 (by omega)
  have f3 := fieldAt_eq env c 3 (by omega)
  have f4 := fieldAt_eq env c 4 (by omega)
  by_cases h7 : 7 ≤ (fieldTexts env c).length
  · have hc : (if (env.fieldFinder (env.cronNormalizer c)).length > 7 then 7
        else (env.fieldFinder (env.cronNormalizer c)).length) = 7 := by
      split <;> omega
    have f5 := fieldAt_eq env c 5 (by omega)
    have f6 := fieldAt_eq env c 6 (by omega)
    have h55 : ¬ (fieldTexts env c).length = 5 := by omega
    unfold Parse
    simp only [hn5, if_false, hc, if_true, f0, handlerPlan, h7, initialExpression, runHandlers,
      finish, h55]
    cases env.secondFieldHandler Expression.empty ((fieldTexts env c).getD 0 "") with
    | error err => rfl
    | ok e1 =>
      simp only [Except.map, zero_add, f1]
      cases env.minuteFieldHandler e1 ((fieldTexts env c).getD 1 "") with
      | error err => rfl
      | ok e2 =>
        simp only [Nat.reduceAdd, f2]
        cases env.hourFieldHandler e2 ((fieldTexts env c).getD 2 "") with
        | error err => rfl
        | ok e3 =>
          simp only [Nat.reduceAdd, f3]
          cases env.domFieldHandler e3 ((fieldTexts env c).getD 3 "") with
          | error err => rfl
          | ok e4 =>
            simp only [Nat.reduceAdd, f4]
            cases env.monthFieldHandler e4 ((fieldTexts env c).getD 4 "") with
            | error err => rfl
            | ok e5 =>
              simp only [Nat.reduceAdd, f5]
              cases env.dowFieldHandler e5 ((fieldTexts env c).getD 5 "") with
              | error err => rfl
              | ok e6 =>
                simp only [Nat.reduceAdd, Nat.reduceLT, if_true, f6]
                cases env.yearFieldHandler e6 ((fieldTexts env c).getD 6 "") with
                | error err => rfl
                | ok e7 => rfl
  · have hn7 : ¬ ((env.fieldFinder (env.cronNormalizer c)).length > 7) := by omega
    have hne7 : ¬ ((env.fieldFinder (env.cronNormalizer c)).length = 7) := by omega
    unfold Parse
    simp only [hn5, if_false, hn7, hne7, f0, handlerPlan, h7, initialExpression, runHandlers,
      finish]
    by_cases h6 : (fieldTexts env c).length = 6
    · have f5 := fieldAt_eq env c 5 (by omega)
      have h55 : ¬ (fieldTexts env c).length = 5 := by omega
      have h6b : (env.fieldFinder (env.cronNormalizer c)).length = 6 := by omega
      simp only [h6, h55, if_true, if_false, h6b, runHandlers]
      cases env.minuteFieldHandler _ ((fieldTexts env c).getD 0 "") with
      | error err => rfl
      | ok e2 =>
        simp only [Nat.reduceAdd, zero_add, f1]
        cases env.hourFieldHandler e2 ((fieldTexts env c).getD 1 "") with
        | error err => rfl
        | ok e3 =>
          simp only [Nat.reduceAdd, f2]
          cases env.domFieldHandler e3 ((fieldTexts env c).getD 2 "") with
          | error err => rfl
          | ok e4 =>
            simp only [Nat.reduceAdd, f3]
            cases env.monthFieldHandler e4 ((fieldTexts env c).getD 3 "") with
            | error err => rfl
            | ok e5 =>
              simp only [Nat.reduceAdd, f4]
              cases env.dowFieldHandler e5 ((fieldTexts env c).getD 4 "") with
              | error err => rfl
              | ok e6 =>
                simp only [Nat.reduceAdd, Nat.reduceLT, if_true, f5]
                cases env.yearFieldHandler e6 ((fieldTexts env c).getD 5 "") with
                | error err => rfl
                | ok e7 => rfl
    · have h55 : (fieldTexts env c).length = 5 := by omega
      have h5b : (env.fieldFinder (env.cronNormalizer c)).length = 5 := by omega
      simp only [h6, h55, if_true, if_false, h5b, runHandlers]
      cases env.minuteFieldHandler _ ((fieldTexts env c).getD 0 "") with
      | error err => rfl
      | ok e2 =>
        simp only [Nat.reduceAdd, zero_add, f1]
        cases env.hourFieldHandler e2 ((fieldTexts env c).getD 1 "") with
        | error err => rfl
        | ok e3 =>
          simp only [Nat.reduceAdd, f2]
          cases env.domFieldHandler e3 ((fieldTexts env c).getD 2 "") with
          | error err => rfl
          | ok e4 =>
            simp only [Nat.reduceAdd, f3]
            cases env.monthFieldHandler e4 ((fieldTexts env c).getD 3 "") with
            | error err => rfl
            | ok e5 =>
              simp only [Nat.reduceAdd, f4]
              cases env.dowFieldHandler e5 ((fieldTexts env c).getD 4 "") with
              | error err => rfl
              | ok e6 =>
                simp only [Nat.reduceAdd, Nat.lt_irrefl, if_false]


theorem runHandlers_error_iff (p : List (Expression → Except Error Expression))
    (e0 : Expression) (err : Error) :
    runHandlers p e0 = .error err ↔
      ∃ k e, k < p.length ∧ runHandlers (p.take k) e0 = .ok e ∧
        p.getD k (fun x => .ok x) e = .error err := by
  induction p generalizing e0 with
  | nil =>
    simp only [runHandlers, List.length_nil, Nat.not_lt_zero, false_and, exists_false,
      exists_const, iff_false]
    intro h
    cases h
  | cons h hs ih =>
    constructor
    · intro hrun
      rw [runHandlers] at hrun
      cases hh : h e0 with
      | error err2 =>
        rw [hh] at hrun
        simp only at hrun
        refine ⟨0, e0, by simp, rfl, ?_⟩
        simp only [List.getD_cons_zero]
        rw [hh, ← hrun]
      | ok e1 =>
        rw [hh] at hrun
        simp only at hrun
        obtain ⟨k, e, hk, hpre, hfail⟩ := (ih e1).mp hrun
        refine ⟨k + 1, e, by simp; omega, ?_, ?_⟩
        · rw [List.take_succ_cons, runHandlers, hh]
          exact hpre
        · simpa using hfail
    · rintro ⟨k, e, hk, hpre, hfail⟩
      cases k with
      | zero =>
        simp only [List.take_zero, runHandlers] at hpre
        injection hpre with hpre
        subst hpre
        simp only [List.getD_cons_zero] at hfail
        rw [runHandlers, hfail]
      | succ k =>
        rw [List.take_succ_cons, runHandlers] at hpre
        rw [runHandlers]
        cases hh : h e0 with
        | error err2 =>
          rw [hh] at hpre
          cases hpre
        | ok e1 =>
          rw [hh] at hpre
          simp only at hpre ⊢
          refine (ih e1).mpr ⟨k, e, by simp at hk; omega, hpre, ?_⟩
          simpa using hfail

/-- C6. Field-count error: a descriptor that holds fewer than 5 fields after
alias substitution, the empty descriptor and a 3-field descriptor among them,
is answered with the error "missing field(s)" and no Expression, whatever the
field handlers are: none of them is consulted. -/
theorem Parse_missing_fields (env : ParseEnv) (cronLine : String)
    (h : (fieldTexts env cronLine).length < 5) :
    Parse env cronLine = (none, some "missing field(s)") ∧
    ∀ env2 : ParseEnv, env2.cronNormalizer = env.cronNormalizer →
      env2.fieldFinder = env.fieldFinder →
      Parse env2 cronLine = (none, some "missing field(s)") := by
  have key : ∀ env2 : ParseEnv, (fieldTexts env2 cronLine).length < 5 →
      Parse env2 cronLine = (none, some "missing field(s)") := by
    intro env2 h2
    rw [Parse_eq, parseFields, if_pos h2]
  refine ⟨key env h, ?_⟩
  intro env2 h1 h2
  apply key
  unfold fieldTexts at h ⊢
  rw [h1, h2]
  exact h

/-- The hypothesis of `Parse_missing_fields` holds for the 3-field descriptor
`* * *` and for the empty descriptor. -/
theorem Parse_missing_fields_witness :
    (fieldTexts specEnv "* * *").length < 5 ∧
    Parse specEnv "* * *" = (none, some "missing field(s)") ∧
    (fieldTexts specEnv "").length < 5 ∧
    Parse specEnv "" = (none, some "missing field(s)") :=
  ⟨by decide, (Parse_missing_fields specEnv "* * *" (by decide)).1,
    by decide, (Parse_missing_fields specEnv "" (by decide)).1⟩

/-- C7, as amended. Six-field convention: on a descriptor with exactly 6
fields `Parse` sets the second list to `[0]` and hands the six fields, in
order, to the handlers for minute, hour, day of month, month, day of week and
year; the outcome is the error of the first handler that fails, or else the
expression they built. -/
theorem Parse_six_fields (env : ParseEnv) (cronLine : String)
    (h : (fieldTexts env cronLine).length = 6) :
    Parse env cronLine =
      match runHandlers
        [fun e => env.minuteFieldHandler e ((fieldTexts env cronLine).getD 0 ""),
         fun e => env.hourFieldHandler e ((fieldTexts env cronLine).getD 1 ""),
         fun e => env.domFieldHandler e ((fieldTexts env cronLine).getD 2 ""),
         fun e => env.monthFieldHandler e ((fieldTexts env cronLine).getD 3 ""),
         fun e => env.dowFieldHandler e ((fieldTexts env cronLine).getD 4 ""),
         fun e => env.yearFieldHandler e ((fieldTexts env cronLine).getD 5 "")]
        { Expression.empty with secondList := [0] } with
      | .error err => (none, some err)
      | .ok e => (some e, none) := by
  have h5 : ¬ (fieldTexts env cronLine).length < 5 := by omega
  have h7 : ¬ 7 ≤ (fieldTexts env cronLine).length := by omega
  have h55 : ¬ (fieldTexts env cronLine).length = 5 := by omega
  rw [Parse_eq, parseFields, if_neg h5]
  simp only [handlerPlan, initialExpression, finish, h7, h, h55, if_true, if_false]
  rfl

/-- The hypothesis of `Parse_six_fields` holds for `30 9 * * MON-FRI 2030`,
which compiles to second {0}, minute {30}, hour {9}, unrestricted day of month
and month, Monday to Friday, year {2030}. -/
theorem Parse_six_fields_witness :
    (fieldTexts specEnv "30 9 * * MON-FRI 2030").length = 6 ∧
    (Parse specEnv "30 9 * * MON-FRI 2030" =
      match runHandlers
        [fun e => specEnv.minuteFieldHandler e "30",
         fun e => specEnv.hourFieldHandler e "9",
         fun e => specEnv.domFieldHandler e "*",
         fun e => specEnv.monthFieldHandler e "*",
         fun e => specEnv.dowFieldHandler e "MON-FRI",
         fun e => specEnv.yearFieldHandler e "2030"]
        { Expression.empty with secondList := [0] } with
      | .error err => (none, some err)
      | .ok e => (some e, none)) ∧
    (∃ e, Parse specEnv "30 9 * * MON-FRI 2030" = (some e, none) ∧
      e.secondList = [0] ∧ e.minuteList = [30] ∧ e.hourList = [9] ∧
      e.daysOfMonthRestricted = false ∧
      e.monthList = [1, 2, 3, 4, 5, 6, 7, 8, 9, 10, 11, 12] ∧
      e.daysOfWeek = [(1, true), (2, true), (3, true), (4, true), (5, true)] ∧
      e.daysOfWeekRestricted = true ∧ e.yearList = [2030]) :=
  ⟨by decide, Parse_six_fields specEnv "30 9 * * MON-FRI 2030" (by decide),
    ⟨_, rfl, rfl, rfl, rfl, rfl, rfl, rfl, rfl, rfl⟩⟩

/-- C7, as stated, fails: the 6-field descriptor `0 30 9 * * MON-FRI` does not
compile to second {0}, minute {30}, hour {9}: its leading field goes to the
minute handler and its second field, 30, to the hour handler, which rejects
it, so `Parse` returns an error and no Expression. -/
theorem Parse_six_fields_counterexample :
    (fieldTexts specEnv "0 30 9 * * MON-FRI").length = 6 ∧
    Parse specEnv "0 30 9 * * MON-FRI" = (none, some "hour field: value out of range") ∧
    specEnv.minuteFieldHandler { Expression.empty with secondList := [0] } "0"
      = .ok { Expression.empty with secondList := [0], minuteList := [0] } ∧
    ¬ ∃ e, (Parse specEnv "0 30 9 * * MON-FRI").1 = some e ∧ e.minuteList = [30] := by
  refine ⟨by decide, by rfl, by rfl, ?_⟩
  rintro ⟨e, he, _⟩
  have : (Parse specEnv "0 30 9 * * MON-FRI").1 = none := by rfl
  rw [this] at he
  cases he


/-- C8. All-or-nothing compile: `Parse` returns an error exactly when the
descriptor holds fewer than 5 fields or one of the handlers, run in descriptor
order on the expression under construction, fails on its field; with an error
no Expression is returned, without an error one is; and the error is
"missing field(s)" or that of the first handler that fails, all handlers
before it having succeeded. -/
theorem Parse_all_or_nothing (env : ParseEnv) (cronLine : String) :
    ((Parse env cronLine).2 ≠ none ↔
      ((fieldTexts env cronLine).length < 5 ∨
       ∃ k e err, k < (handlerPlan env (fieldTexts env cronLine)).length ∧
        runHandlers ((handlerPlan env (fieldTexts env cronLine)).take k)
          (initialExpression (fieldTexts env cronLine)) = .ok e ∧
        (handlerPlan env (fieldTexts env cronLine)).getD k (fun x => .ok x) e = .error err)) ∧
    ((Parse env cronLine).2 ≠ none → (Parse env cronLine).1 = none) ∧
    ((Parse env cronLine).2 = none → (Parse env cronLine).1 ≠ none) ∧
    (∀ err, (Parse env cronLine).2 = some err →
      ((fieldTexts env cronLine).length < 5 ∧ err = "missing field(s)") ∨
      (5 ≤ (fieldTexts env cronLine).length ∧
       ∃ k e, k < (handlerPlan env (fieldTexts env cronLine)).length ∧
        runHandlers ((handlerPlan env (fieldTexts env cronLine)).take k)
          (initialExpression (fieldTexts env cronLine)) = .ok e ∧
        (handlerPlan env (fieldTexts env cronLine)).getD k (fun x => .ok x) e = .error err)) := by
  rw [Parse_eq, parseFields]
  by_cases h5 : (fieldTexts env cronLine).length < 5
  · rw [if_pos h5]
    refine ⟨⟨fun _ => Or.inl h5, fun _ => by simp⟩, fun _ => by simp, fun h => by simp at h, ?_⟩
    intro err herr
    left
    simp only [Option.some.injEq] at herr
    exact ⟨h5, herr.symm⟩
  · rw [if_neg h5]
    cases hrun : runHandlers (handlerPlan env (fieldTexts env cronLine))
        (initialExpression (fieldTexts env cronLine)) with
    | error err0 =>
      have hex := (runHandlers_error_iff _ _ _).mp hrun
      simp only
      refine ⟨⟨fun _ => Or.inr ?_, fun _ => by simp⟩, fun _ => by simp, fun h => by simp at h, ?_⟩
      · obtain ⟨k, e, hk, h1, h2⟩ := hex
        exact ⟨k, e, err0, hk, h1, h2⟩
      · intro err herr
        right
        simp only [Option.some.injEq] at herr
        subst herr
        exact ⟨by omega, hex⟩
    | ok e0 =>
      simp only
      refine ⟨⟨fun h => by simp at h, ?_⟩, fun h => by simp at h, fun _ => by simp, ?_⟩
      · rintro (h | ⟨k, e, err, hk, h1, h2⟩)
        · exact (h5 h).elim
        · have := (runHandlers_error_iff _ _ err).mpr ⟨k, e, hk, h1, h2⟩
          rw [hrun] at this
          cases this
      · intro err herr
        cases herr

theorem specEnv_keepsSeconds : KeepsSeconds specEnv := by
  intro h hh e s e2 hrun
  rcases hh with rfl | rfl | rfl | rfl | rfl
  all_goals
    simp only [specEnv, Except.map] at hrun
    split at hrun
    · cases hrun
    · injection hrun with hrun
      subst hrun
      rfl

/-- C9. Five-field defaults: when a descriptor with exactly 5 fields compiles,
its fields went, in order, to the handlers for minute, hour, day of month,
month and day of week, starting from an expression whose second list is `[0]`;
the year list of the result is the default year list, and, the five handlers
leaving the second list alone, its second list is exactly `[0]`. -/
theorem Parse_five_fields (env : ParseEnv) (cronLine : String) (e : Expression)
    (h : (fieldTexts env cronLine).length = 5) (hkeep : KeepsSeconds env)
    (hparse : Parse env cronLine = (some e, none)) :
    (∃ e1 e2 e3 e4 e5,
      env.minuteFieldHandler { Expression.empty with secondList := [0] }
        ((fieldTexts env cronLine).getD 0 "") = .ok e1 ∧
      env.hourFieldHandler e1 ((fieldTexts env cronLine).getD 1 "") = .ok e2 ∧
      env.domFieldHandler e2 ((fieldTexts env cronLine).getD 2 "") = .ok e3 ∧
      env.monthFieldHandler e3 ((fieldTexts env cronLine).getD 3 "") = .ok e4 ∧
      env.dowFieldHandler e4 ((fieldTexts env cronLine).getD 4 "") = .ok e5 ∧
      e = { e5 with yearList := env.defaultYearList }) ∧
    e.secondList = [0] ∧ e.yearList = env.defaultYearList := by
  have h5 : ¬ (fieldTexts env cronLine).length < 5 := by omega
  have h7 : ¬ 7 ≤ (fieldTexts env cronLine).length := by omega
  have h6 : ¬ (fieldTexts env cronLine).length = 6 := by omega
  rw [Parse_eq, parseFields, if_neg h5] at hparse
  simp only [handlerPlan, initialExpression, finish, h7, h, h6, if_true, if_false,
    runHandlers, Nat.reduceLeDiff] at hparse
  cases h1 : env.minuteFieldHandler _ ((fieldTexts env cronLine).getD 0 "") with
  | error err => rw [h1] at hparse; cases hparse
  | ok e1 =>
    rw [h1] at hparse
    simp only at hparse
    cases h2 : env.hourFieldHandler e1 ((fieldTexts env cronLine).getD 1 "") with
    | error err => rw [h2] at hparse; cases hparse
    | ok e2 =>
      rw [h2] at hparse
      simp only at hparse
      cases h3 : env.domFieldHandler e2 ((fieldTexts env cronLine).getD 2 "") with
      | error err => rw [h3] at hparse; cases hparse
      | ok e3 =>
        rw [h3] at hparse
        simp only at hparse
        cases h4 : env.monthFieldHandler e3 ((fieldTexts env cronLine).getD 3 "") with
        | error err => rw [h4] at hparse; cases hparse
        | ok e4 =>
          rw [h4] at hparse
          simp only at hparse
          cases h5 : env.dowFieldHandler e4 ((fieldTexts env cronLine).getD 4 "") with
          | error err => rw [h5] at hparse; cases hparse
          | ok e5 =>
            rw [h5] at hparse
            simp only [Prod.mk.injEq, Option.some.injEq, and_true] at hparse
            subst hparse
            refine ⟨⟨e1, e2, e3, e4, e5, rfl, h2, h3, h4, h5, rfl⟩, ?_, rfl⟩
            have k1 := hkeep _ (Or.inl rfl) _ _ _ h1
            have k2 := hkeep _ (Or.inr (Or.inl rfl)) _ _ _ h2
            have k3 := hkeep _ (Or.inr (Or.inr (Or.inl rfl))) _ _ _ h3
            have k4 := hkeep _ (Or.inr (Or.inr (Or.inr (Or.inl rfl)))) _ _ _ h4
            have k5 := hkeep _ (Or.inr (Or.inr (Or.inr (Or.inr rfl)))) _ _ _ h5
            show e5.secondList = [0]
            rw [k5, k4, k3, k2, k1]

/-- The hypotheses of `Parse_five_fields` hold for `30 9 * * MON-FRI`. -/
theorem Parse_five_fields_witness :
    (fieldTexts specEnv "30 9 * * MON-FRI").length = 5 ∧ KeepsSeconds specEnv ∧
    (∃ e, Parse specEnv "30 9 * * MON-FRI" = (some e, none) ∧
      e.secondList = [0] ∧ e.yearList = specEnv.defaultYearList ∧
      e.minuteList = [30] ∧ e.hourList = [9]) :=
  ⟨by decide, specEnv_keepsSeconds,
    ⟨_, rfl,
      (Parse_five_fields specEnv "30 9 * * MON-FRI" _ (by decide) specEnv_keepsSeconds rfl).2.1,
      (Parse_five_fields specEnv "30 9 * * MON-FRI" _ (by decide) specEnv_keepsSeconds rfl).2.2,
      rfl, rfl⟩⟩

theorem getD_take7 (fs : List String) (k : Nat) (hk : k < 7) :
    (fs.take 7).getD k "" = fs.getD k "" := by
  simp only [List.getD_eq_getElem?_getD, List.getElem?_take, hk, if_true]

/-- C10. Extra fields ignored: a descriptor with more than 7 fields has the
outcome of `Parse` (the same error, or the same Expression) of a descriptor
that consists of its first 7 fields. -/
theorem Parse_extra_fields (env : ParseEnv) (cronLine first7 : String)
    (h : 7 < (fieldTexts env cronLine).length)
    (h7 : fieldTexts env first7 = (fieldTexts env cronLine).take 7) :
    Parse env cronLine = Parse env first7 := by
  have hl : ((fieldTexts env cronLine).take 7).length = 7 := by
    rw [List.length_take]; omega
  rw [Parse_eq, Parse_eq, h7]
  unfold parseFields
  have a1 : ¬ (fieldTexts env cronLine).length < 5 := by omega
  have a2 : 7 ≤ (fieldTexts env cronLine).length := by omega
  have a3 : ¬ (fieldTexts env cronLine).length = 5 := by omega
  simp only [hl, a1, a2, a3, handlerPlan, initialExpression, finish, if_true, if_false,
    Nat.reduceLT, Nat.reduceLeDiff, Nat.reduceEqDiff, le_refl,
    getD_take7 _ 0 (by omega), getD_take7 _ 1 (by omega), getD_take7 _ 2 (by omega),
    getD_take7 _ 3 (by omega), getD_take7 _ 4 (by omega), getD_take7 _ 5 (by omega),
    getD_take7 _ 6 (by omega)]

/-- The hypotheses of `Parse_extra_fields` hold for a descriptor of ten fields
and the descriptor of its first seven. -/
theorem Parse_extra_fields_witness :
    7 < (fieldTexts specEnv "0 30 9 * * MON-FRI 2030 and more").length ∧
    fieldTexts specEnv "0 30 9 * * MON-FRI 2030"
      = (fieldTexts specEnv "0 30 9 * * MON-FRI 2030 and more").take 7 ∧
    Parse specEnv "0 30 9 * * MON-FRI 2030 and more"
      = Parse specEnv "0 30 9 * * MON-FRI 2030" :=
  ⟨by decide, by decide,
    Parse_extra_fields specEnv "0 30 9 * * MON-FRI 2030 and more" "0 30 9 * * MON-FRI 2030"
      (by decide) (by decide)⟩

/-! ## Outcomes without any assumption on the lists -/

theorem searchLoop_pred (f : Nat → Bool) :
    ∀ fuel i j, i ≤ j → i < searchLoop f fuel i j → f (searchLoop f fuel i j - 1) = false := by
  intro fuel
  induction fuel with
  | zero => intro i j _ h; simp only [searchLoop] at h; omega
  | succ fuel ih =>
    intro i j hij h
    unfold searchLoop at h ⊢
    by_cases hlt : i < j
    · simp only [hlt, if_true] at h ⊢
      cases hfh : f ((i + j) / 2) with
      | false =>
        simp only [hfh, Bool.not_false, if_true] at h ⊢
        have hle := (searchLoop_le f fuel ((i + j) / 2 + 1) j (by omega)).1
        by_cases heq : searchLoop f fuel ((i + j) / 2 + 1) j = (i + j) / 2 + 1
        · rw [heq]
          simpa using hfh
        · exact ih _ _ (by omega) (by omega)
      | true =>
        simp only [hfh, Bool.not_true, Bool.false_eq_true, if_false] at h ⊢
        exact ih _ _ (by omega) h
    · simp only [hlt, if_false] at h
      omega

theorem SearchInts_pred (a : List Int) (v : Int) (h : 0 < SearchInts a v) :
    a.getD (SearchInts a v - 1) 0 < v := by
  have := searchLoop_pred (fun h => decide (v ≤ a.getD h 0)) a.length 0 a.length
    (Nat.zero_le _) h
  simp only [decide_eq_false_iff_not, not_le] at this
  exact this

theorem findTargetOrLower_nil (v : Int) :
    findTargetOrLower [] v = .error .indexOutOfRange := by
  rfl

theorem lastOf_nil : lastOf [] = .error .indexOutOfRange := by
  rfl

theorem lastOf_mem (a : List Int) (hne : a ≠ []) : ∃ v, lastOf a = .ok v ∧ v ∈ a := by
  have hlen : 0 < a.length := List.length_pos.mpr hne
  have hcast : ((a.length : Int) - 1) = ((a.length - 1 : Nat) : Int) := by omega
  refine ⟨a.getD (a.length - 1) 0, ?_, getD_mem a _ (by omega)⟩
  unfold lastOf
  rw [hcast]
  exact index_natCast a _ (by omega)

/-- On a non-empty slice, sorted or not, `findTargetOrLower` yields -1 or the
index of an element that is at most the value. -/
theorem findTargetOrLower_cases (a : List Int) (v : Int) (hne : a ≠ []) :
    findTargetOrLower a v = .ok (-1) ∨
    ∃ i : Nat, i < a.length ∧ findTargetOrLower a v = .ok (i : Int) ∧ a.getD i 0 ≤ v := by
  have hlen : 0 < a.length := List.length_pos.mpr hne
  have hle := SearchInts_le a v
  have hpred := SearchInts_pred a v
  rw [findTargetOrLower_eq]
  generalize SearchInts a v = r at hle hpred
  by_cases hr0 : r = 0
  · subst hr0
    rw [frontDiffers_zero a v hlen, absentAt_lt a 0 v hlen]
    by_cases hv : a.getD 0 0 = v
    · right
      have hb : (a.getD 0 0 != v) = false := by rw [hv]; exact bne_self_eq_false v
      exact ⟨0, hlen, by rw [hb], by omega⟩
    · left
      have hb : (a.getD 0 0 != v) = true := bne_iff_ne.mpr hv
      rw [hb]
  · right
    have hprev := hpred (by omega)
    have hcast : ((r : Int) - 1) = ((r - 1 : Nat) : Int) := by omega
    rw [frontDiffers_pos a r v hr0]
    by_cases hrl : r = a.length
    · refine ⟨r - 1, by omega, ?_, by omega⟩
      rw [hrl, absentAt_length, ← hrl, hcast]
    · have hrlt : r < a.length := by omega
      rw [absentAt_lt a r v hrlt]
      by_cases hv : a.getD r 0 = v
      · have hb : (a.getD r 0 != v) = false := by rw [hv]; exact bne_self_eq_false v
        exact ⟨r, hrlt, by rw [hb], by omega⟩
      · have hb : (a.getD r 0 != v) = true := bne_iff_ne.mpr hv
        exact ⟨r - 1, by omega, by rw [hb, hcast], by omega⟩

/-- On a non-empty slice, sorted or not, the two guards of `Prev` evaluate. -/
theorem guards_cases (a : List Int) (v : Int) (hne : a ≠ []) :
    ∃ b1 b2, frontDiffers a (SearchInts a v) v = .ok b1 ∧
      absentAt a (SearchInts a v) v = .ok b2 ∧ (b2 = false → v ∈ a) := by
  have hlen : 0 < a.length := List.length_pos.mpr hne
  have hle := SearchInts_le a v
  generalize SearchInts a v = r at hle
  have h1 : ∃ b1, frontDiffers a r v = .ok b1 := by
    by_cases hr0 : r = 0
    · subst hr0; exact ⟨_, frontDiffers_zero a v hlen⟩
    · exact ⟨_, frontDiffers_pos a r v hr0⟩
  have h2 : ∃ b2, absentAt a r v = .ok b2 ∧ (b2 = false → v ∈ a) := by
    by_cases hrl : r = a.length
    · subst hrl
      exact ⟨_, absentAt_length a v, fun h => Bool.noConfusion h⟩
    · have hr : r < a.length := by omega
      refine ⟨_, absentAt_lt a r v hr, fun h => ?_⟩
      have hv : a.getD r 0 = v := by
        by_contra hne
        rw [bne_iff_ne.mpr hne] at h
        exact Bool.noConfusion h
      exact hv ▸ getD_mem a r hr
  obtain ⟨b1, h1⟩ := h1
  obtain ⟨b2, h2, h3⟩ := h2
  exact ⟨b1, b2, h1, h2, h3⟩

theorem frontDiffers_nil (v : Int) :
    frontDiffers [] (SearchInts [] v) v = .error .indexOutOfRange := by
  rfl

theorem Safe.weaken {e : Expression} {loc : Location} {b1 b2 : Prop} {q : Query}
    (h : Safe e loc b1 q) (hb : b2 → b1) : Safe e loc b2 q := by
  cases q with
  | ok p => exact h
  | error err =>
    cases err with
    | indexOutOfRange => exact h
    | outOfFuel => exact fun h2 => h (hb h2)
    | capOutOfRange => exact h

theorem Safe.idx {e : Expression} {loc : Location} {b : Prop} (h : ¬ NonEmpty e) :
    Safe e loc b (.error .indexOutOfRange) := h

theorem lasts_cases (e : Expression) :
    (lastOf e.hourList = .error .indexOutOfRange ∧ ¬ NonEmpty e) ∨
    (∃ lh, lastOf e.hourList = .ok lh ∧
      lastOf e.minuteList = .error .indexOutOfRange ∧ ¬ NonEmpty e) ∨
    (∃ lh lmi, lastOf e.hourList = .ok lh ∧ lastOf e.minuteList = .ok lmi ∧
      lastOf e.secondList = .error .indexOutOfRange ∧ ¬ NonEmpty e) ∨
    (∃ lh lmi ls, lastOf e.hourList = .ok lh ∧ lastOf e.minuteList = .ok lmi ∧
      lastOf e.secondList = .ok ls ∧ lh ∈ e.hourList ∧ lmi ∈ e.minuteList ∧
      ls ∈ e.secondList) := by
  by_cases hh : e.hourList = []
  · left
    rw [hh]
    exact ⟨lastOf_nil, fun h => h.hour_ne hh⟩
  obtain ⟨lh, hlh, mlh⟩ := lastOf_mem _ hh
  by_cases hmi : e.minuteList = []
  · right; left
    refine ⟨lh, hlh, ?_, fun h => h.minute_ne hmi⟩
    rw [hmi]
    exact lastOf_nil
  obtain ⟨lmi, hlmi, mlmi⟩ := lastOf_mem _ hmi
  by_cases hs : e.secondList = []
  · right; right; left
    refine ⟨lh, lmi, hlh, hlmi, ?_, fun h => h.second_ne hs⟩
    rw [hs]
    exact lastOf_nil
  obtain ⟨ls, hls, mls⟩ := lastOf_mem _ hs
  exact Or.inr (Or.inr (Or.inr ⟨lh, lmi, ls, hlh, hlmi, hls, mlh, mlmi, mls⟩))

/-- The recursive helpers `prevYear` and `prevMonth`, on any expression: a
result keeps the schedule, an index out of range needs an empty list, and fuel
runs out only if a value is outside its domain or the fuel does not cover the
(year, month) pairs still below the instant. -/
theorem prevYearMonth_safe (resolve : DayResolver) (e : Expression) : ∀ fuel,
    (∀ l t, Safe e t.loc (Regular e t ∧
        countBelow e.yearList t.year * (e.monthList.length + 2) < fuel)
      (prevYear resolve fuel (e.withDays l) t)) ∧
    (∀ l t, Safe e t.loc (Regular e t ∧ t.year ∈ e.yearList ∧
        countBelow e.yearList t.year * (e.monthList.length + 2)
          + countBelow e.monthList t.month + 1 < fuel)
      (prevMonth resolve fuel (e.withDays l) t)) := by
  intro fuel
  induction fuel with
  | zero =>
    refine ⟨fun l t => ?_, fun l t => ?_⟩
    · rw [prevYear]; exact fun h => Nat.not_lt_zero _ h.2
    · rw [prevMonth]; exact fun h => Nat.not_lt_zero _ h.2.2
  | succ fuel ih =>
    obtain ⟨ihY, ihM⟩ := ih
    refine ⟨?_, ?_⟩
    · intro l t
      rw [prevYear]
      simp only [bind, Except.bind, pure, Except.pure, withDays_yearList, withDays_monthList,
        withDays_hourList, withDays_minuteList, withDays_secondList]
      by_cases hy : e.yearList = []
      · rw [hy, findTargetOrLower_nil]
        exact Safe.idx (fun h => h.year_ne hy)
      rcases findTargetOrLower_cases e.yearList (t.year - 1) hy with hf | ⟨i, hi, hf, hle⟩
      · simp only [hf, if_true]
        exact ⟨⟨l, rfl⟩, Or.inl Time.zero_isZero⟩
      have hne1 : ¬ ((i : Int) = -1) := by omega
      have hY := getD_mem e.yearList i hi
      have hidx := index_natCast e.yearList i hi
      generalize e.yearList.getD i 0 = Y at hle hY hidx
      simp only [hf, hne1, if_false, hidx]
      by_cases hm : e.monthList = []
      · rw [hm, lastOf_nil]
        exact Safe.idx (fun h => h.month_ne hm)
      obtain ⟨lm, hlm, mlm⟩ := lastOf_mem _ hm
      simp only [hlm]
      by_cases hD : (resolve (e.withDays l) Y lm).length = 0
      · rw [if_pos hD]
        rcases lasts_cases e with ⟨h1, hn⟩ | ⟨lh, h1, h2, hn⟩ | ⟨lh, lmi, h1, h2, h3, hn⟩ |
          ⟨lh, lmi, ls, hlh, hlmi, hls, mlh, mlmi, mls⟩
        · simp only [h1]; exact Safe.idx hn
        · simp only [h1, h2]; exact Safe.idx hn
        · simp only [h1, h2, h3]; exact Safe.idx hn
        simp only [hlh, hlmi, hls]
        refine (ihM (resolve (e.withDays l) Y lm) _).weaken ?_
        rintro ⟨hdom, hfuel⟩
        have rlm := hdom.dom.month_range lm mlm
        have rlh := hdom.dom.hour_range lh mlh
        have rlmi := hdom.dom.minute_range lmi mlmi
        have rls := hdom.dom.second_range ls mls
        have hdate : Date Y lm (lastDayOfMonth Y lm t.loc) lh lmi ls 0 t.loc =
            ⟨Y, lm, daysIn Y lm, lh, lmi, ls, 0, t.loc, t.loc.offset⟩ := by
          rw [lastDayOfMonth_eq Y lm t.loc rlm.1 rlm.2 hdom.fixed (hdom.years Y hY)]
          have := daysIn_bounds Y lm rlm.1 rlm.2
          exact Date_of_valid _ _ _ _ _ _ _ rlm.1 rlm.2 (by omega) (le_refl _) rlh.1 rlh.2
            rlmi.1 rlmi.2 rls.1 rls.2 hdom.fixed (hdom.years Y hY)
        rw [hdate]
        refine ⟨⟨hdom.dom, hdom.years, hdom.fixed⟩, hY, ?_⟩
        simp only
        have hcnt := countBelow_lt e.yearList Y t.year hY (by omega)
        have hmul : (countBelow e.yearList Y + 1) * (e.monthList.length + 2) ≤
            countBelow e.yearList t.year * (e.monthList.length + 2) :=
          Nat.mul_le_mul_right _ hcnt
        rw [Nat.add_mul, Nat.one_mul] at hmul
        have hcm := countBelow_le e.monthList lm
        omega
      · rw [if_neg hD]
        have hDne : resolve (e.withDays l) Y lm ≠ [] := fun h => hD (List.length_eq_zero.mpr h)
        obtain ⟨ld, hld, _⟩ := lastOf_mem _ hDne
        simp only [hld]
        rcases lasts_cases e with ⟨h1, hn⟩ | ⟨lh, h1, h2, hn⟩ | ⟨lh, lmi, h1, h2, h3, hn⟩ |
          ⟨lh, lmi, ls, hlh, hlmi, hls, mlh, mlmi, mls⟩
        · simp only [h1]; exact Safe.idx hn
        · simp only [h1, h2]; exact Safe.idx hn
        · simp only [h1, h2, h3]; exact Safe.idx hn
        simp only [hlh, hlmi, hls]
        exact ⟨⟨_, rfl⟩, Or.inr rfl⟩
    · intro l t
      rw [prevMonth]
      simp only [bind, Except.bind, pure, Except.pure, withDays_yearList, withDays_monthList,
        withDays_hourList, withDays_minuteList, withDays_secondList]
      by_cases hm : e.monthList = []
      · rw [hm, findTargetOrLower_nil]
        exact Safe.idx (fun h => h.month_ne hm)
      rcases findTargetOrLower_cases e.monthList (t.month - 1) hm with hf | ⟨i, hi, hf, hle⟩
      · simp only [hf, if_true]
        exact (ihY l t).weaken (fun h => ⟨h.1, by have := h.2.2; omega⟩)
      have hne1 : ¬ ((i : Int) = -1) := by omega
      have hM := getD_mem e.monthList i hi
      have hidx := index_natCast e.monthList i hi
      generalize e.monthList.getD i 0 = M at hle hM hidx
      simp only [hf, hne1, if_false, hidx]
      by_cases hD : (resolve (e.withDays l) t.year M).length = 0
      · rw [if_pos hD]
        rcases lasts_cases e with ⟨h1, hn⟩ | ⟨lh, h1, h2, hn⟩ | ⟨lh, lmi, h1, h2, h3, hn⟩ |
          ⟨lh, lmi, ls, hlh, hlmi, hls, mlh, mlmi, mls⟩
        · simp only [h1]; exact Safe.idx hn
        · simp only [h1, h2]; exact Safe.idx hn
        · simp only [h1, h2, h3]; exact Safe.idx hn
        simp only [hlh, hlmi, hls]
        refine (ihM (resolve (e.withDays l) t.year M) _).weaken ?_
        rintro ⟨hdom, hty, hfuel⟩
        have rM := hdom.dom.month_range M hM
        have rlh := hdom.dom.hour_range lh mlh
        have rlmi := hdom.dom.minute_range lmi mlmi
        have rls := hdom.dom.second_range ls mls
        have hdate : Date t.year M (lastDayOfMonth t.year M t.loc) lh lmi ls 0 t.loc =
            ⟨t.year, M, daysIn t.year M, lh, lmi, ls, 0, t.loc, t.loc.offset⟩ := by
          rw [lastDayOfMonth_eq t.year M t.loc rM.1 rM.2 hdom.fixed (hdom.years _ hty)]
          have := daysIn_bounds t.year M rM.1 rM.2
          exact Date_of_valid _ _ _ _ _ _ _ rM.1 rM.2 (by omega) (le_refl _) rlh.1 rlh.2
            rlmi.1 rlmi.2 rls.1 rls.2 hdom.fixed (hdom.years _ hty)
        rw [hdate]
        refine ⟨⟨hdom.dom, hdom.years, hdom.fixed⟩, hty, ?_⟩
        simp only
        have hcnt := countBelow_lt e.monthList M t.month hM (by omega)
        omega
      · rw [if_neg hD]
        have hDne : resolve (e.withDays l) t.year M ≠ [] :=
          fun h => hD (List.length_eq_zero.mpr h)
        obtain ⟨ld, hld, _⟩ := lastOf_mem _ hDne
        simp only [hld]
        rcases lasts_cases e with ⟨h1, hn⟩ | ⟨lh, h1, h2, hn⟩ | ⟨lh, lmi, h1, h2, h3, hn⟩ |
          ⟨lh, lmi, ls, hlh, hlmi, hls, mlh, mlmi, mls⟩
        · simp only [h1]; exact Safe.idx hn
        · simp only [h1, h2]; exact Safe.idx hn
        · simp only [h1, h2, h3]; exact Safe.idx hn
        simp only [hlh, hlmi, hls]
        exact ⟨⟨_, rfl⟩, Or.inr rfl⟩


theorem prevMonth_safe (resolve : DayResolver) (e : Expression) (fuel : Nat)
    (l : List Int) (t : Time) :
    Safe e t.loc (Regular e t ∧ t.year ∈ e.yearList ∧ prevFuel e ≤ fuel)
      (prevMonth resolve fuel (e.withDays l) t) :=
  ((prevYearMonth_safe resolve e fuel).2 l t).weaken
    (fun h => ⟨h.1, h.2.1, fuel_enough e t.year t.month fuel h.2.2⟩)

theorem prevYear_safe (resolve : DayResolver) (e : Expression) (fuel : Nat)
    (l : List Int) (t : Time) :
    Safe e t.loc (Regular e t ∧ prevFuel e ≤ fuel) (prevYear resolve fuel (e.withDays l) t) :=
  ((prevYearMonth_safe resolve e fuel).1 l t).weaken
    (fun h => ⟨h.1, by have := fuel_enough e t.year 0 fuel h.2; omega⟩)

theorem prevDayOfMonth_safe (resolve : DayResolver) (e : Expression) (fuel : Nat)
    (l : List Int) (t : Time) (hl : l ≠ []) :
    Safe e t.loc (Regular e t ∧ t.year ∈ e.yearList ∧ prevFuel e ≤ fuel)
      (prevDayOfMonth resolve fuel (e.withDays l) t) := by
  unfold prevDayOfMonth
  simp only [bind, Except.bind, pure, Except.pure, withDays_yearList, withDays_monthList,
    withDays_hourList, withDays_minuteList, withDays_secondList, withDays_days]
  rcases findTargetOrLower_cases l (t.day - 1) hl with hf | ⟨i, hi, hf, _⟩
  · simp only [hf, if_true]
    exact prevMonth_safe resolve e fuel l t
  have hne1 : ¬ ((i : Int) = -1) := by omega
  simp only [hf, hne1, if_false, index_natCast l i hi]
  rcases lasts_cases e with ⟨h1, hn⟩ | ⟨lh, h1, h2, hn⟩ | ⟨lh, lmi, h1, h2, h3, hn⟩ |
    ⟨lh, lmi, ls, hlh, hlmi, hls, _, _, _⟩
  · simp only [h1]; exact Safe.idx hn
  · simp only [h1, h2]; exact Safe.idx hn
  · simp only [h1, h2, h3]; exact Safe.idx hn
  simp only [hlh, hlmi, hls]
  exact ⟨⟨_, rfl⟩, Or.inr rfl⟩

theorem last_cases (a : List Int) :
    (a = [] ∧ lastOf a = .error .indexOutOfRange) ∨ (∃ v, lastOf a = .ok v ∧ v ∈ a) := by
  by_cases h : a = []
  · left; subst h; exact ⟨rfl, lastOf_nil⟩
  · right; exact lastOf_mem a h

theorem prevHour_safe (resolve : DayResolver) (e : Expression) (fuel : Nat)
    (l : List Int) (t : Time) (hl : l ≠ []) :
    Safe e t.loc (Regular e t ∧ t.year ∈ e.yearList ∧ prevFuel e ≤ fuel)
      (prevHour resolve fuel (e.withDays l) t) := by
  unfold prevHour
  simp only [bind, Except.bind, pure, Except.pure, withDays_yearList, withDays_monthList,
    withDays_hourList, withDays_minuteList, withDays_secondList, withDays_days]
  by_cases hh : e.hourList = []
  · rw [hh, findTargetOrLower_nil]
    exact Safe.idx (fun h => h.hour_ne hh)
  rcases findTargetOrLower_cases e.hourList (t.hour - 1) hh with hf | ⟨i, hi, hf, _⟩
  · simp only [hf, if_true]
    exact prevDayOfMonth_safe resolve e fuel l t hl
  have hne1 : ¬ ((i : Int) = -1) := by omega
  simp only [hf, hne1, if_false, index_natCast _ i hi]
  rcases last_cases e.minuteList with ⟨hmi, h2⟩ | ⟨lmi, hlmi, _⟩
  · simp only [h2]; exact Safe.idx (fun h => h.minute_ne hmi)
  rcases last_cases e.secondList with ⟨hs, h3⟩ | ⟨ls, hls, _⟩
  · simp only [hlmi, h3]; exact Safe.idx (fun h => h.second_ne hs)
  simp only [hlmi, hls]
  exact ⟨⟨_, rfl⟩, Or.inr rfl⟩

theorem prevMinute_safe (resolve : DayResolver) (e : Expression) (fuel : Nat)
    (l : List Int) (t : Time) (hl : l ≠ []) :
    Safe e t.loc (Regular e t ∧ t.year ∈ e.yearList ∧ prevFuel e ≤ fuel)
      (prevMinute resolve fuel (e.withDays l) t) := by
  unfold prevMinute
  simp only [bind, Except.bind, pure, Except.pure, withDays_yearList, withDays_monthList,
    withDays_hourList, withDays_minuteList, withDays_secondList, withDays_days]
  by_cases hh : e.minuteList = []
  · rw [hh, findTargetOrLower_nil]
    exact Safe.idx (fun h => h.minute_ne hh)
  rcases findTargetOrLower_cases e.minuteList (t.minute - 1) hh with hf | ⟨i, hi, hf, _⟩
  · simp only [hf, if_true]
    exact prevHour_safe resolve e fuel l t hl
  have hne1 : ¬ ((i : Int) = -1) := by omega
  simp only [hf, hne1, if_false, index_natCast _ i hi]
  rcases last_cases e.secondList with ⟨hs, h3⟩ | ⟨ls, hls, _⟩
  · simp only [h3]; exact Safe.idx (fun h => h.second_ne hs)
  simp only [hls]
  exact ⟨⟨_, rfl⟩, Or.inr rfl⟩

theorem prevSecond_safe (resolve : DayResolver) (e : Expression) (fuel : Nat)
    (l : List Int) (t : Time) (hl : l ≠ []) :
    Safe e t.loc (Regular e t ∧ t.year ∈ e.yearList ∧ prevFuel e ≤ fuel)
      (prevSecond resolve fuel (e.withDays l) t) := by
  unfold prevSecond
  simp only [bind, Except.bind, pure, Except.pure, withDays_yearList, withDays_monthList,
    withDays_hourList, withDays_minuteList, withDays_secondList, withDays_days]
  by_cases hh : e.secondList = []
  · rw [hh, findTargetOrLower_nil]
    exact Safe.idx (fun h => h.second_ne hh)
  rcases findTargetOrLower_cases e.secondList (t.second - 1) hh with hf | ⟨i, hi, hf, _⟩
  · simp only [hf, if_true]
    exact prevMinute_safe resolve e fuel l t hl
  have hne1 : ¬ ((i : Int) = -1) := by omega
  simp only [hf, hne1, if_false, index_natCast _ i hi]
  exact ⟨⟨_, rfl⟩, Or.inr rfl⟩

/-- `Prev` on any expression and instant: a result keeps the schedule, an
index out of range needs an empty list, and fuel runs out only if a value is
outside its domain or the fuel is below `prevFuel`. -/
theorem Prev_safe (resolve : DayResolver) (e : Expression) (fuel : Nat)
    (l : List Int) (t : Time) :
    Safe e t.loc (Regular e t ∧ prevFuel e ≤ fuel) (Prev resolve fuel (e.withDays l) t) := by
  unfold Prev
  simp only [bind, Except.bind, pure, Except.pure, withDays_yearList, withDays_monthList,
    withDays_hourList, withDays_minuteList, withDays_secondList]
  by_cases hz : t.IsZero
  · simp only [hz, if_true]
    exact ⟨⟨l, rfl⟩, Or.inr rfl⟩
  simp only [hz, if_false]
  -- year
  by_cases hy : e.yearList = []
  · rw [hy, frontDiffers_nil]
    exact Safe.idx (fun h => h.year_ne hy)
  obtain ⟨b1, b2, g1, g2, hmem⟩ := guards_cases e.yearList t.year hy
  simp only [g1, g2]
  cases b1
  swap
  · exact ⟨⟨l, rfl⟩, Or.inl Time.zero_isZero⟩
  cases b2
  swap
  · exact prevYear_safe resolve e fuel l t
  have hty : t.year ∈ e.yearList := hmem rfl
  have hw : Regular e t ∧ prevFuel e ≤ fuel →
      Regular e t ∧ t.year ∈ e.yearList ∧ prevFuel e ≤ fuel := fun h => ⟨h.1, hty, h.2⟩
  simp only [Bool.false_eq_true, if_false]
  -- month
  by_cases hm : e.monthList = []
  · rw [hm, frontDiffers_nil]
    exact Safe.idx (fun h => h.month_ne hm)
  obtain ⟨b1, b2, g1, g2, _⟩ := guards_cases e.monthList t.month hm
  simp only [g1, g2]
  cases b1
  swap
  · exact prevYear_safe resolve e fuel l t
  cases b2
  swap
  · exact (prevMonth_safe resolve e fuel l t).weaken hw
  simp only [Bool.false_eq_true, if_false]
  -- the resolved day list
  by_cases hD : (resolve (e.withDays l) t.year t.month).length = 0
  · rw [if_pos hD]
    exact (prevMonth_safe resolve e fuel _ t).weaken hw
  rw [if_neg hD]
  have hDne : resolve (e.withDays l) t.year t.month ≠ [] :=
    fun h => hD (List.length_eq_zero.mpr h)
  -- day of month
  obtain ⟨b1, b2, g1, g2, _⟩ := guards_cases _ t.day hDne
  simp only [g1, g2]
  cases b1
  swap
  · exact (prevMonth_safe resolve e fuel _ t).weaken hw
  cases b2
  swap
  · exact (prevDayOfMonth_safe resolve e fuel _ t hDne).weaken hw
  simp only [Bool.false_eq_true, if_false]
  -- hour
  by_cases hh : e.hourList = []
  · rw [hh, frontDiffers_nil]
    exact Safe.idx (fun h => h.hour_ne hh)
  obtain ⟨b1, b2, g1, g2, _⟩ := guards_cases e.hourList t.hour hh
  simp only [g1, g2]
  cases b1
  swap
  · exact (prevDayOfMonth_safe resolve e fuel _ t hDne).weaken hw
  cases b2
  swap
  · exact (prevHour_safe resolve e fuel _ t hDne).weaken hw
  simp only [Bool.false_eq_true, if_false]
  -- minute
  by_cases hmi : e.minuteList = []
  · rw [hmi, frontDiffers_nil]
    exact Safe.idx (fun h => h.minute_ne hmi)
  obtain ⟨b1, b2, g1, g2, _⟩ := guards_cases e.minuteList t.minute hmi
  simp only [g1, g2]
  cases b1
  swap
  · exact (prevHour_safe resolve e fuel _ t hDne).weaken hw
  cases b2
  swap
  · exact (prevMinute_safe resolve e fuel _ t hDne).weaken hw
  simp only [Bool.false_eq_true, if_false]
  -- second
  by_cases hs : e.secondList = []
  · rw [hs, frontDiffers_nil]
    exact Safe.idx (fun h => h.second_ne hs)
  obtain ⟨b1, b2, g1, g2, _⟩ := guards_cases e.secondList t.second hs
  simp only [g1]
  cases b1
  · exact (prevSecond_safe resolve e fuel _ t hDne).weaken hw
  · exact (prevMinute_safe resolve e fuel _ t hDne).weaken hw

/-! ## Independence of the day-list cache -/

theorem prevYearMonth_blind (resolve : DayResolver) (hb : CacheBlind resolve)
    (e : Expression) : ∀ fuel,
    (∀ l1 l2 t, (prevYear resolve fuel (e.withDays l1) t).map Prod.fst
      = (prevYear resolve fuel (e.withDays l2) t).map Prod.fst) ∧
    (∀ l1 l2 t, (prevMonth resolve fuel (e.withDays l1) t).map Prod.fst
      = (prevMonth resolve fuel (e.withDays l2) t).map Prod.fst) := by
  intro fuel
  induction fuel with
  | zero =>
    refine ⟨fun l1 l2 t => ?_, fun l1 l2 t => ?_⟩
    · rw [prevYear, prevYear]
    · rw [prevMonth, prevMonth]
  | succ fuel ih =>
    obtain ⟨ihY, ihM⟩ := ih
    refine ⟨?_, ?_⟩
    · intro l1 l2 t
      rw [prevYear, prevYear]
      simp only [bind, Except.bind, pure, Except.pure, withDays_yearList, withDays_monthList,
        withDays_hourList, withDays_minuteList, withDays_secondList, hb e]
      cases findTargetOrLower e.yearList (t.year - 1) with
      | error err => rfl
      | ok i =>
        simp only
        by_cases hi : i = -1
        · simp only [hi, if_true]
          rfl
        · simp only [hi, if_false]
          rfl
    · intro l1 l2 t
      rw [prevMonth, prevMonth]
      simp only [bind, Except.bind, pure, Except.pure, withDays_yearList, withDays_monthList,
        withDays_hourList, withDays_minuteList, withDays_secondList, hb e]
      cases findTargetOrLower e.monthList (t.month - 1) with
      | error err => rfl
      | ok i =>
        simp only
        by_cases hi : i = -1
        · simp only [hi, if_true]
          exact ihY l1 l2 t
        · simp only [hi, if_false]
          rfl

/-- `Prev` returns the same instant whatever the day-list cache holds when it
is called. -/
theorem Prev_blind (resolve : DayResolver) (hb : CacheBlind resolve) (e : Expression)
    (fuel : Nat) (l1 l2 : List Int) (t : Time) :
    (Prev resolve fuel (e.withDays l1) t).map Prod.fst
      = (Prev resolve fuel (e.withDays l2) t).map Prod.fst := by
  unfold Prev
  simp only [bind, Except.bind, pure, Except.pure, withDays_yearList, withDays_monthList,
    withDays_hourList, withDays_minuteList, withDays_secondList, hb e]
  by_cases hz : t.IsZero
  · simp only [hz, if_true]
    rfl
  simp only [hz, if_false]
  cases frontDiffers e.yearList (SearchInts e.yearList t.year) t.year with
  | error err => rfl
  | ok b1 =>
    cases b1 with
    | true => rfl
    | false =>
      simp only [Bool.false_eq_true, if_false]
      cases absentAt e.yearList (SearchInts e.yearList t.year) t.year with
      | error err => rfl
      | ok b2 =>
        cases b2 with
        | true => exact (prevYearMonth_blind resolve hb e fuel).1 l1 l2 t
        | false =>
          simp only [Bool.false_eq_true, if_false]
          cases frontDiffers e.monthList (SearchInts e.monthList t.month) t.month with
          | error err => rfl
          | ok b1 =>
            cases b1 with
            | true => exact (prevYearMonth_blind resolve hb e fuel).1 l1 l2 t
            | false =>
              simp only [Bool.false_eq_true, if_false]
              cases absentAt e.monthList (SearchInts e.monthList t.month) t.month with
              | error err => rfl
              | ok b2 =>
                cases b2 with
                | true => exact (prevYearMonth_blind resolve hb e fuel).2 l1 l2 t
                | false =>
                  simp only [Bool.false_eq_true, if_false]
                  rfl

/-! ## Further properties of the queries -/

theorem WellFormed.inDomain {e : Expression} (h : WellFormed e) : InDomain e :=
  ⟨h.month_range, h.hour_range, h.minute_range, h.second_range⟩

theorem WellFormed.nonEmpty {e : Expression} (h : WellFormed e) : NonEmpty e :=
  ⟨h.year_ne, h.month_ne, h.hour_ne, h.minute_ne, h.second_ne⟩

/-- C11. Zero instant in, zero instant out: on every expression, `Prev` (with
any fuel) and `Next` return the instant they were given when it is the zero
instant, and leave the expression as it was; neither result depends on the
expression. -/
theorem zero_in_zero_out (resolve : DayResolver) (helpers : NextHelpers) (e : Expression)
    (fromTime : Time) (fuel : Nat) (hz : fromTime.IsZero) :
    Prev resolve fuel e fromTime = .ok (fromTime, e) ∧
    Next resolve helpers e fromTime = .ok (fromTime, e) := by
  constructor
  · unfold Prev
    simp only [hz, if_true, pure, Except.pure]
  · unfold Next
    simp only [hz, if_true, pure, Except.pure]

/-- The hypothesis of `zero_in_zero_out` holds for `time.Time{}`; the queries
return it on the expression `Expression{}`, whose lists are all empty. -/
theorem zero_in_zero_out_witness :
    Time.zero.IsZero ∧
    Prev specResolver 0 Expression.empty Time.zero = .ok (Time.zero, Expression.empty) ∧
    Next specResolver idleHelpers Expression.empty Time.zero
      = .ok (Time.zero, Expression.empty) :=
  ⟨by decide, zero_in_zero_out specResolver idleHelpers Expression.empty Time.zero 0 (by decide)⟩

/-- `Prev` returns, in the setting in which `time.Date` returns the civil time it
is asked for: lists non-empty, values in their domains, years where the count
of seconds does not wrap, a location without zone transitions, and fuel for
every (year, month) pair. -/
theorem Prev_returns (resolve : DayResolver) (e : Expression) (fromTime : Time) (fuel : Nat)
    (hne : NonEmpty e) (hreg : Regular e fromTime) (hfuel : prevFuel e ≤ fuel) :
    ∃ r e2, Prev resolve fuel e fromTime = .ok (r, e2) := by
  have hsafe := Prev_safe resolve e fuel e.actualDaysOfMonthList fromTime
  have hrw : Prev resolve fuel (e.withDays e.actualDaysOfMonthList) fromTime
      = Prev resolve fuel e fromTime := rfl
  rw [hrw] at hsafe
  cases hq : Prev resolve fuel e fromTime with
  | ok p => exact ⟨p.1, p.2, rfl⟩
  | error err =>
    rw [hq] at hsafe
    cases err with
    | indexOutOfRange => exact (hsafe hne).elim
    | outOfFuel => exact (hsafe ⟨hreg, hfuel⟩).elim
    | capOutOfRange => exact hsafe.elim

/-- C13. Zone preserved: on every expression and from every instant, a result
of `Prev` that is not the zero instant carries the location of `fromTime`; and
`Prev` does return on a well-formed expression whose years lie where the count
of seconds does not wrap, from an instant of a location without zone
transitions. -/
theorem Prev_keeps_location (resolve : DayResolver) (e : Expression) (fromTime : Time)
    (fuel : Nat) :
    (∀ r e2, Prev resolve fuel e fromTime = .ok (r, e2) → ¬ r.IsZero →
      r.loc = fromTime.loc) ∧
    (WellFormed e → YearsInRange e → fromTime.loc.tx = [] → prevFuel e ≤ fuel →
      ∃ r e2, Prev resolve fuel e fromTime = .ok (r, e2)) := by
  constructor
  · intro r e2 hrun hrz
    have hsafe := Prev_safe resolve e fuel e.actualDaysOfMonthList fromTime
    have hrw : Prev resolve fuel (e.withDays e.actualDaysOfMonthList) fromTime
        = Prev resolve fuel e fromTime := rfl
    rw [hrw, hrun] at hsafe
    rcases hsafe.2 with h | h
    · exact (hrz h).elim
    · exact h
  · intro hwf hyr hfix hfuel
    exact Prev_returns resolve e fromTime fuel hwf.nonEmpty ⟨hwf.inDomain, hyr, hfix⟩ hfuel

/-- The hypotheses of `Prev_keeps_location` hold for the schedule "every day
at 02:30:00 in 2024" and the instant 2024-03-11 01:00:00 of
`America/New_York`, where the result is in another zone of the same location;
and for the schedule "every day at 09:30:00 in 2023 to 2025" and the instant
2024-03-10 12:00:00 in a fixed zone one hour east of UTC. -/
theorem Prev_keeps_location_witness :
    (Prev specResolver (prevFuel nightly) nightly ⟨2024, 3, 11, 1, 0, 0, 0, newYork, -14400⟩
        = .ok (⟨2024, 3, 10, 1, 30, 0, 0, newYork, -18000⟩,
            nightly.withDays (monthDays 2024 3)) ∧
      ¬ (⟨2024, 3, 10, 1, 30, 0, 0, newYork, -18000⟩ : Time).IsZero ∧
      (⟨2024, 3, 10, 1, 30, 0, 0, newYork, -18000⟩ : Time).loc
        = (⟨2024, 3, 11, 1, 0, 0, 0, newYork, -14400⟩ : Time).loc) ∧
    (WellFormed everyMorning ∧ YearsInRange everyMorning ∧
      (⟨"CET", 3600, []⟩ : Location).tx = [] ∧
      ∃ r e2, Prev specResolver (prevFuel everyMorning) everyMorning
        ⟨2024, 3, 10, 12, 0, 0, 0, ⟨"CET", 3600, []⟩, 3600⟩ = .ok (r, e2)) :=
  ⟨⟨by rfl, by decide,
    (Prev_keeps_location specResolver nightly ⟨2024, 3, 11, 1, 0, 0, 0, newYork, -14400⟩
      (prevFuel nightly)).1 _ _ (by rfl) (by decide)⟩,
   ⟨everyMorning_wf, years_everyMorning, rfl,
    (Prev_keeps_location specResolver everyMorning
      ⟨2024, 3, 10, 12, 0, 0, 0, ⟨"CET", 3600, []⟩, 3600⟩ (prevFuel everyMorning)).2
      everyMorning_wf years_everyMorning rfl (le_refl _)⟩⟩

/-! ## Runs of the backward search that never end -/

/-- One step of `prevMonth` into a listed month without a resolved day. -/
theorem prevMonth_step_empty (resolve : DayResolver) (e : Expression) (fuel : Nat) (t : Time)
    (i mo lh lmi ls : Int) (h1 : findTargetOrLower e.monthList (t.month - 1) = .ok i)
    (hi : i ≠ -1) (h2 : index e.monthList i = .ok mo) (h3 : resolve e t.year mo = [])
    (h4 : lastOf e.hourList = .ok lh) (h5 : lastOf e.minuteList = .ok lmi)
    (h6 : lastOf e.secondList = .ok ls) :
    prevMonth resolve (fuel + 1) e t
      = prevMonth resolve fuel (e.withDays [])
          (Date t.year mo (lastDayOfMonth t.year mo t.loc) lh lmi ls 0 t.loc) := by
  rw [prevMonth]
  simp only [bind, Except.bind, h1, hi, if_false, h2, h3, List.length_nil, if_true, h4, h5, h6]
  rfl

/-- One step of `prevMonth` below the first listed month. -/
theorem prevMonth_step_up (resolve : DayResolver) (e : Expression) (fuel : Nat) (t : Time)
    (h1 : findTargetOrLower e.monthList (t.month - 1) = .ok (-1)) :
    prevMonth resolve (fuel + 1) e t = prevYear resolve fuel e t := by
  rw [prevMonth]
  simp only [bind, Except.bind, h1, if_true]

/-- One step of `prevYear` into a listed year whose last listed month has no
resolved day. -/
theorem prevYear_step_empty (resolve : DayResolver) (e : Expression) (fuel : Nat) (t : Time)
    (i y lm lh lmi ls : Int) (h1 : findTargetOrLower e.yearList (t.year - 1) = .ok i)
    (hi : i ≠ -1) (h2 : index e.yearList i = .ok y) (h0 : lastOf e.monthList = .ok lm)
    (h3 : resolve e y lm = [])
    (h4 : lastOf e.hourList = .ok lh) (h5 : lastOf e.minuteList = .ok lmi)
    (h6 : lastOf e.secondList = .ok ls) :
    prevYear resolve (fuel + 1) e t
      = prevMonth resolve fuel (e.withDays [])
          (Date y lm (lastDayOfMonth y lm t.loc) lh lmi ls 0 t.loc) := by
  rw [prevYear]
  simp only [bind, Except.bind, h1, hi, if_false, h2, h0, h3, List.length_nil, if_true, h4,
    h5, h6]
  rfl

/-- The step of `Prev` from an instant whose year is listed and whose month is
not, and lies above the first listed month. -/
theorem Prev_enter_month (resolve : DayResolver) (e : Expression) (fuel : Nat) (t : Time)
    (hnz : ¬ t.IsZero)
    (h1 : frontDiffers e.yearList (SearchInts e.yearList t.year) t.year = .ok false)
    (h2 : absentAt e.yearList (SearchInts e.yearList t.year) t.year = .ok false)
    (h3 : frontDiffers e.monthList (SearchInts e.monthList t.month) t.month = .ok false)
    (h4 : absentAt e.monthList (SearchInts e.monthList t.month) t.month = .ok true) :
    Prev resolve fuel e t = prevMonth resolve fuel e t := by
  unfold Prev
  simp only [bind, Except.bind, pure, Except.pure, hnz, if_false, h1, h2, h3, h4,
    Bool.false_eq_true, if_true]

/-- The step of `Prev` from an instant whose year is not listed and lies above
the first listed year. -/
theorem Prev_enter_year (resolve : DayResolver) (e : Expression) (fuel : Nat) (t : Time)
    (hnz : ¬ t.IsZero)
    (h1 : frontDiffers e.yearList (SearchInts e.yearList t.year) t.year = .ok false)
    (h2 : absentAt e.yearList (SearchInts e.yearList t.year) t.year = .ok true) :
    Prev resolve fuel e t = prevYear resolve fuel e t := by
  unfold Prev
  simp only [bind, Except.bind, pure, Except.pure, hnz, if_false, h1, h2, Bool.false_eq_true,
    if_true]

theorem hour24_step (fuel : Nat) (l : List Int) :
    prevMonth specResolver (fuel + 1) (hour24.withDays l) ⟨2023, 12, 1, 0, 0, 0, 0, UTC, 0⟩
      = prevMonth specResolver fuel (hour24.withDays []) ⟨2023, 12, 1, 0, 0, 0, 0, UTC, 0⟩ :=
  prevMonth_step_empty specResolver (hour24.withDays l) fuel ⟨2023, 12, 1, 0, 0, 0, 0, UTC, 0⟩
    0 11 24 0 0 (by rw [withDays_monthList]; rfl) (by decide)
    (by rw [withDays_monthList]; rfl) (by rfl) (by rw [withDays_hourList]; rfl)
    (by rw [withDays_minuteList]; rfl) (by rw [withDays_secondList]; rfl)

theorem hour24_loop (fuel : Nat) : ∀ l,
    prevMonth specResolver fuel (hour24.withDays l) ⟨2023, 12, 1, 0, 0, 0, 0, UTC, 0⟩
      = .error .outOfFuel := by
  induction fuel with
  | zero => intro l; rw [prevMonth]
  | succ n ih => intro l; rw [hour24_step]; exact ih _

/-- With the hour 24 on the 31st of November 2023, `Prev` from 2023-12-01
00:00:00 UTC never returns: `prevMonth` finds November without a resolved day
and calls itself on `time.Date(2023, 11, 30, 24, 0, 0, 0, UTC)`, which is
2023-12-01 00:00:00 again. -/
theorem hour24_never (fuel : Nat) :
    Prev specResolver fuel hour24 ⟨2023, 12, 1, 0, 0, 0, 0, UTC, 0⟩ = .error .outOfFuel := by
  rw [Prev_enter_month specResolver hour24 fuel ⟨2023, 12, 1, 0, 0, 0, 0, UTC, 0⟩ (by decide)
    (by rfl) (by rfl) (by rfl) (by rfl)]
  exact hour24_loop fuel hour24.actualDaysOfMonthList

set_option maxRecDepth 8192 in
theorem lateShift_step (fuel : Nat) (l : List Int) :
    prevMonth specResolver (fuel + 1) (novemberEnd.withDays l)
        ⟨2023, 12, 1, 1, 59, 59, 0, lateShift, 7200⟩
      = prevMonth specResolver fuel (novemberEnd.withDays [])
        ⟨2023, 12, 1, 1, 59, 59, 0, lateShift, 7200⟩ :=
  prevMonth_step_empty specResolver (novemberEnd.withDays l) fuel
    ⟨2023, 12, 1, 1, 59, 59, 0, lateShift, 7200⟩
    0 11 23 59 59 (by rw [withDays_monthList]; rfl) (by decide)
    (by rw [withDays_monthList]; rfl) (by rfl) (by rw [withDays_hourList]; rfl)
    (by rw [withDays_minuteList]; rfl) (by rw [withDays_secondList]; rfl)

theorem lateShift_loop (fuel : Nat) : ∀ l,
    prevMonth specResolver fuel (novemberEnd.withDays l)
        ⟨2023, 12, 1, 1, 59, 59, 0, lateShift, 7200⟩
      = .error .outOfFuel := by
  induction fuel with
  | zero => intro l; rw [prevMonth]
  | succ n ih => intro l; rw [lateShift_step]; exact ih _

/-- Across a zone transition, on "23:59:59 on the 31st of November 2023" in a
location that moves the clock from 22:00 to 24:00 on November 30, `Prev` from
2023-12-01 01:59:59 never returns: `prevMonth` finds November without a
resolved day and calls itself on `time.Date(2023, 11, 30, 23, 59, 59, 0, loc)`,
a civil time the transition skips, which is 2023-12-01 01:59:59 again. -/
theorem lateShift_never (fuel : Nat) :
    Prev specResolver fuel novemberEnd ⟨2023, 12, 1, 1, 59, 59, 0, lateShift, 7200⟩
      = .error .outOfFuel := by
  rw [Prev_enter_month specResolver novemberEnd fuel
    ⟨2023, 12, 1, 1, 59, 59, 0, lateShift, 7200⟩ (by decide) (by rfl) (by rfl) (by rfl)
    (by rfl)]
  exact lateShift_loop fuel novemberEnd.actualDaysOfMonthList

theorem farPast_step_year (fuel : Nat) (l : List Int) (t : Time) (ht : t.loc = UTC)
    (hy : t.year = 2024 ∨ t.year = 284554049254) :
    prevYear specResolver (fuel + 1) (farPastNovember.withDays l) t
      = prevMonth specResolver fuel (farPastNovember.withDays [])
        ⟨284554049254, 9, 16, 7, 0, 16, 0, UTC, 0⟩ := by
  have h := prevYear_step_empty specResolver (farPastNovember.withDays l) fuel t
    0 (-300000000000) 11 0 0 0
    (by rw [withDays_yearList]; rcases hy with h | h <;> rw [h] <;> rfl) (by decide)
    (by rw [withDays_yearList]; rfl) (by rw [withDays_monthList]; rfl) (by rfl)
    (by rw [withDays_hourList]; rfl) (by rw [withDays_minuteList]; rfl)
    (by rw [withDays_secondList]; rfl)
  rw [h, ht]
  rfl

theorem farPast_step_month (fuel : Nat) (l : List Int) :
    prevMonth specResolver (fuel + 1) (farPastNovember.withDays l)
        ⟨284554049254, 9, 16, 7, 0, 16, 0, UTC, 0⟩
      = prevYear specResolver fuel (farPastNovember.withDays l)
        ⟨284554049254, 9, 16, 7, 0, 16, 0, UTC, 0⟩ :=
  prevMonth_step_up specResolver (farPastNovember.withDays l) fuel _
    (by rw [withDays_monthList]; rfl)

theorem farPast_loop (fuel : Nat) : ∀ l,
    prevMonth specResolver fuel (farPastNovember.withDays l)
        ⟨284554049254, 9, 16, 7, 0, 16, 0, UTC, 0⟩ = .error .outOfFuel ∧
    prevYear specResolver fuel (farPastNovember.withDays l)
        ⟨284554049254, 9, 16, 7, 0, 16, 0, UTC, 0⟩ = .error .outOfFuel := by
  induction fuel with
  | zero => intro l; exact ⟨by rw [prevMonth], by rw [prevYear]⟩
  | succ n ih =>
    intro l
    refine ⟨?_, ?_⟩
    · rw [farPast_step_month]; exact (ih _).2
    · rw [farPast_step_year n l _ rfl (Or.inr rfl)]; exact (ih _).1

/-- With the listed year -300000000000, on "midnight of the 31st of November",
`Prev` from 2024-01-01 00:00:00 UTC never returns: `prevYear` finds November
without a resolved day and calls `prevMonth` on a `time.Date` of that year,
whose count of seconds wraps around to September of the year 284554049254;
from there `prevMonth` calls `prevYear`, which finds the same listed year
again. -/
theorem farPast_never (fuel : Nat) :
    Prev specResolver fuel farPastNovember ⟨2024, 1, 1, 0, 0, 0, 0, UTC, 0⟩
      = .error .outOfFuel := by
  rw [Prev_enter_year specResolver farPastNovember fuel ⟨2024, 1, 1, 0, 0, 0, 0, UTC, 0⟩
    (by decide) (by rfl) (by rfl)]
  cases fuel with
  | zero => rw [prevYear]
  | succ n =>
    have h := farPast_step_year n farPastNovember.actualDaysOfMonthList
      ⟨2024, 1, 1, 0, 0, 0, 0, UTC, 0⟩ rfl (Or.inl rfl)
    have hrw : farPastNovember.withDays farPastNovember.actualDaysOfMonthList
        = farPastNovember := rfl
    rw [hrw] at h
    rw [h]
    exact (farPast_loop n _).1

theorem novemberEnd_nonEmpty : NonEmpty novemberEnd :=
  ⟨by decide, by decide, by decide, by decide, by decide⟩

theorem hour24_nonEmpty : NonEmpty hour24 :=
  ⟨by decide, by decide, by decide, by decide, by decide⟩

theorem farPastNovember_nonEmpty : NonEmpty farPastNovember :=
  ⟨by decide, by decide, by decide, by decide, by decide⟩

/-- C15, as amended. Termination of the backward search: on an expression
whose values lie in their domains (months 1..12, hours 0..23, minutes and
seconds 0..59) and whose years lie where the count of seconds does not wrap,
for instants of a location without zone transitions, `prevYear` and
`prevMonth` do not run out of fuel when the fuel exceeds the number of (year,
month) pairs of the schedule below the instant, each recursive call examining
a smaller pair; so `Prev` with fuel `prevFuel`, one unit per pair of the year
x month domain, ends for every such instant: it returns or stops at an index
out of range, and it returns when the lists are non-empty. -/
theorem Prev_terminates (resolve : DayResolver) (e : Expression) (fromTime : Time)
    (fuel : Nat) (hdom : InDomain e) (hyr : YearsInRange e) :
    (∀ l t, t.loc.tx = [] → countBelow e.yearList t.year * (e.monthList.length + 2) < fuel →
      prevYear resolve fuel (e.withDays l) t ≠ .error .outOfFuel) ∧
    (∀ l t, t.loc.tx = [] → t.year ∈ e.yearList →
      countBelow e.yearList t.year * (e.monthList.length + 2)
        + countBelow e.monthList t.month + 1 < fuel →
      prevMonth resolve fuel (e.withDays l) t ≠ .error .outOfFuel) ∧
    (fromTime.loc.tx = [] → prevFuel e ≤ fuel →
      Prev resolve fuel e fromTime ≠ .error .outOfFuel ∧
      (NonEmpty e → ∃ r e2, Prev resolve fuel e fromTime = .ok (r, e2))) := by
  refine ⟨?_, ?_, ?_⟩
  · intro l t hfix hf heq
    have := (prevYearMonth_safe resolve e fuel).1 l t
    rw [heq] at this
    exact this ⟨⟨hdom, hyr, hfix⟩, hf⟩
  · intro l t hfix hmem hf heq
    have := (prevYearMonth_safe resolve e fuel).2 l t
    rw [heq] at this
    exact this ⟨⟨hdom, hyr, hfix⟩, hmem, hf⟩
  · intro hfix hf
    refine ⟨?_, fun hne => Prev_returns resolve e fromTime fuel hne ⟨hdom, hyr, hfix⟩ hf⟩
    intro heq
    have := Prev_safe resolve e fuel e.actualDaysOfMonthList fromTime
    have heq2 : Prev resolve fuel (e.withDays e.actualDaysOfMonthList) fromTime
        = .error .outOfFuel := heq
    rw [heq2] at this
    exact this ⟨⟨hdom, hyr, hfix⟩, hf⟩

/-- The hypotheses of `Prev_terminates` hold for the schedule "midnight of
February 29 in 2020 and 2023", on which the search from 2024-01-01 walks back
over both years. -/
theorem Prev_terminates_witness :
    InDomain leapDay ∧ YearsInRange leapDay ∧ UTC.tx = [] ∧ prevFuel leapDay ≤ 9 ∧
    NonEmpty leapDay ∧
    Prev specResolver 9 leapDay ⟨2024, 1, 1, 0, 0, 0, 0, UTC, 0⟩ ≠ .error .outOfFuel ∧
    ∃ r e2, Prev specResolver 9 leapDay ⟨2024, 1, 1, 0, 0, 0, 0, UTC, 0⟩ = .ok (r, e2) :=
  ⟨leapDay_wf.inDomain, years_leapDay, rfl, by decide, leapDay_wf.nonEmpty,
    ((Prev_terminates specResolver leapDay ⟨2024, 1, 1, 0, 0, 0, 0, UTC, 0⟩ 9
      leapDay_wf.inDomain years_leapDay).2.2 rfl (by decide)).1,
    ((Prev_terminates specResolver leapDay ⟨2024, 1, 1, 0, 0, 0, 0, UTC, 0⟩ 9
      leapDay_wf.inDomain years_leapDay).2.2 rfl (by decide)).2 leapDay_wf.nonEmpty⟩

/-- C15, as stated, fails in three ways: on an expression with non-empty year
and month lists, `Prev` does not end, whatever the fuel.  With an hour outside
0..23 (hour 24 on the 31st of November 2023) from 2023-12-01 00:00:00 UTC:
`prevMonth` calls itself on `time.Date(2023, 11, 30, 24, 0, 0, 0, UTC)`, the
instant it was called on.  Across a zone transition, on "23:59:59 on the 31st
of November 2023" from 2023-12-01 01:59:59 in a location that moves the clock
from 22:00 to 24:00 on November 30.  With a listed year where the count of
seconds wraps (-300000000000) from 2024-01-01 00:00:00 UTC. -/
theorem Prev_terminates_counterexample :
    (hour24.yearList ≠ [] ∧ hour24.monthList ≠ [] ∧
      ¬ (⟨2023, 12, 1, 0, 0, 0, 0, UTC, 0⟩ : Time).IsZero ∧
      Date 2023 11 (lastDayOfMonth 2023 11 UTC) 24 0 0 0 UTC
        = ⟨2023, 12, 1, 0, 0, 0, 0, UTC, 0⟩ ∧
      ∀ fuel, Prev specResolver fuel hour24 ⟨2023, 12, 1, 0, 0, 0, 0, UTC, 0⟩
        = .error .outOfFuel) ∧
    (novemberEnd.yearList ≠ [] ∧ novemberEnd.monthList ≠ [] ∧ InDomain novemberEnd ∧
      YearsInRange novemberEnd ∧
      (⟨2023, 12, 1, 1, 59, 59, 0, lateShift, 7200⟩ : Time).InZone ∧
      ¬ (⟨2023, 12, 1, 1, 59, 59, 0, lateShift, 7200⟩ : Time).IsZero ∧
      Date 2023 11 (lastDayOfMonth 2023 11 lateShift) 23 59 59 0 lateShift
        = ⟨2023, 12, 1, 1, 59, 59, 0, lateShift, 7200⟩ ∧
      ∀ fuel, Prev specResolver fuel novemberEnd ⟨2023, 12, 1, 1, 59, 59, 0, lateShift, 7200⟩
        = .error .outOfFuel) ∧
    (farPastNovember.yearList ≠ [] ∧ farPastNovember.monthList ≠ [] ∧
      InDomain farPastNovember ∧
      ¬ (⟨2024, 1, 1, 0, 0, 0, 0, UTC, 0⟩ : Time).IsZero ∧
      ∀ fuel, Prev specResolver fuel farPastNovember ⟨2024, 1, 1, 0, 0, 0, 0, UTC, 0⟩
        = .error .outOfFuel) :=
  ⟨⟨by decide, by decide, by decide, by rfl, hour24_never⟩,
    ⟨by decide, by decide, novemberEnd_wf.inDomain, by unfold YearsInRange; decide, by decide,
      by decide, by rfl, lateShift_never⟩,
    ⟨by decide, by decide, farPastNovember_wf.inDomain, by decide, farPast_never⟩⟩

/-- C16, as amended. No out-of-range access in `Prev`: on an expression whose
year, month, hour, minute and second lists are non-empty, `Prev` never stops
at an index out of range, whatever the instant and the fuel, and neither do
`prevYear` and `prevMonth`; and with values in their domains, years where the
count of seconds does not wrap, an instant of a location without zone
transitions and fuel `prevFuel`, it returns an instant. -/
theorem Prev_no_index_error (resolve : DayResolver) (e : Expression) (fromTime : Time)
    (fuel : Nat) (hne : NonEmpty e) :
    Prev resolve fuel e fromTime ≠ .error .indexOutOfRange ∧
    (∀ l t, prevYear resolve fuel (e.withDays l) t ≠ .error .indexOutOfRange) ∧
    (∀ l t, prevMonth resolve fuel (e.withDays l) t ≠ .error .indexOutOfRange) ∧
    (InDomain e → YearsInRange e → fromTime.loc.tx = [] → prevFuel e ≤ fuel →
      ∃ r e2, Prev resolve fuel e fromTime = .ok (r, e2)) := by
  have hsafe := Prev_safe resolve e fuel e.actualDaysOfMonthList fromTime
  have hrw : Prev resolve fuel (e.withDays e.actualDaysOfMonthList) fromTime
      = Prev resolve fuel e fromTime := rfl
  rw [hrw] at hsafe
  refine ⟨?_, ?_, ?_, ?_⟩
  · intro heq
    rw [heq] at hsafe
    exact hsafe hne
  · intro l t heq
    have := (prevYearMonth_safe resolve e fuel).1 l t
    rw [heq] at this
    exact this hne
  · intro l t heq
    have := (prevYearMonth_safe resolve e fuel).2 l t
    rw [heq] at this
    exact this hne
  · intro hdom hyr hfix hf
    exact Prev_returns resolve e fromTime fuel hne ⟨hdom, hyr, hfix⟩ hf

/-- The hypotheses of `Prev_no_index_error` hold for the schedule "midnight of
February 29 in 2020 and 2023" and the instant 2024-01-01 00:00:00 UTC. -/
theorem Prev_no_index_error_witness :
    NonEmpty leapDay ∧ InDomain leapDay ∧ YearsInRange leapDay ∧ UTC.tx = [] ∧
    prevFuel leapDay ≤ 9 ∧
    Prev specResolver 9 leapDay ⟨2024, 1, 1, 0, 0, 0, 0, UTC, 0⟩ ≠ .error .indexOutOfRange ∧
    ∃ r e2, Prev specResolver 9 leapDay ⟨2024, 1, 1, 0, 0, 0, 0, UTC, 0⟩ = .ok (r, e2) :=
  ⟨leapDay_wf.nonEmpty, leapDay_wf.inDomain, years_leapDay, rfl, by decide,
    (Prev_no_index_error specResolver leapDay ⟨2024, 1, 1, 0, 0, 0, 0, UTC, 0⟩ 9
      leapDay_wf.nonEmpty).1,
    (Prev_no_index_error specResolver leapDay ⟨2024, 1, 1, 0, 0, 0, 0, UTC, 0⟩ 9
      leapDay_wf.nonEmpty).2.2.2 leapDay_wf.inDomain years_leapDay rfl (by decide)⟩

/-- C16, as stated, fails in three ways: the year, month, hour, minute and
second lists are non-empty, and `Prev` yields neither a match nor the no-match
instant, whatever the fuel: the run does not end.  With an hour outside 0..23
(hour 24 on the 31st of November 2023) from 2023-12-01 00:00:00 UTC.  Across a
zone transition, on "23:59:59 on the 31st of November 2023" from 2023-12-01
01:59:59 in a location that moves the clock from 22:00 to 24:00 on November
30.  With a listed year where the count of seconds wraps (-300000000000) from
2024-01-01 00:00:00 UTC. -/
theorem Prev_no_index_error_counterexample :
    (NonEmpty hour24 ∧ ¬ (⟨2023, 12, 1, 0, 0, 0, 0, UTC, 0⟩ : Time).IsZero ∧
      ∀ fuel r e2, Prev specResolver fuel hour24 ⟨2023, 12, 1, 0, 0, 0, 0, UTC, 0⟩
        ≠ .ok (r, e2)) ∧
    (NonEmpty novemberEnd ∧ InDomain novemberEnd ∧ YearsInRange novemberEnd ∧
      (⟨2023, 12, 1, 1, 59, 59, 0, lateShift, 7200⟩ : Time).InZone ∧
      ¬ (⟨2023, 12, 1, 1, 59, 59, 0, lateShift, 7200⟩ : Time).IsZero ∧
      ∀ fuel r e2,
        Prev specResolver fuel novemberEnd ⟨2023, 12, 1, 1, 59, 59, 0, lateShift, 7200⟩
          ≠ .ok (r, e2)) ∧
    (NonEmpty farPastNovember ∧ InDomain farPastNovember ∧
      ¬ (⟨2024, 1, 1, 0, 0, 0, 0, UTC, 0⟩ : Time).IsZero ∧
      ∀ fuel r e2, Prev specResolver fuel farPastNovember ⟨2024, 1, 1, 0, 0, 0, 0, UTC, 0⟩
        ≠ .ok (r, e2)) := by
  refine ⟨⟨hour24_nonEmpty, by decide, ?_⟩,
    ⟨novemberEnd_nonEmpty, novemberEnd_wf.inDomain, by unfold YearsInRange; decide, by decide,
      by decide, ?_⟩,
    ⟨farPastNovember_nonEmpty, farPastNovember_wf.inDomain, by decide, ?_⟩⟩
  · intro fuel r e2 h
    rw [hour24_never] at h
    cases h
  · intro fuel r e2 h
    rw [lateShift_never] at h
    cases h
  · intro fuel r e2 h
    rw [farPast_never] at h
    cases h

/-- C18. `Prev` does not depend on the day-list cache: with a day resolver
that does not read the cache, two expressions that agree on every field but
`actualDaysOfMonthList` get the same instant (or the same failure) from `Prev`
on the same `fromTime`. -/
theorem Prev_cache_independent (resolve : DayResolver) (e1 e2 : Expression) (fromTime : Time)
    (fuel : Nat) (hb : CacheBlind resolve)
    (hagree : e2 = e1.withDays e2.actualDaysOfMonthList) :
    (Prev resolve fuel e1 fromTime).map Prod.fst
      = (Prev resolve fuel e2 fromTime).map Prod.fst := by
  rw [hagree]
  exact Prev_blind resolve hb e1 fuel e1.actualDaysOfMonthList e2.actualDaysOfMonthList
    fromTime

theorem specResolver_blind : CacheBlind specResolver := fun _ _ _ _ => rfl

/-- The hypotheses of `Prev_cache_independent` hold for the schedule "every
day at 09:30:00 in 2023 to 2025" with an empty cache and with the stale cache
`[5, 6]`: from 2024-03-10 09:30:00, a path that reads the cache, both give
2024-03-09 09:30:00. -/
theorem Prev_cache_independent_witness :
    CacheBlind specResolver ∧
    everyMorning.withDays [5, 6]
      = everyMorning.withDays (everyMorning.withDays [5, 6]).actualDaysOfMonthList ∧
    (Prev specResolver (prevFuel everyMorning) everyMorning
        ⟨2024, 3, 10, 9, 30, 0, 0, UTC, 0⟩).map Prod.fst
      = (Prev specResolver (prevFuel everyMorning) (everyMorning.withDays [5, 6])
        ⟨2024, 3, 10, 9, 30, 0, 0, UTC, 0⟩).map Prod.fst ∧
    (Prev specResolver (prevFuel everyMorning) (everyMorning.withDays [5, 6])
        ⟨2024, 3, 10, 9, 30, 0, 0, UTC, 0⟩).map Prod.fst
      = .ok ⟨2024, 3, 9, 9, 30, 0, 0, UTC, 0⟩ :=
  ⟨specResolver_blind, rfl,
    Prev_cache_independent specResolver everyMorning (everyMorning.withDays [5, 6])
      ⟨2024, 3, 10, 9, 30, 0, 0, UTC, 0⟩ _ specResolver_blind rfl,
    by rfl⟩

/-- C19, as amended. Cache consistency on return: on a well-formed expression
(lists non-empty, strictly ascending, values in their domains) whose years lie
where the count of seconds does not wrap, `Prev` of a non-zero instant of a
location without zone transitions returns, and when the result `r` is not the
zero instant the day-list cache of the expression on return is the resolved
day list of the year and month of `r`, is non-empty and holds the day of
`r`. -/
theorem Prev_cache_consistent (resolve : DayResolver) (e : Expression) (fromTime : Time)
    (fuel : Nat) (hwf : WellFormed e) (hok : ResolverOK resolve e) (hyr : YearsInRange e)
    (hfix : fromTime.loc.tx = []) (hnz : ¬ fromTime.IsZero) (hfuel : prevFuel e ≤ fuel) :
    ∃ r e2, Prev resolve fuel e fromTime = .ok (r, e2) ∧
      (¬ r.IsZero →
        e2.actualDaysOfMonthList = resolve e2 r.year r.month ∧
        e2.actualDaysOfMonthList = resolve e r.year r.month ∧
        e2.actualDaysOfMonthList ≠ [] ∧ r.day ∈ e2.actualDaysOfMonthList) := by
  obtain ⟨r, l2, hrun, hlat⟩ :=
    Prev_spec hwf hok hyr fuel hfuel e.actualDaysOfMonthList fromTime hfix hnz
  refine ⟨r, e.withDays l2, hrun, ?_⟩
  intro hrz
  rcases hlat with ⟨rfl, _⟩ | ⟨hm, _, _, _, hl2, _⟩
  · exact (hrz Time.zero_isZero).elim
  · have hday : r.day ∈ l2 := hl2 ▸ hm.day
    refine ⟨?_, hl2, List.ne_nil_of_mem hday, hday⟩
    rw [hok.frame]
    exact hl2

/-- The hypotheses of `Prev_cache_consistent` hold for the schedule "midnight
of February 29 in 2020 and 2023" and the instant 2024-01-01 00:00:00 UTC. -/
theorem Prev_cache_consistent_witness :
    WellFormed leapDay ∧ ResolverOK specResolver leapDay ∧ YearsInRange leapDay ∧
    UTC.tx = [] ∧ ¬ (⟨2024, 1, 1, 0, 0, 0, 0, UTC, 0⟩ : Time).IsZero ∧
    ∃ r e2, Prev specResolver (prevFuel leapDay) leapDay ⟨2024, 1, 1, 0, 0, 0, 0, UTC, 0⟩
        = .ok (r, e2) ∧
      (¬ r.IsZero →
        e2.actualDaysOfMonthList = specResolver e2 r.year r.month ∧
        e2.actualDaysOfMonthList = specResolver leapDay r.year r.month ∧
        e2.actualDaysOfMonthList ≠ [] ∧ r.day ∈ e2.actualDaysOfMonthList) :=
  ⟨leapDay_wf, specResolver_ok _, years_leapDay, rfl, by decide,
    Prev_cache_consistent specResolver leapDay ⟨2024, 1, 1, 0, 0, 0, 0, UTC, 0⟩ _ leapDay_wf
      (specResolver_ok _) years_leapDay rfl (by decide) (le_refl _)⟩

/-- C19, as stated, fails in three ways: the day of the result is not in the
day-list cache on return.  Across a zone transition: on "2024-03-10 at
00:30:00" in `America/Havana`, where the clock moves from 00:00 to 01:00 on
that day, `Prev` from 2024-03-10 12:00:00 returns 2024-03-09 23:30:00 with the
cache `[10]`.  With an hour outside 0..23 (hour 47 on March 10, 2024): `Prev`
from 2024-03-12 12:00:00 UTC returns 2024-03-11 23:00:00 with the cache
`[10]`.  With a listed year where the count of seconds wraps (January 7 of
the year -300000000000): `Prev` from 2024-01-01 returns November 14 of the
year 284554049253 with the cache `[7]`. -/
theorem Prev_cache_consistent_counterexample :
    (WellFormed marchMidnight ∧ ResolverOK specResolver marchMidnight ∧
      (⟨2024, 3, 10, 12, 0, 0, 0, havana, -14400⟩ : Time).InZone ∧
      ¬ (⟨2024, 3, 10, 12, 0, 0, 0, havana, -14400⟩ : Time).IsZero ∧
      Prev specResolver (prevFuel marchMidnight) marchMidnight
          ⟨2024, 3, 10, 12, 0, 0, 0, havana, -14400⟩
        = .ok (⟨2024, 3, 9, 23, 30, 0, 0, havana, -18000⟩, marchMidnight.withDays [10]) ∧
      ¬ (⟨2024, 3, 9, 23, 30, 0, 0, havana, -18000⟩ : Time).IsZero ∧
      (⟨2024, 3, 9, 23, 30, 0, 0, havana, -18000⟩ : Time).day
        ∉ (marchMidnight.withDays [10]).actualDaysOfMonthList) ∧
    (Ascending hour47 ∧ ResolverOK specResolver hour47 ∧
      ¬ (⟨2024, 3, 12, 12, 0, 0, 0, UTC, 0⟩ : Time).IsZero ∧
      Prev specResolver (prevFuel hour47) hour47 ⟨2024, 3, 12, 12, 0, 0, 0, UTC, 0⟩
        = .ok (⟨2024, 3, 11, 23, 0, 0, 0, UTC, 0⟩, hour47.withDays [10]) ∧
      ¬ (⟨2024, 3, 11, 23, 0, 0, 0, UTC, 0⟩ : Time).IsZero ∧
      (⟨2024, 3, 11, 23, 0, 0, 0, UTC, 0⟩ : Time).day
        ∉ (hour47.withDays [10]).actualDaysOfMonthList) ∧
    (WellFormed farPastSeventh ∧ ResolverOK specResolver farPastSeventh ∧
      ¬ (⟨2024, 1, 1, 0, 0, 0, 0, UTC, 0⟩ : Time).IsZero ∧
      Prev specResolver (prevFuel farPastSeventh) farPastSeventh
          ⟨2024, 1, 1, 0, 0, 0, 0, UTC, 0⟩
        = .ok (⟨284554049253, 11, 14, 7, 0, 16, 0, UTC, 0⟩, farPastSeventh.withDays [7]) ∧
      ¬ (⟨284554049253, 11, 14, 7, 0, 16, 0, UTC, 0⟩ : Time).IsZero ∧
      (⟨284554049253, 11, 14, 7, 0, 16, 0, UTC, 0⟩ : Time).day
        ∉ (farPastSeventh.withDays [7]).actualDaysOfMonthList) :=
  ⟨⟨marchMidnight_wf, specResolver_ok _, by decide, by decide, by rfl, by decide, by decide⟩,
    ⟨hour47_ascending, specResolver_ok _, by decide, by rfl, by decide, by decide⟩,
    ⟨farPastSeventh_wf, specResolver_ok _, by decide, by rfl, by decide, by decide⟩⟩

theorem getD_strict {a : List Int} (h : a.Pairwise (· < ·)) {i j : Nat} (hij : i < j)
    (hj : j < a.length) : a.getD i 0 < a.getD j 0 := by
  have hi : i < a.length := by omega
  rw [List.getD_eq_getElem _ _ hi, List.getD_eq_getElem _ _ hj]
  exact List.pairwise_iff_getElem.mp h i j hi hj hij

/-- C20, as amended. `findTargetOrLower` on a non-empty strictly ascending
slice: it returns -1 if and only if every element is greater than the value;
otherwise it returns an index in range whose element is at most the value,
above which every element is greater than the value, and which is the index
of the value when the value is present. -/
theorem findTargetOrLower_strict (a : List Int) (v : Int) (hne : a ≠ [])
    (hs : a.Pairwise (· < ·)) :
    (findTargetOrLower a v = .ok (-1) ↔ ∀ x ∈ a, v < x) ∧
    (¬ (∀ x ∈ a, v < x) → ∃ i : Nat, i < a.length ∧
      findTargetOrLower a v = .ok (i : Int) ∧ index a i = .ok (a.getD i 0) ∧
      a.getD i 0 ≤ v ∧ (∀ j, i < j → j < a.length → v < a.getD j 0) ∧
      (v ∈ a → a.getD i 0 = v)) := by
  rcases findTargetOrLower_spec a v hne (asc_of_strict hs) with
    ⟨hf, hall⟩ | ⟨i, hi, hf, hle, hmax⟩
  · exact ⟨⟨fun _ => hall, fun _ => hf⟩, fun h => (h hall).elim⟩
  · have hnot : ¬ ∀ x ∈ a, v < x := by
      intro h
      have := h _ (getD_mem a i hi)
      omega
    refine ⟨⟨?_, fun h => (hnot h).elim⟩, fun _ => ⟨i, hi, hf, index_natCast a i hi, hle, ?_, ?_⟩⟩
    · intro h
      rw [hf] at h
      injection h with h
      omega
    · intro j hij hj
      by_contra hc
      have h1 := hmax _ (getD_mem a j hj) (by omega)
      have h2 := getD_strict hs hij hj
      omega
    · intro hv
      have := hmax v hv (le_refl _)
      omega

/-- The hypotheses of `findTargetOrLower_strict` hold for the slice `[1, 3, 5]`
and the value 4: the index returned is 1. -/
theorem findTargetOrLower_strict_witness :
    ([1, 3, 5] : List Int) ≠ [] ∧ ([1, 3, 5] : List Int).Pairwise (· < ·) ∧
    ¬ (∀ x ∈ ([1, 3, 5] : List Int), 4 < x) ∧
    findTargetOrLower [1, 3, 5] 4 = .ok 1 ∧
    (findTargetOrLower [1, 3, 5] 4 = .ok (-1) ↔ ∀ x ∈ ([1, 3, 5] : List Int), 4 < x) ∧
    ∃ i : Nat, i < ([1, 3, 5] : List Int).length ∧
      findTargetOrLower [1, 3, 5] 4 = .ok (i : Int) ∧
      index [1, 3, 5] i = .ok (([1, 3, 5] : List Int).getD i 0) ∧
      ([1, 3, 5] : List Int).getD i 0 ≤ 4 ∧
      (∀ j, i < j → j < ([1, 3, 5] : List Int).length → 4 < ([1, 3, 5] : List Int).getD j 0) ∧
      ((4 : Int) ∈ ([1, 3, 5] : List Int) → ([1, 3, 5] : List Int).getD i 0 = 4) :=
  ⟨by decide, by decide, by decide, rfl,
    (findTargetOrLower_strict [1, 3, 5] 4 (by decide) (by decide)).1,
    (findTargetOrLower_strict [1, 3, 5] 4 (by decide) (by decide)).2 (by decide)⟩

/-- C20, as stated, fails: the slice `[1, 3, 3]` is non-empty and ascending,
`findTargetOrLower` returns the index 1 for the value 3, and the element at
index 2, above it, is 3: not greater than the value. -/
theorem findTargetOrLower_strict_counterexample :
    ([1, 3, 3] : List Int) ≠ [] ∧ ([1, 3, 3] : List Int).Pairwise (· ≤ ·) ∧
    findTargetOrLower [1, 3, 3] 3 = .ok 1 ∧
    index [1, 3, 3] 2 = .ok 3 ∧
    ¬ (∀ j : Nat, 1 < j → j < ([1, 3, 3] : List Int).length →
        3 < ([1, 3, 3] : List Int).getD j 0) := by
  refine ⟨by decide, by decide, rfl, rfl, ?_⟩
  intro h
  have := h 2 (by decide) (by decide)
  revert this
  decide

/-! ## The forward entry points -/

theorem index_search (a : List Int) (v : Int) (h : SearchInts a v ≠ a.length) :
    index a (SearchInts a v) = .ok (a.getD (SearchInts a v) 0) :=
  index_natCast a _ (lt_of_le_of_ne (SearchInts_le a v) h)

/-- Every path through `Next`: it returns `fromTime` (when it is zero) or
`time.Time{}` with the expression untouched, or it ends in a call of one
forward helper on the expression with some day-list cache.  What holds of
these three outcomes holds of `Next`. -/
theorem Next_elim (resolve : DayResolver) (helpers : NextHelpers) (e : Expression)
    (t : Time) (P : Query → Prop) (hzero : t.IsZero → P (.ok (t, e)))
    (hnone : P (.ok (Time.zero, e)))
    (hcall : ∀ h, (h = helpers.nextYear ∨ h = helpers.nextMonth ∨
        h = helpers.nextDayOfMonth ∨ h = helpers.nextHour ∨ h = helpers.nextMinute ∨
        h = helpers.nextSecond) → ∀ l, P (h (e.withDays l) t)) :
    P (Next resolve helpers e t) := by
  have cY := hcall _ (Or.inl rfl)
  have cM := hcall _ (Or.inr (Or.inl rfl))
  have cD := hcall _ (Or.inr (Or.inr (Or.inl rfl)))
  have cH := hcall _ (Or.inr (Or.inr (Or.inr (Or.inl rfl))))
  have cMi := hcall _ (Or.inr (Or.inr (Or.inr (Or.inr (Or.inl rfl)))))
  have cS := hcall _ (Or.inr (Or.inr (Or.inr (Or.inr (Or.inr rfl)))))
  unfold Next
  simp only [bind, Except.bind, pure, Except.pure]
  by_cases hz : t.IsZero
  · rw [if_pos hz]
    exact hzero hz
  rw [if_neg hz]
  -- year
  by_cases h1 : SearchInts e.yearList t.year = e.yearList.length
  · rw [if_pos h1]
    exact hnone
  rw [if_neg h1, index_search _ _ h1]
  simp only []
  by_cases g1 : t.year = e.yearList.getD (SearchInts e.yearList t.year) 0
  swap
  · rw [if_pos g1]
    exact cY e.actualDaysOfMonthList
  rw [if_neg (not_not.mpr g1)]
  -- month
  by_cases h2 : SearchInts e.monthList t.month = e.monthList.length
  · rw [if_pos h2]
    exact cY e.actualDaysOfMonthList
  rw [if_neg h2, index_search _ _ h2]
  simp only []
  by_cases g2 : t.month = e.monthList.getD (SearchInts e.monthList t.month) 0
  swap
  · rw [if_pos g2]
    exact cM e.actualDaysOfMonthList
  rw [if_neg (not_not.mpr g2)]
  by_cases h0 : (resolve e t.year t.month).length = 0
  · rw [if_pos h0]
    exact cM _
  rw [if_neg h0]
  -- day of month
  by_cases h3 : SearchInts (resolve e t.year t.month) t.day = (resolve e t.year t.month).length
  · rw [if_pos h3]
    exact cM _
  rw [if_neg h3, index_search _ _ h3]
  simp only []
  by_cases g3 : t.day
      = (resolve e t.year t.month).getD (SearchInts (resolve e t.year t.month) t.day) 0
  swap
  · rw [if_pos g3]
    exact cD _
  rw [if_neg (not_not.mpr g3)]
  -- hour
  by_cases h4 : SearchInts e.hourList t.hour = e.hourList.length
  · rw [if_pos h4]
    exact cD _
  rw [if_neg h4, index_search _ _ h4]
  simp only []
  by_cases g4 : t.hour = e.hourList.getD (SearchInts e.hourList t.hour) 0
  swap
  · rw [if_pos g4]
    exact cH _
  rw [if_neg (not_not.mpr g4)]
  -- minute
  by_cases h5 : SearchInts e.minuteList t.minute = e.minuteList.length
  · rw [if_pos h5]
    exact cH _
  rw [if_neg h5, index_search _ _ h5]
  simp only []
  by_cases g5 : t.minute = e.minuteList.getD (SearchInts e.minuteList t.minute) 0
  swap
  · rw [if_pos g5]
    exact cMi _
  rw [if_neg (not_not.mpr g5)]
  -- second
  by_cases h6 : SearchInts e.secondList t.second = e.secondList.length
  · rw [if_pos h6]
    exact cMi _
  rw [if_neg h6]
  exact cS _

theorem Next_keeps (resolve : DayResolver) (helpers : NextHelpers)
    (hk : HelpersKeepSchedule helpers) (e : Expression) (t r : Time) (e2 : Expression)
    (h : Next resolve helpers e t = .ok (r, e2)) : ∃ l2, e2 = e.withDays l2 := by
  revert h
  refine Next_elim resolve helpers e t
    (fun q => q = .ok (r, e2) → ∃ l2, e2 = e.withDays l2) ?_ ?_ ?_
  · intro _ h
    injection h with h
    injection h with _ h
    exact ⟨e.actualDaysOfMonthList, h.symm⟩
  · intro h
    injection h with h
    injection h with _ h
    exact ⟨e.actualDaysOfMonthList, h.symm⟩
  · intro f hf l h
    obtain ⟨l2, h2⟩ := hk f hf _ _ _ _ h
    exact ⟨l2, h2⟩

/-- `Next` does not abort on its own: an error it gives is the error of the
forward helper it ends in. -/
theorem Next_error (resolve : DayResolver) (helpers : NextHelpers) (e : Expression)
    (t : Time) (err : Err) (h : Next resolve helpers e t = .error err) :
    ∃ f, (f = helpers.nextYear ∨ f = helpers.nextMonth ∨ f = helpers.nextDayOfMonth ∨
        f = helpers.nextHour ∨ f = helpers.nextMinute ∨ f = helpers.nextSecond) ∧
      ∃ ex, f ex t = .error err := by
  revert h
  refine Next_elim resolve helpers e t
    (fun q => q = .error err → ∃ f, (f = helpers.nextYear ∨ f = helpers.nextMonth ∨
        f = helpers.nextDayOfMonth ∨ f = helpers.nextHour ∨ f = helpers.nextMinute ∨
        f = helpers.nextSecond) ∧ ∃ ex, f ex t = .error err) ?_ ?_ ?_
  · intro _ h
    cases h
  · intro h
    cases h
  · intro f hf l h
    exact ⟨f, hf, _, h⟩

/-- The loop of `NextN`, entered with `n > 0` results to collect, the instant
`t` at hand and the results `acc` collected so far.  Either it returns `acc`
followed by at most `n` instants, none of them zero, fewer than `n` only when
`t` or the instant `nextSecond` gave for the last one collected is zero; or
it gives the error of a call of `nextSecond` on a collected instant.  `P` is
any property of the receiver that `nextSecond` preserves. -/
theorem nextNLoop_spec (helpers : NextHelpers) (P : Expression → Prop)
    (hP : ∀ e t r e2, P e → helpers.nextSecond e t = .ok (r, e2) → P e2) :
    ∀ n, 0 < n → ∀ expr t acc, P expr →
      (∃ ts e2, nextNLoop helpers n expr t acc = .ok (acc ++ ts, e2) ∧ ts.length ≤ n ∧
        (∀ x ∈ ts, ¬ x.IsZero) ∧
        (ts.length < n → (ts = [] ∧ t.IsZero) ∨
          ∃ last ex r e1, ts.getLast? = some last ∧ P ex ∧
            helpers.nextSecond ex last = .ok (r, e1) ∧ r.IsZero)) ∨
      (∃ err ex last, nextNLoop helpers n expr t acc = .error err ∧ P ex ∧ ¬ last.IsZero ∧
        helpers.nextSecond ex last = .error err) := by
  intro n
  induction n with
  | zero => intro h; omega
  | succ n ih =>
    intro _ expr t acc hPe
    unfold nextNLoop
    by_cases hz : t.IsZero
    · rw [if_pos hz]
      refine Or.inl ⟨[], expr, by rw [List.append_nil], Nat.zero_le _, ?_,
        fun _ => Or.inl ⟨rfl, hz⟩⟩
      intro x hx
      cases hx
    · simp only [hz, if_false]
      by_cases hn : n = 0
      · simp only [hn, if_true]
        refine Or.inl ⟨[t], expr, rfl, by simp, ?_, ?_⟩
        · intro x hx
          rw [List.mem_singleton] at hx
          rw [hx]
          exact hz
        · intro h
          simp at h
      · cases hs : helpers.nextSecond expr t with
        | error err =>
          simp only [hn, if_false, bind, Except.bind, hs]
          exact Or.inr ⟨err, expr, t, rfl, hPe, hz, hs⟩
        | ok p =>
          obtain ⟨r, e1⟩ := p
          simp only [hn, if_false, bind, Except.bind, hs]
          rcases ih (Nat.pos_of_ne_zero hn) e1 r (acc ++ [t]) (hP _ _ _ _ hPe hs) with
            ⟨ts, e2, hrun, hlen, hnz, hshort⟩ | ⟨err, ex, last, hrun, hPx, hlz, herr⟩
          · refine Or.inl ⟨t :: ts, e2, ?_, ?_, ?_, ?_⟩
            · rw [hrun, List.append_assoc]
              rfl
            · simp only [List.length_cons]
              omega
            · intro x hx
              rcases List.mem_cons.mp hx with hx | hx
              · rw [hx]
                exact hz
              · exact hnz x hx
            · intro h
              simp only [List.length_cons] at h
              refine Or.inr ?_
              rcases hshort (by omega) with ⟨hnil, hrz⟩ |
                ⟨last, ex, r2, e3, hl, hPx, hs2, hrz⟩
              · exact ⟨t, expr, r, e1, by rw [hnil]; rfl, hPe, hs, hrz⟩
              · refine ⟨last, ex, r2, e3, ?_, hPx, hs2, hrz⟩
                cases ts with
                | nil => cases hl
                | cons a tl => rw [List.getLast?_cons_cons]; exact hl
          · exact Or.inr ⟨err, ex, last, hrun, hPx, hlz, herr⟩

theorem idleHelpers_keep : HelpersKeepSchedule idleHelpers := by
  intro h hh e t r e2 heq
  have : h = fun e _ => .ok (Time.zero, e) := by
    rcases hh with rfl | rfl | rfl | rfl | rfl | rfl <;> rfl
  subst this
  injection heq with heq
  injection heq with _ heq
  exact ⟨e.actualDaysOfMonthList, heq.symm⟩

theorem tick_returns (e : Expression) (t : Time) : ∃ r e2, tick e t = .ok (r, e2) := by
  unfold tick
  simp only []
  split
  · split
    · exact ⟨_, _, rfl⟩
    · exact ⟨_, _, rfl⟩
  · exact ⟨_, _, rfl⟩

theorem tickHelpers_return : HelpersReturn tickHelpers := by
  intro h hh e t
  rcases hh with rfl | rfl | rfl | rfl | rfl | rfl <;> exact tick_returns e t

/-- C12, as amended. The schedule is read-only under queries but for the
day-list cache: whenever `Prev` returns, with any fuel, every field of the
expression other than `actualDaysOfMonthList` is as it was before the call;
and so it is when `Next` returns, given that the forward helpers it ends in
leave these fields alone. -/
theorem queries_keep_schedule (resolve : DayResolver) (helpers : NextHelpers)
    (e : Expression) (fromTime : Time) (fuel : Nat) :
    (∀ r e2, Prev resolve fuel e fromTime = .ok (r, e2) →
      e2 = e.withDays e2.actualDaysOfMonthList) ∧
    (HelpersKeepSchedule helpers → ∀ r e2, Next resolve helpers e fromTime = .ok (r, e2) →
      e2 = e.withDays e2.actualDaysOfMonthList) := by
  constructor
  · intro r e2 h
    have hsafe := Prev_safe resolve e fuel e.actualDaysOfMonthList fromTime
    have hrw : Prev resolve fuel (e.withDays e.actualDaysOfMonthList) fromTime
        = Prev resolve fuel e fromTime := rfl
    rw [hrw, h] at hsafe
    obtain ⟨⟨l2, hl2⟩, _⟩ := hsafe
    rw [hl2]
    rfl
  · intro hk r e2 h
    obtain ⟨l2, hl2⟩ := Next_keeps resolve helpers hk e fromTime r e2 h
    rw [hl2]
    rfl

/-- The hypotheses of `queries_keep_schedule` hold for the forward helpers of
the schedule "March 10, 2024 at 09:30:00" past its only match: `Prev` from
2024-03-10 12:00:00 returns the match, `Next` from the match returns the zero
instant, and both leave the resolved days of March 2024 in the cache. -/
theorem queries_keep_schedule_witness :
    HelpersKeepSchedule idleHelpers ∧
    Prev specResolver (prevFuel oneMorning) oneMorning ⟨2024, 3, 10, 12, 0, 0, 0, UTC, 0⟩
      = .ok (⟨2024, 3, 10, 9, 30, 0, 0, UTC, 0⟩, oneMorning.withDays [10]) ∧
    Next specResolver idleHelpers oneMorning ⟨2024, 3, 10, 9, 30, 0, 0, UTC, 0⟩
      = .ok (Time.zero, oneMorning.withDays [10]) ∧
    oneMorning.withDays [10]
      = oneMorning.withDays (oneMorning.withDays [10]).actualDaysOfMonthList ∧
    oneMorning.withDays [10]
      = oneMorning.withDays (oneMorning.withDays [10]).actualDaysOfMonthList :=
  ⟨idleHelpers_keep, by rfl, by rfl,
    (queries_keep_schedule specResolver idleHelpers oneMorning
      ⟨2024, 3, 10, 12, 0, 0, 0, UTC, 0⟩ (prevFuel oneMorning)).1 _ _ (by rfl),
    (queries_keep_schedule specResolver idleHelpers oneMorning
      ⟨2024, 3, 10, 9, 30, 0, 0, UTC, 0⟩ (prevFuel oneMorning)).2 idleHelpers_keep _ _
      (by rfl)⟩

/-- C12, as stated, fails: on the schedule "every day at 09:30:00 in 2023 to
2025", compiled with an empty day-list cache, `Prev` from 2024-03-10 12:00:00
returns 2024-03-10 09:30:00 and leaves the days 1..31 of March 2024 in the
field `actualDaysOfMonthList`. -/
theorem queries_keep_schedule_counterexample :
    Prev specResolver (prevFuel everyMorning) everyMorning ⟨2024, 3, 10, 12, 0, 0, 0, UTC, 0⟩
      = .ok (⟨2024, 3, 10, 9, 30, 0, 0, UTC, 0⟩, everyMorning.withDays (monthDays 2024 3)) ∧
    everyMorning.actualDaysOfMonthList = [] ∧
    (everyMorning.withDays (monthDays 2024 3)).actualDaysOfMonthList.length = 31 ∧
    everyMorning.withDays (monthDays 2024 3) ≠ everyMorning := by
  refine ⟨by rfl, rfl, by decide, ?_⟩
  intro h
  have := congrArg (fun x => x.actualDaysOfMonthList.length) h
  revert this
  decide

/-- C14, as amended. `NextN` size bound, for `n` up to the largest capacity
`make([]time.Time, 0, n)` accepts (beyond it `NextN` aborts in `make`).
`NextN` ends with a slice or with the error of a call of a forward helper, and
with a slice when the forward helpers return.  The slice holds at most `n`
instants, none of them zero, and is empty when `n = 0`; it holds fewer than
`n` only if it is empty and `Next` on `fromTime` gave the zero instant, or
`nextSecond` called on its last instant gave the zero instant (the receiver
of that call being the expression with some day-list cache, when the helpers
leave the other fields alone). -/
theorem NextN_bound (resolve : DayResolver) (helpers : NextHelpers) (e : Expression)
    (fromTime : Time) (n : Nat) (hcap : n ≤ maxSliceCap) :
    ((∃ ts e2, NextN resolve helpers e fromTime n = .ok (ts, e2) ∧ ts.length ≤ n ∧
        (∀ t ∈ ts, ¬ t.IsZero) ∧ (n = 0 → ts = []) ∧
        (ts.length < n →
          (ts = [] ∧ ∃ r e1, Next resolve helpers e fromTime = .ok (r, e1) ∧ r.IsZero) ∨
          ∃ last ex r e1, ts.getLast? = some last ∧
            (HelpersKeepSchedule helpers → ∃ l, ex = e.withDays l) ∧
            helpers.nextSecond ex last = .ok (r, e1) ∧ r.IsZero)) ∨
      (∃ err f ex t, NextN resolve helpers e fromTime n = .error err ∧
        (f = helpers.nextYear ∨ f = helpers.nextMonth ∨ f = helpers.nextDayOfMonth ∨
          f = helpers.nextHour ∨ f = helpers.nextMinute ∨ f = helpers.nextSecond) ∧
        f ex t = .error err)) ∧
    (HelpersReturn helpers → ∃ ts e2, NextN resolve helpers e fromTime n = .ok (ts, e2)) := by
  have hmain : (∃ ts e2, NextN resolve helpers e fromTime n = .ok (ts, e2) ∧ ts.length ≤ n ∧
        (∀ t ∈ ts, ¬ t.IsZero) ∧ (n = 0 → ts = []) ∧
        (ts.length < n →
          (ts = [] ∧ ∃ r e1, Next resolve helpers e fromTime = .ok (r, e1) ∧ r.IsZero) ∨
          ∃ last ex r e1, ts.getLast? = some last ∧
            (HelpersKeepSchedule helpers → ∃ l, ex = e.withDays l) ∧
            helpers.nextSecond ex last = .ok (r, e1) ∧ r.IsZero)) ∨
      (∃ err f ex t, NextN resolve helpers e fromTime n = .error err ∧
        (f = helpers.nextYear ∨ f = helpers.nextMonth ∨ f = helpers.nextDayOfMonth ∨
          f = helpers.nextHour ∨ f = helpers.nextMinute ∨ f = helpers.nextSecond) ∧
        f ex t = .error err) := by
    unfold NextN
    rw [if_neg (by omega)]
    by_cases hn : n > 0
    · cases h0 : Next resolve helpers e fromTime with
      | error err =>
        obtain ⟨f, hf, ex, hex⟩ := Next_error resolve helpers e fromTime err h0
        simp only [hn, if_true, bind, Except.bind]
        exact Or.inr ⟨err, f, ex, fromTime, rfl, hf, hex⟩
      | ok p =>
        obtain ⟨r0, e0⟩ := p
        simp only [hn, if_true, bind, Except.bind]
        rcases nextNLoop_spec helpers
            (fun x => HelpersKeepSchedule helpers → ∃ l, x = e.withDays l)
            (fun x t r x2 hx hs hk => by
              obtain ⟨l, hl⟩ := hx hk
              obtain ⟨l2, hl2⟩ :=
                hk _ (Or.inr (Or.inr (Or.inr (Or.inr (Or.inr rfl))))) _ _ _ _ hs
              exact ⟨l2, by rw [hl2, hl]; rfl⟩)
            n hn e0 r0 [] (fun hk => Next_keeps resolve helpers hk e fromTime r0 e0 h0) with
          ⟨ts, e2, hrun, hlen, hnz, hshort⟩ | ⟨err, ex, last, hrun, _, _, herr⟩
        · refine Or.inl ⟨ts, e2, ?_, hlen, hnz, fun h => by omega, ?_⟩
          · rw [hrun]
            rfl
          · intro h
            rcases hshort h with ⟨hnil, hz⟩ | hlast
            · exact Or.inl ⟨hnil, r0, e0, rfl, hz⟩
            · exact Or.inr hlast
        · exact Or.inr ⟨err, _, ex, last, hrun,
            Or.inr (Or.inr (Or.inr (Or.inr (Or.inr rfl)))), herr⟩
    · simp only [hn, if_false]
      refine Or.inl ⟨[], e, rfl, Nat.zero_le _, ?_, fun _ => rfl, ?_⟩
      · intro x hx
        cases hx
      · intro h
        simp only [List.length_nil] at h
        omega
  refine ⟨hmain, ?_⟩
  intro hret
  rcases hmain with ⟨ts, e2, hrun, _⟩ | ⟨err, f, ex, t, _, hf, herr⟩
  · exact ⟨ts, e2, hrun⟩
  · obtain ⟨r, e1, hok⟩ := hret f hf ex t
    rw [hok] at herr
    cases herr

/-- The hypotheses of `NextN_bound` hold for the forward helpers of the
schedule "every second of 2024": from 2024-12-31 23:59:57 UTC, `NextN` with
`n = 4` collects 23:59:58 and 23:59:59 and stops there, two short of `n`,
because `nextSecond` on 23:59:59 gives the zero instant. -/
theorem NextN_bound_witness :
    4 ≤ maxSliceCap ∧ HelpersReturn tickHelpers ∧
    NextN specResolver tickHelpers everySecond ⟨2024, 12, 31, 23, 59, 57, 0, UTC, 0⟩ 4
      = .ok ([⟨2024, 12, 31, 23, 59, 58, 0, UTC, 0⟩, ⟨2024, 12, 31, 23, 59, 59, 0, UTC, 0⟩],
          everySecond.withDays (monthDays 2024 12)) ∧
    tickHelpers.nextSecond (everySecond.withDays (monthDays 2024 12))
        ⟨2024, 12, 31, 23, 59, 59, 0, UTC, 0⟩
      = .ok (Time.zero, everySecond.withDays (monthDays 2024 12)) ∧
    ((∃ ts e2, NextN specResolver tickHelpers everySecond
          ⟨2024, 12, 31, 23, 59, 57, 0, UTC, 0⟩ 4 = .ok (ts, e2) ∧ ts.length ≤ 4 ∧
        (∀ t ∈ ts, ¬ t.IsZero) ∧ (4 = 0 → ts = []) ∧
        (ts.length < 4 →
          (ts = [] ∧ ∃ r e1, Next specResolver tickHelpers everySecond
              ⟨2024, 12, 31, 23, 59, 57, 0, UTC, 0⟩ = .ok (r, e1) ∧ r.IsZero) ∨
          ∃ last ex r e1, ts.getLast? = some last ∧
            (HelpersKeepSchedule tickHelpers → ∃ l, ex = everySecond.withDays l) ∧
            tickHelpers.nextSecond ex last = .ok (r, e1) ∧ r.IsZero)) ∨
      (∃ err f ex t, NextN specResolver tickHelpers everySecond
          ⟨2024, 12, 31, 23, 59, 57, 0, UTC, 0⟩ 4 = .error err ∧
        (f = tickHelpers.nextYear ∨ f = tickHelpers.nextMonth ∨
          f = tickHelpers.nextDayOfMonth ∨ f = tickHelpers.nextHour ∨
          f = tickHelpers.nextMinute ∨ f = tickHelpers.nextSecond) ∧
        f ex t = .error err)) ∧
    ∃ ts e2, NextN specResolver tickHelpers everySecond
      ⟨2024, 12, 31, 23, 59, 57, 0, UTC, 0⟩ 4 = .ok (ts, e2) :=
  ⟨by decide, tickHelpers_return, by rfl, by rfl,
    (NextN_bound specResolver tickHelpers everySecond ⟨2024, 12, 31, 23, 59, 57, 0, UTC, 0⟩ 4
      (by decide)).1,
    (NextN_bound specResolver tickHelpers everySecond ⟨2024, 12, 31, 23, 59, 57, 0, UTC, 0⟩ 4
      (by decide)).2 tickHelpers_return⟩

/-- C14, as stated, fails: `n` is a `uint`, and for `n = 11728124029611`, one
more than the largest capacity `make([]time.Time, 0, n)` accepts, `NextN`
aborts in `make` before it searches, whatever the schedule and the instant:
it returns no slice. -/
theorem NextN_bound_counterexample :
    11728124029611 < 2 ^ 64 ∧ maxSliceCap < 11728124029611 ∧
    NextN specResolver tickHelpers everySecond ⟨2024, 3, 10, 9, 29, 58, 0, UTC, 0⟩
      11728124029611 = .error .capOutOfRange ∧
    ∀ ts e2, NextN specResolver tickHelpers everySecond ⟨2024, 3, 10, 9, 29, 58, 0, UTC, 0⟩
      11728124029611 ≠ .ok (ts, e2) := by
  have h : NextN specResolver tickHelpers everySecond ⟨2024, 3, 10, 9, 29, 58, 0, UTC, 0⟩
      11728124029611 = .error .capOutOfRange := by
    unfold NextN
    rw [if_pos (by decide)]
  refine ⟨by decide, by decide, h, ?_⟩
  intro ts e2 h2
  rw [h] at h2
  cases h2

/-! ## The carry of the backward search -/

/-- C17, as amended. Carry resets finer levels to their maximum: on a
well-formed expression (lists non-empty, strictly ascending, values in their
domains) whose years lie where the count of seconds does not wrap, with a day
resolver that returns ascending lists of valid days, `Prev` of a non-zero
instant of a location without zone transitions returns, and when the result
`r` is a match, every level below the coarsest one at which `r` differs from
`fromTime` holds its maximum: the month is the largest listed month with a
non-empty resolved day list in the year of `r`, the day the last resolved day
of the month of `r`, and hour, minute and second the last elements of their
lists. -/
theorem Prev_carry (resolve : DayResolver) (e : Expression) (fromTime : Time) (fuel : Nat)
    (hwf : WellFormed e) (hok : ResolverOK resolve e) (hyr : YearsInRange e)
    (hfix : fromTime.loc.tx = []) (hnz : ¬ fromTime.IsZero) (hfuel : prevFuel e ≤ fuel) :
    ∃ r e2, Prev resolve fuel e fromTime = .ok (r, e2) ∧
      (¬ r.IsZero →
        (r.year ≠ fromTime.year →
          r.month ∈ e.monthList ∧ resolve e r.year r.month ≠ [] ∧
          ∀ m ∈ e.monthList, r.month < m → resolve e r.year m = []) ∧
        (r.year ≠ fromTime.year ∨ r.month ≠ fromTime.month →
          lastOf (resolve e r.year r.month) = .ok r.day) ∧
        (r.year ≠ fromTime.year ∨ r.month ≠ fromTime.month ∨ r.day ≠ fromTime.day →
          lastOf e.hourList = .ok r.hour) ∧
        (r.year ≠ fromTime.year ∨ r.month ≠ fromTime.month ∨ r.day ≠ fromTime.day ∨
            r.hour ≠ fromTime.hour →
          lastOf e.minuteList = .ok r.minute) ∧
        (r.year ≠ fromTime.year ∨ r.month ≠ fromTime.month ∨ r.day ≠ fromTime.day ∨
            r.hour ≠ fromTime.hour ∨ r.minute ≠ fromTime.minute →
          lastOf e.secondList = .ok r.second)) := by
  obtain ⟨r, l2, hrun, hlat⟩ :=
    Prev_spec hwf hok hyr fuel hfuel e.actualDaysOfMonthList fromTime hfix hnz
  refine ⟨r, e.withDays l2, hrun, ?_⟩
  intro hrz
  rcases hlat with ⟨rfl, _⟩ | ⟨hm, _, _, hlt, _, hmax⟩
  · exact (hrz Time.zero_isZero).elim
  unfold ltSecond at hlt
  refine ⟨?_, ?_, ?_, ?_, ?_⟩
  · intro hd
    refine ⟨hm.month, List.ne_nil_of_mem hm.day, ?_⟩
    intro m hmm hgt
    by_contra hne
    obtain ⟨d, hdm⟩ := List.exists_mem_of_ne_nil _ hne
    have hc : Matches resolve e ⟨r.year, m, d, r.hour, r.minute, r.second, 0, r.loc, r.zoneOffset⟩ :=
      ⟨hm.year, hmm, hdm, hm.hour, hm.minute, hm.second⟩
    have h1 := hmax _ hc (by unfold ltSecond; simp only; omega)
    unfold ltSecond at h1
    simp only [lt_self_iff_false, false_or, true_and] at h1
    omega
  · intro hd
    obtain ⟨D, hD, hDm, hDx⟩ :=
      lastOf_spec (resolve e r.year r.month) (List.ne_nil_of_mem hm.day) (hok.asc _ _)
    have hc : Matches resolve e ⟨r.year, r.month, D, r.hour, r.minute, r.second, 0, r.loc, r.zoneOffset⟩ :=
      ⟨hm.year, hm.month, hDm, hm.hour, hm.minute, hm.second⟩
    have h1 := hmax _ hc (by unfold ltSecond; simp only; omega)
    have h2 := hDx _ hm.day
    unfold ltSecond at h1
    simp only [lt_self_iff_false, false_or, true_and] at h1
    have : D = r.day := by omega
    rw [hD, this]
  · intro hd
    obtain ⟨H, hH, hHm, hHx⟩ :=
      lastOf_spec e.hourList hwf.hour_ne (asc_of_strict hwf.hour_asc)
    have hc : Matches resolve e ⟨r.year, r.month, r.day, H, r.minute, r.second, 0, r.loc, r.zoneOffset⟩ :=
      ⟨hm.year, hm.month, hm.day, hHm, hm.minute, hm.second⟩
    have h1 := hmax _ hc (by unfold ltSecond; simp only; omega)
    have h2 := hHx _ hm.hour
    unfold ltSecond at h1
    simp only [lt_self_iff_false, false_or, true_and] at h1
    have : H = r.hour := by omega
    rw [hH, this]
  · intro hd
    obtain ⟨M, hM, hMm, hMx⟩ :=
      lastOf_spec e.minuteList hwf.minute_ne (asc_of_strict hwf.minute_asc)
    have hc : Matches resolve e ⟨r.year, r.month, r.day, r.hour, M, r.second, 0, r.loc, r.zoneOffset⟩ :=
      ⟨hm.year, hm.month, hm.day, hm.hour, hMm, hm.second⟩
    have h1 := hmax _ hc (by unfold ltSecond; simp only; omega)
    have h2 := hMx _ hm.minute
    unfold ltSecond at h1
    simp only [lt_self_iff_false, false_or, true_and] at h1
    have : M = r.minute := by omega
    rw [hM, this]
  · intro hd
    obtain ⟨S, hS, hSm, hSx⟩ :=
      lastOf_spec e.secondList hwf.second_ne (asc_of_strict hwf.second_asc)
    have hc : Matches resolve e ⟨r.year, r.month, r.day, r.hour, r.minute, S, 0, r.loc, r.zoneOffset⟩ :=
      ⟨hm.year, hm.month, hm.day, hm.hour, hm.minute, hSm⟩
    have h1 := hmax _ hc (by unfold ltSecond; simp only; omega)
    have h2 := hSx _ hm.second
    unfold ltSecond at h1
    simp only [lt_self_iff_false, false_or, true_and] at h1
    have : S = r.second := by omega
    rw [hS, this]

/-- The hypotheses of `Prev_carry` hold for the schedule "midnight of the 31st
of January and February in 2023 and 2024" and the instant 2024-01-15 00:00:00
UTC, from which `Prev` carries into the year 2023. -/
theorem Prev_carry_witness :
    WellFormed lastOfJanuary ∧ ResolverOK specResolver lastOfJanuary ∧
    YearsInRange lastOfJanuary ∧ UTC.tx = [] ∧
    ¬ (⟨2024, 1, 15, 0, 0, 0, 0, UTC, 0⟩ : Time).IsZero ∧
    ∃ r e2, Prev specResolver (prevFuel lastOfJanuary) lastOfJanuary
        ⟨2024, 1, 15, 0, 0, 0, 0, UTC, 0⟩ = .ok (r, e2) ∧
      (¬ r.IsZero →
        (r.year ≠ 2024 →
          r.month ∈ lastOfJanuary.monthList ∧
          specResolver lastOfJanuary r.year r.month ≠ [] ∧
          ∀ m ∈ lastOfJanuary.monthList, r.month < m →
            specResolver lastOfJanuary r.year m = []) ∧
        (r.year ≠ 2024 ∨ r.month ≠ 1 →
          lastOf (specResolver lastOfJanuary r.year r.month) = .ok r.day) ∧
        (r.year ≠ 2024 ∨ r.month ≠ 1 ∨ r.day ≠ 15 →
          lastOf lastOfJanuary.hourList = .ok r.hour) ∧
        (r.year ≠ 2024 ∨ r.month ≠ 1 ∨ r.day ≠ 15 ∨ r.hour ≠ 0 →
          lastOf lastOfJanuary.minuteList = .ok r.minute) ∧
        (r.year ≠ 2024 ∨ r.month ≠ 1 ∨ r.day ≠ 15 ∨ r.hour ≠ 0 ∨ r.minute ≠ 0 →
          lastOf lastOfJanuary.secondList = .ok r.second)) :=
  ⟨lastOfJanuary_wf, specResolver_ok _, years_lastOfJanuary, rfl, by decide,
    Prev_carry specResolver lastOfJanuary ⟨2024, 1, 15, 0, 0, 0, 0, UTC, 0⟩ _ lastOfJanuary_wf
      (specResolver_ok _) years_lastOfJanuary rfl (by decide) (le_refl _)⟩

set_option maxRecDepth 8192 in
/-- The run of `Prev` on "midnight of the 31st of January and February in 2023
and 2024" from 2024-01-15 00:00:00 UTC. -/
theorem lastOfJanuary_run :
    Prev specResolver (prevFuel lastOfJanuary) lastOfJanuary ⟨2024, 1, 15, 0, 0, 0, 0, UTC, 0⟩
      = .ok (⟨2023, 1, 31, 0, 0, 0, 0, UTC, 0⟩, lastOfJanuary.withDays [31]) := by
  rfl

/-- C17, as stated, fails in four ways.  On the schedule "midnight of the 31st
of January and February in 2023 and 2024", well-formed, `Prev` from 2024-01-15
00:00:00 UTC returns 2023-01-31 00:00:00; the result differs from `fromTime`
in the year, and its month 1 is not the last element 2 of `monthList`.  Across
a zone transition: on "every day at 02:30:00 in 2024" in `Europe/Berlin`,
`Prev` from 2024-04-01 01:00:00 returns 2024-03-31 03:30:00; the result
differs in the month, and its hour 3 is not the last element 2 of `hourList`.
With an hour outside 0..23 (hour 47 on March 10, 2024): `Prev` from 2024-03-12
12:00:00 UTC returns 2024-03-11 23:00:00; the result differs in the day, and
its hour is not the last element 47 of `hourList`.  With a listed year where
the count of seconds wraps (-300000000000): `Prev` from 2024-01-01 returns an
instant of December of the year 284554049253, at 07:00:16; the result differs
in the year, and its month, hour and second are not the last elements 1, 0 and
0 of their lists. -/
theorem Prev_carry_counterexample :
    (WellFormed lastOfJanuary ∧ ResolverOK specResolver lastOfJanuary ∧
      ¬ (⟨2024, 1, 15, 0, 0, 0, 0, UTC, 0⟩ : Time).IsZero ∧
      Prev specResolver (prevFuel lastOfJanuary) lastOfJanuary
          ⟨2024, 1, 15, 0, 0, 0, 0, UTC, 0⟩
        = .ok (⟨2023, 1, 31, 0, 0, 0, 0, UTC, 0⟩, lastOfJanuary.withDays [31]) ∧
      ¬ (⟨2023, 1, 31, 0, 0, 0, 0, UTC, 0⟩ : Time).IsZero ∧
      (⟨2023, 1, 31, 0, 0, 0, 0, UTC, 0⟩ : Time).year
        ≠ (⟨2024, 1, 15, 0, 0, 0, 0, UTC, 0⟩ : Time).year ∧
      lastOf lastOfJanuary.monthList = .ok 2 ∧
      (⟨2023, 1, 31, 0, 0, 0, 0, UTC, 0⟩ : Time).month ≠ 2) ∧
    (WellFormed nightly ∧ ResolverOK specResolver nightly ∧
      (⟨2024, 4, 1, 1, 0, 0, 0, berlin, 7200⟩ : Time).InZone ∧
      ¬ (⟨2024, 4, 1, 1, 0, 0, 0, berlin, 7200⟩ : Time).IsZero ∧
      Prev specResolver (prevFuel nightly) nightly ⟨2024, 4, 1, 1, 0, 0, 0, berlin, 7200⟩
        = .ok (⟨2024, 3, 31, 3, 30, 0, 0, berlin, 7200⟩,
            nightly.withDays (monthDays 2024 3)) ∧
      ¬ (⟨2024, 3, 31, 3, 30, 0, 0, berlin, 7200⟩ : Time).IsZero ∧
      (⟨2024, 3, 31, 3, 30, 0, 0, berlin, 7200⟩ : Time).month
        ≠ (⟨2024, 4, 1, 1, 0, 0, 0, berlin, 7200⟩ : Time).month ∧
      lastOf nightly.hourList = .ok 2 ∧
      (⟨2024, 3, 31, 3, 30, 0, 0, berlin, 7200⟩ : Time).hour ≠ 2) ∧
    (Ascending hour47 ∧ ResolverOK specResolver hour47 ∧
      ¬ (⟨2024, 3, 12, 12, 0, 0, 0, UTC, 0⟩ : Time).IsZero ∧
      Prev specResolver (prevFuel hour47) hour47 ⟨2024, 3, 12, 12, 0, 0, 0, UTC, 0⟩
        = .ok (⟨2024, 3, 11, 23, 0, 0, 0, UTC, 0⟩, hour47.withDays [10]) ∧
      ¬ (⟨2024, 3, 11, 23, 0, 0, 0, UTC, 0⟩ : Time).IsZero ∧
      (⟨2024, 3, 11, 23, 0, 0, 0, UTC, 0⟩ : Time).day
        ≠ (⟨2024, 3, 12, 12, 0, 0, 0, UTC, 0⟩ : Time).day ∧
      lastOf hour47.hourList = .ok 47 ∧
      (⟨2024, 3, 11, 23, 0, 0, 0, UTC, 0⟩ : Time).hour ≠ 47) ∧
    (WellFormed farPast ∧ ResolverOK specResolver farPast ∧
      ¬ (⟨2024, 1, 1, 0, 0, 0, 0, UTC, 0⟩ : Time).IsZero ∧
      Prev specResolver (prevFuel farPast) farPast ⟨2024, 1, 1, 0, 0, 0, 0, UTC, 0⟩
        = .ok (⟨284554049253, 12, 8, 7, 0, 16, 0, UTC, 0⟩,
            farPast.withDays (monthDays (-300000000000) 1)) ∧
      ¬ (⟨284554049253, 12, 8, 7, 0, 16, 0, UTC, 0⟩ : Time).IsZero ∧
      (⟨284554049253, 12, 8, 7, 0, 16, 0, UTC, 0⟩ : Time).year
        ≠ (⟨2024, 1, 1, 0, 0, 0, 0, UTC, 0⟩ : Time).year ∧
      lastOf farPast.monthList = .ok 1 ∧ lastOf farPast.hourList = .ok 0 ∧
      lastOf farPast.secondList = .ok 0 ∧
      (⟨284554049253, 12, 8, 7, 0, 16, 0, UTC, 0⟩ : Time).month ≠ 1 ∧
      (⟨284554049253, 12, 8, 7, 0, 16, 0, UTC, 0⟩ : Time).hour ≠ 0 ∧
      (⟨284554049253, 12, 8, 7, 0, 16, 0, UTC, 0⟩ : Time).second ≠ 0) :=
  ⟨⟨lastOfJanuary_wf, specResolver_ok _, by decide, lastOfJanuary_run, by decide, by decide,
      by rfl, by decide⟩,
    ⟨nightly_wf, specResolver_ok _, by decide, by decide, by rfl, by decide, by decide,
      by rfl, by decide⟩,
    ⟨hour47_ascending, specResolver_ok _, by decide, by rfl, by decide, by decide, by rfl,
      by decide⟩,
    ⟨farPast_wf, specResolver_ok _, by decide, by rfl, by decide,
      by show (284554049253 : Int) ≠ 2024; omega, by rfl, by rfl, by rfl, by decide,
      by decide, by decide⟩⟩
end Cronexpr
